import Mathlib

/-!
# Freescape 8-bit binary loader: `load8bitArea` and `load8bitBinary`

Shallow embedding of `FreescapeExporter/References/8bitBinaryLoader_snippet.cpp`.

* The byte stream is a list of bytes with a cursor; the primitive readers are fallible.
* The activity of `debugC` (diagnostic logging) has no effect on the result and is left out.
* The external collaborators of the area decoder (object decoder, object observers,
  room-name tables, message table) are the fields of `Env`.
-/

namespace Freescape

/-! ## Byte stream -/

/-- Ways in which a load stops without returning a result. -/
inductive LoadError where
  /-- a read past the end of the stream, or a seek outside it -/
  | structural
  /-- an index outside a lookup table -/
  | outOfBounds (index : Nat)
  /-- the call `error("WARNING: replacing object id %d (%d)", id, id & 0x7fff)` -/
  | replacingObject (objectID : Nat) (masked : Nat)
  deriving DecidableEq, Repr

/-- A seekable read stream (`Common::SeekableReadStream`): its bytes and the cursor. -/
structure File where
  data : List (Fin 256)
  pos : Nat
  deriving DecidableEq, Repr

/-- The stream with the cursor moved forward by `n` bytes. -/
def File.skip (file : File) (n : Nat) : File :=
  { file with pos := file.pos + n }

/-- The values of the `len` bytes that start `off` bytes after the cursor (fewer when the
stream ends before). -/
def File.bytesAt (file : File) (off len : Nat) : List Nat :=
  ((file.data.drop (file.pos + off)).take len).map (fun b => b.val)

/-- Reads the byte under the cursor and advances the cursor by one; fails at the end of the
stream. -/
def readByte (file : File) : Except LoadError (Nat × File) :=
  match file.data[file.pos]? with
  | some b => .ok (b.val, file.skip 1)
  | none => .error .structural

/-- Reads `n` bytes as one unsigned number, least significant byte first. -/
def readLE : Nat → File → Except LoadError (Nat × File)
  | 0, file => .ok (0, file)
  | n + 1, file =>
    match readByte file with
    | .error e => .error e
    | .ok (b, file) =>
      match readLE n file with
      | .error e => .error e
      | .ok (rest, file) => .ok (b + 256 * rest, file)

/-- Modelled from the spec: `readField` is not part of the source file. `readField(source,
bitWidth)` consumes exactly `bitWidth` bits (always a multiple of 8) from the current cursor,
advances the cursor, and fails if insufficient bytes remain. The byte order of a 16-bit field
is not fixed by the spec; least significant byte first is used here. -/
def readField (file : File) (bits : Nat) : Except LoadError (Nat × File) :=
  readLE (bits / 8) file

/-- Modelled from the spec: `readPtr` is not part of the source file. It consumes a
16-bit offset. -/
def readPtr (file : File) : Except LoadError (Nat × File) :=
  readField file 16

/-! ## Variant classification -/

/-- Game titles handled by the loader. `eclipse2` is the secondary sub-variant of the
eclipse family: both `isEclipse` and `isEclipse2` hold for it. -/
inductive Title where
  | driller | dark | eclipse | eclipse2 | castle
  deriving DecidableEq, Repr

/-- Target hardware platforms. -/
inductive Platform where
  | dos | amiga | atariST | spectrum | cpc | c64
  deriving DecidableEq, Repr

/-- Release kinds. -/
inductive ReleaseKind where
  | full | demo
  deriving DecidableEq, Repr

/-- Modelled from the spec: the predicates `isCastle()`, `isSpectrum()`, ... of the source are
declared outside the source file; they answer from one classification
(game title, platform, release kind) that is fixed for a load session. -/
structure Variant where
  title : Title
  platform : Platform
  release : ReleaseKind
  deriving DecidableEq, Repr

def isDriller (v : Variant) : Bool := v.title == .driller
def isDark (v : Variant) : Bool := v.title == .dark
def isEclipse (v : Variant) : Bool := v.title == .eclipse || v.title == .eclipse2
def isEclipse2 (v : Variant) : Bool := v.title == .eclipse2
def isCastle (v : Variant) : Bool := v.title == .castle
def isDOS (v : Variant) : Bool := v.platform == .dos
def isAmiga (v : Variant) : Bool := v.platform == .amiga
def isAtariST (v : Variant) : Bool := v.platform == .atariST
def isSpectrum (v : Variant) : Bool := v.platform == .spectrum
def isCPC (v : Variant) : Bool := v.platform == .cpc
def isC64 (v : Variant) : Bool := v.platform == .c64
def isDemo (v : Variant) : Bool := v.release == .demo

/-- The source's condition for the swap of ground and sky colours (lines 76 and 113): Eclipse on
Amiga or Atari ST, Castle on Amiga. -/
def swapsSkyAndGround (v : Variant) : Bool :=
  (isEclipse v && (isAmiga v || isAtariST v)) || (isCastle v && isAmiga v)

/-- The source's condition for the attribute-byte colour branch (negation of line 26). -/
def usesAttributeByte (v : Variant) : Bool :=
  isCastle v && (isSpectrum v || isCPC v || isC64 v)

/-! ## Strings, tables -/

/-- A `Common::String`: its bytes. -/
abbrev CString := List Nat

/-- The conversion `char(x)` of a field value: its low eight bits. -/
def toChar (x : Nat) : Nat := x % 256

/-- The string literal `"-"`. -/
def strDash : CString := [45]

/-- The string literal `" "`. -/
def strSpace : CString := [32]

/-- The string literal `"GLOBAL"`. -/
def strGLOBAL : CString := [71, 76, 79, 66, 65, 76]

/-- Indexing `table[index]` of an array of strings; an index outside the array stops the
load. -/
def lookup (table : List CString) (index : Nat) : Except LoadError CString :=
  match table[index]? with
  | some s => .ok s
  | none => .error (.outOfBounds index)

/-! ## Objects and object maps -/

/-- An `ObjectMap` (hash map from 16-bit keys to objects): its entries, at most one for each
key. -/
structure ObjectMap (Obj : Type) where
  entries : List (Nat × Obj)

/-- A freshly created map (`new ObjectMap`). -/
def ObjectMap.empty {Obj : Type} : ObjectMap Obj := ⟨[]⟩

/-- The test `map->contains(key)`. -/
def ObjectMap.contains {Obj : Type} (m : ObjectMap Obj) (key : Nat) : Bool :=
  m.entries.any (fun e => e.1 == key)

/-- The assignment `(*map)[key] = value`: the entry of `key` is created or overwritten. -/
def ObjectMap.assign {Obj : Type} (m : ObjectMap Obj) (key : Nat) (value : Obj) :
    ObjectMap Obj :=
  ⟨(key, value) :: m.entries.filter (fun e => e.1 != key)⟩

/-- The value stored under `key`, if any. -/
def ObjectMap.find? {Obj : Type} (m : ObjectMap Obj) (key : Nat) : Option Obj :=
  (m.entries.find? (fun e => e.1 == key)).map (fun e => e.2)

/-- The number of entries of the map. -/
def ObjectMap.size {Obj : Type} (m : ObjectMap Obj) : Nat :=
  m.entries.length

/-- The number of entries stored under `key`. -/
def ObjectMap.countKey {Obj : Type} (m : ObjectMap Obj) (key : Nat) : Nat :=
  (m.entries.filter (fun e => e.1 == key)).length

/-- The external collaborators of the area decoder, none of which is part of the source file:
the object decoder `load8bitObject` (it may return no object), the observers of an object
(`scale`, `getType`, `getObjectID`, the latter a 16-bit value), the constant `kEntranceType`,
the two room-name tables of the eclipse family and the message table `_messagesList`. -/
structure Env (Obj : Type) where
  load8bitObject : File → Except LoadError (Option Obj × File)
  scale : Nat → Obj → Obj
  getType : Obj → Nat
  getObjectID : Obj → Fin 65536
  kEntranceType : Nat
  eclipseRoomName : List CString
  eclipse2RoomName : List CString
  messagesList : List CString

/-! ## The area record -/

/-- The decoded area. -/
structure Area (Obj : Type) where
  areaNumber : Nat
  areaFlags : Nat
  scale : Nat
  skyColor : Nat
  groundColor : Nat
  usualBackgroundColor : Nat
  underFireBackgroundColor : Nat
  paperColor : Nat
  inkColor : Nat
  extraColor : List Nat
  gasPocketX : Nat
  gasPocketY : Nat
  gasPocketRadius : Nat
  name : CString
  objectsByID : ObjectMap Obj
  entrancesByID : ObjectMap Obj

/-- The colour variables after the colour branch (lines 21 to 42). -/
structure Colours where
  skyColor : Nat
  usualBackgroundColor : Nat
  underFireBackgroundColor : Nat
  paperColor : Nat
  inkColor : Nat
  deriving DecidableEq, Repr

/-- Lines 27 to 30: the four-field colour branch. The sky colour is left as it is. -/
def readFourColours (skyColor : Nat) (file : File) : Except LoadError (Colours × File) := do
  let (usualBackgroundColor, file) ← readField file 8
  let (underFireBackgroundColor, file) ← readField file 8
  let (paperColor, file) ← readField file 8
  let (inkColor, file) ← readField file 8
  pure (⟨skyColor, usualBackgroundColor, underFireBackgroundColor, paperColor, inkColor⟩, file)

/-- Lines 32 to 41: the attribute-byte colour branch. Background colours keep their initial
value 0, the sky colour is set to 0. -/
def readAttributeColours (v : Variant) (file : File) : Except LoadError (Colours × File) := do
  let (attributeByte, file) ← readField file 8
  let (paperColor, inkColor) :=
    if isSpectrum v then (attributeByte >>> 4, attributeByte &&& 0xf)
    else if isCPC v then (attributeByte, 0xb)
    else (0, 0)
  pure (⟨0, 0, 0, paperColor, inkColor⟩, file)

/-- Lines 21 to 42: the colour branch, selected by the test of line 26. -/
def readColours (v : Variant) (skyColor : Nat) (file : File) :
    Except LoadError (Colours × File) :=
  if !(isCastle v && (isSpectrum v || isCPC v || isC64 v)) then
    readFourColours skyColor file
  else
    readAttributeColours v file

/-- The loop `while (i < n) { name = name + char(readField(file, 8)); i++; }`. -/
def appendChars : Nat → CString → File → Except LoadError (CString × File)
  | 0, name, file => .ok (name, file)
  | n + 1, name, file => do
    let (c, file) ← readField file 8
    appendChars n (name ++ [toChar c]) file

/-- The variables set by the title branch (lines 55 to 123). -/
structure TitleFields where
  name : CString
  gasPocketX : Nat
  gasPocketY : Nat
  gasPocketRadius : Nat
  extraColor : List Nat
  skyColor : Nat
  groundColor : Nat
  deriving DecidableEq, Repr

/-- Lines 55 to 123: the branch on the game title. `name` starts empty, the gas pocket and
the extra colours start at 0. -/
def readTitleFields {Obj : Type} (env : Env Obj) (v : Variant) (areaNumber skyColor
    groundColor : Nat) (file : File) : Except LoadError (TitleFields × File) :=
  if isEclipse v then do
    let (idx, file) ← readField file 8
    let name ←
      (if isEclipse2 v then
        (if idx < 8 then lookup env.eclipse2RoomName idx else lookup env.eclipse2RoomName 8)
      else
        (if idx < 8 then lookup env.eclipseRoomName idx else lookup env.eclipseRoomName 8))
    let (c, file) ← readField file 8
    let name := name ++ strDash ++ [toChar c] ++ strSpace
    let (name, file) ← appendChars 3 name file
    let (groundColor, skyColor) :=
      if isAmiga v || isAtariST v then (skyColor, 0) else (groundColor, skyColor)
    pure (⟨name, 0, 0, 0, [0, 0, 0, 0], skyColor, groundColor⟩, file)
  else if isDriller v || isDark v then do
    let (name, gasPocketX, gasPocketY, gasPocketRadius, file) ←
      (if isDriller v then do
        let (gasPocketX, file) ← readField file 8
        let (gasPocketY, file) ← readField file 8
        let (gasPocketRadius, file) ← readField file 8
        pure (([] : CString), gasPocketX, gasPocketY, gasPocketRadius, file)
      else do
        let (c1, file) ← readField file 8
        let (c2, file) ← readField file 8
        let (c3, file) ← readField file 8
        pure (([] : CString) ++ [toChar c1] ++ [toChar c2] ++ [toChar c3], 0, 0, 0, file))
    let (name, file) ← appendChars 12 name file
    pure (⟨name, gasPocketX, gasPocketY, gasPocketRadius, [0, 0, 0, 0], skyColor,
      groundColor⟩, file)
  else if isCastle v then do
    let (idx, file) ← readField file 8
    let name ←
      (if isAmiga v then lookup env.messagesList (idx + 51)
      else if isSpectrum v || isCPC v then
        (if areaNumber = 255 then pure strGLOBAL else lookup env.messagesList (idx + 16))
      else lookup env.messagesList (idx + 41))
    let (extraColor, file) ←
      (if isDOS v then do
        let (e0, file) ← readField file 8
        let (e1, file) ← readField file 8
        let (e2, file) ← readField file 8
        let (e3, file) ← readField file 8
        pure ([e0, e1, e2, e3], file)
      else pure ([0, 0, 0, 0], file))
    if isAmiga v then do
      let (e0, file) ← readField file 8
      let (e1, file) ← readField file 8
      let (e2, file) ← readField file 8
      let (e3, file) ← readField file 8
      pure (⟨name, 0, 0, 0, [e0, e1, e2, e3], 0, skyColor⟩, file)
    else
      pure (⟨name, 0, 0, 0, extraColor, skyColor, groundColor⟩, file)
  else
    pure (⟨[], 0, 0, 0, [0, 0, 0, 0], skyColor, groundColor⟩, file)

/-- The local variables of `load8bitArea` when the object loop is reached (line 126). -/
structure AreaHeader where
  areaFlags : Nat
  numberOfObjects : Nat
  areaNumber : Nat
  cPtr : Nat
  scale : Nat
  skyColor : Nat
  groundColor : Nat
  usualBackgroundColor : Nat
  underFireBackgroundColor : Nat
  paperColor : Nat
  inkColor : Nat
  gasPocketX : Nat
  gasPocketY : Nat
  gasPocketRadius : Nat
  extraColor : List Nat
  name : CString
  deriving DecidableEq, Repr

/-- Lines 1 to 124 of `load8bitArea`: everything before the object loop. -/
def load8bitAreaHeader {Obj : Type} (env : Env Obj) (v : Variant) (file : File) :
    Except LoadError (AreaHeader × File) := do
  let (areaFlags, file) ← readField file 8
  let (numberOfObjects, file) ← readField file 8
  let (areaNumber, file) ← readField file 8
  let (cPtr, file) ← readPtr file
  let (scale, file) ← readField file 8
  let skyColor := areaFlags &&& 15
  let groundColor := areaFlags >>> 4
  let groundColor := if groundColor = 0 then 255 else groundColor
  let (colours, file) ← readColours v skyColor file
  let (fields, file) ← readTitleFields env v areaNumber colours.skyColor groundColor file
  pure ({ areaFlags := areaFlags, numberOfObjects := numberOfObjects,
          areaNumber := areaNumber, cPtr := cPtr, scale := scale,
          skyColor := fields.skyColor, groundColor := fields.groundColor,
          usualBackgroundColor := colours.usualBackgroundColor,
          underFireBackgroundColor := colours.underFireBackgroundColor,
          paperColor := colours.paperColor, inkColor := colours.inkColor,
          gasPocketX := fields.gasPocketX, gasPocketY := fields.gasPocketY,
          gasPocketRadius := fields.gasPocketRadius, extraColor := fields.extraColor,
          name := fields.name }, file)

/-! ## The object loop -/

/-- The variables of the object loop, with two records kept for the specification: the
number of calls of `load8bitObject` made so far and the IDs reported as replaced. -/
structure LoopState (Obj : Type) where
  file : File
  objectsByID : ObjectMap Obj
  entrancesByID : ObjectMap Obj
  calls : Nat
  anomalies : List Nat

/-- The routine `error(...)` called at line 136. It is the engine's fatal-error routine: it
prints its message and terminates, it never returns to its caller (unlike `debugC`, which
logs and returns). The statements after the call are not reached and no Area is returned. -/
def error (e : LoadError) : Except LoadError Unit := .error e

/-- Lines 135 to 138: the entrance branch of the loop body. -/
def insertEntrance {Obj : Type} (env : Env Obj) (st : LoopState Obj) (newObject : Obj) :
    Except LoadError (LoopState Obj) := do
  if st.entrancesByID.contains ((env.getObjectID newObject).val &&& 0x7fff) then
    error (.replacingObject (env.getObjectID newObject).val
      ((env.getObjectID newObject).val &&& 0x7fff))
  pure { st with entrancesByID :=
    st.entrancesByID.assign ((env.getObjectID newObject).val &&& 0x7fff) newObject }

/-- Modelled from the spec: the source file breaks off inside the non-entrance branch, after
the test `if (objectsByID->contains(newObject->getObjectID()))` of line 140. The spec has:
"otherwise insert into the objects collection keyed by the raw ID. Either insertion first
checks for an existing key; a collision raises a non-fatal anomaly and the new object
replaces the old one." -/
def insertObject {Obj : Type} (env : Env Obj) (st : LoopState Obj) (newObject : Obj) :
    LoopState Obj :=
  let st :=
    if st.objectsByID.contains (env.getObjectID newObject).val then
      { st with anomalies := st.anomalies ++ [(env.getObjectID newObject).val] }
    else st
  { st with objectsByID := st.objectsByID.assign (env.getObjectID newObject).val newObject }

/-- Lines 130 to 140: one turn of the object loop. -/
def loopBody {Obj : Type} (env : Env Obj) (scale : Nat) (st : LoopState Obj) :
    Except LoadError (LoopState Obj) := do
  let (newObject, file) ← env.load8bitObject st.file
  let st := { st with file := file, calls := st.calls + 1 }
  match newObject with
  | some newObject =>
    let newObject := env.scale scale newObject
    if env.getType newObject = env.kEntranceType then
      insertEntrance env st newObject
    else
      pure (insertObject env st newObject)
  | none => pure st

/-- Line 128: `for (uint8 object = 0; object < numberOfObjects && areaNumber != 192;
object++)`. The first argument is `numberOfObjects - object`, the number of turns left. -/
def objectLoop {Obj : Type} (env : Env Obj) (scale areaNumber : Nat) :
    Nat → LoopState Obj → Except LoadError (LoopState Obj)
  | 0, st => .ok st
  | remaining + 1, st =>
    if areaNumber ≠ 192 then do
      let st ← loopBody env scale st
      objectLoop env scale areaNumber remaining st
    else .ok st

/-- What `load8bitArea` hands back: the area, the stream as it is left, and the two records
of the object loop. -/
structure LoadedArea (Obj : Type) where
  area : Area Obj
  file : File
  calls : Nat
  anomalies : List Nat

/-- Modelled from the spec: the end of `load8bitArea` is not part of the source file. The
spec has: "on success, the returned Area has both collections populated (possibly empty) and
all derived colors/names resolved; the cursor is left immediately after the last object
record (or after the header if the sentinel-192 skip applied)". -/
def makeArea {Obj : Type} (h : AreaHeader) (st : LoopState Obj) : LoadedArea Obj :=
  { area :=
      { areaNumber := h.areaNumber, areaFlags := h.areaFlags, scale := h.scale,
        skyColor := h.skyColor, groundColor := h.groundColor,
        usualBackgroundColor := h.usualBackgroundColor,
        underFireBackgroundColor := h.underFireBackgroundColor,
        paperColor := h.paperColor, inkColor := h.inkColor,
        extraColor := h.extraColor,
        gasPocketX := h.gasPocketX, gasPocketY := h.gasPocketY,
        gasPocketRadius := h.gasPocketRadius, name := h.name,
        objectsByID := st.objectsByID, entrancesByID := st.entrancesByID },
    file := st.file, calls := st.calls, anomalies := st.anomalies }

/-- The area decoder `load8bitArea`. -/
def load8bitArea {Obj : Type} (env : Env Obj) (v : Variant) (file : File) :
    Except LoadError (LoadedArea Obj) := do
  let (h, file) ← load8bitAreaHeader env v file
  let st ← objectLoop env h.scale h.areaNumber h.numberOfObjects
    ⟨file, ObjectMap.empty, ObjectMap.empty, 0, []⟩
  pure (makeArea h st)

/-! ## Specification devices for the object loop -/

/-- The key under which the loop stores an entrance: `getObjectID() & 0x7fff`. -/
def entranceKey {Obj : Type} (env : Env Obj) (o : Obj) : Nat :=
  (env.getObjectID o).val &&& 0x7fff

/-- The objects obtained from `n` successive records: each is what `load8bitObject` returns
with `scale(scale)` applied; records that yield no object contribute nothing. Fails when one
of the `n` calls of the decoder fails. -/
def decodeObjects {Obj : Type} (env : Env Obj) (scale : Nat) :
    Nat → File → Except LoadError (List Obj × File)
  | 0, file => .ok ([], file)
  | n + 1, file =>
    match env.load8bitObject file with
    | .error e => .error e
    | .ok (newObject, file) =>
      match decodeObjects env scale n file with
      | .error e => .error e
      | .ok (rest, file) =>
        .ok ((match newObject with
              | some o => [env.scale scale o]
              | none => []) ++ rest, file)

/-- The keys of the entrances among `objs`, in order. -/
def entranceKeys {Obj : Type} (env : Env Obj) (objs : List Obj) : List Nat :=
  (objs.filter (fun o => decide (env.getType o = env.kEntranceType))).map (entranceKey env)

/-- The keys of the objects of `objs` that are not entrances, in order. -/
def objectKeys {Obj : Type} (env : Env Obj) (objs : List Obj) : List Nat :=
  (objs.filter (fun o => decide (¬ env.getType o = env.kEntranceType))).map
    (fun o => (env.getObjectID o).val)

/-- Assigns, in order, every object of `objs` that satisfies `P` to its key: the effect on a
map of a run of stores that replace silently. -/
def assignAll {Obj : Type} (P : Obj → Prop) [DecidablePred P] (key : Obj → Nat)
    (objs : List Obj) (m : ObjectMap Obj) : ObjectMap Obj :=
  objs.foldl (fun m o => if P o then m.assign (key o) o else m) m

/-- The map obtained from `m` by assigning, in order, every entrance of `objs` to its key. -/
def entrancesOf {Obj : Type} (env : Env Obj) (objs : List Obj) (m : ObjectMap Obj) :
    ObjectMap Obj :=
  assignAll (fun o => env.getType o = env.kEntranceType) (entranceKey env) objs m

/-- The map obtained from `m` by assigning, in order, every object of `objs` that is not an
entrance to its identifier. -/
def objectsOf {Obj : Type} (env : Env Obj) (objs : List Obj) (m : ObjectMap Obj) :
    ObjectMap Obj :=
  assignAll (fun o => ¬ env.getType o = env.kEntranceType)
    (fun o => (env.getObjectID o).val) objs m

/-- The number of bytes of an area record before its first object record: 6 header bytes,
then 1 colour byte in the attribute-byte branch and 4 otherwise, then 5 bytes for Eclipse,
15 for Driller and for Dark, and for Castle 1 byte plus 4 more on DOS or Amiga. -/
def headerSize (v : Variant) : Nat :=
  6 + (if usesAttributeByte v then 1 else 4) +
    (if isEclipse v then 5
     else if isDriller v || isDark v then 15
     else if isCastle v then 1 + (if isDOS v || isAmiga v then 4 else 0)
     else 0)

/-- The objects obtained from `n` successive records as the decoder returns them, before
`scale` is applied. -/
def rawObjects {Obj : Type} (env : Env Obj) : Nat → File → List Obj
  | 0, _ => []
  | n + 1, file =>
    match env.load8bitObject file with
    | .error _ => []
    | .ok (newObject, file) =>
      (match newObject with
        | some o => [o]
        | none => []) ++ rawObjects env n file

/-- A computation whose only way to fail is the structural error. -/
def FailsOnlyStructurally {α : Type} (x : Except LoadError α) : Prop :=
  ∀ e, x = .error e → e = .structural

/-- The tables are complete: nine room names in each table of the eclipse family and a
message for every index that the Castle branch can form (at most 255 + 51). -/
def TablesComplete {Obj : Type} (env : Env Obj) : Prop :=
  9 ≤ env.eclipseRoomName.length ∧ 9 ≤ env.eclipse2RoomName.length ∧
    307 ≤ env.messagesList.length

/-! ## The database bootstrap `load8bitBinary` -/

/-- Modelled from the spec: `seek` is not part of the source file. `seek(source,
absolutePosition)` repositions the cursor and fails if the position is out of bounds; a
position up to and including the end of the stream is taken as in bounds. -/
def seek (file : File) (position : Nat) : Except LoadError File :=
  if position ≤ file.data.length then .ok { file with pos := position }
  else .error .structural

/-- The variables read at the start of `load8bitBinary` (lines 141 to 155). -/
structure BinaryHeader where
  numberOfAreas : Nat
  dbSize : Nat
  startArea : Nat
  startEntrance : Nat
  deriving DecidableEq, Repr

/-- Lines 141 to 155 of `load8bitBinary`: area count with the override of line 143, database
size, the extra 16-bit field read on Amiga and Atari ST (its value is only logged), start
area and start entrance. -/
def load8bitBinaryHeader (v : Variant) (file : File) :
    Except LoadError (BinaryHeader × File) := do
  let (numberOfAreas, file) ← readField file 8
  let numberOfAreas := if isAmiga v && isCastle v && isDemo v then 87 else numberOfAreas
  let (dbSize, file) ← readField file 16
  let file ← (if isAmiga v || isAtariST v then do
      let (_, file) ← readField file 16
      pure file
    else pure file)
  let (startArea, file) ← readField file 8
  let (startEntrance, file) ← readField file 8
  pure (⟨numberOfAreas, dbSize, startArea, startEntrance⟩, file)

/-- Lines 156 to 160: the loop that fills `fileOffsetForArea`; the first argument is the
number of entries still to read. -/
def readOffsetTable : Nat → File → Except LoadError (List Nat × File)
  | 0, file => .ok ([], file)
  | n + 1, file => do
    let (entry, file) ← readPtr file
    let (rest, file) ← readOffsetTable n file
    pure (entry :: rest, file)

/-- The loaded database, with two records kept for the specification: the offset table as
read and the targets of the seeks made, in order. -/
structure Database (Obj : Type) where
  numberOfAreas : Nat
  dbSize : Nat
  startArea : Nat
  startEntrance : Nat
  areas : List (Nat × Area Obj)
  table : List Nat
  seeks : List Nat

/-- Lines 164 to 168: the loop over the offset table, each turn a seek to
`offset + fileOffsetForArea[area]` followed by `load8bitArea`. The arguments are the entries
still to visit and the index `area` of the first of them; the result is the list of the
areas with their index, the seek targets, and the stream as it is left.

Modelled from the spec: the source file breaks off after the call of `load8bitArea` of line
168. The spec has: "retain the result indexed by its position in the table", and a failure
of an area aborts the whole load with no partial database. -/
def loadAreas {Obj : Type} (env : Env Obj) (v : Variant) (offset : Nat) :
    List Nat → Nat → File → Except LoadError (List (Nat × Area Obj) × List Nat × File)
  | [], _, file => .ok ([], [], file)
  | entry :: rest, area, file => do
    let file ← seek file (offset + entry)
    let newArea ← load8bitArea env v file
    let (areas, seeks, file) ← loadAreas env v offset rest (area + 1) newArea.file
    pure ((area, newArea.area) :: areas, (offset + entry) :: seeks, file)

/-- The database bootstrap `load8bitBinary` from line 141 on. `offset` is the base position
of the database, a variable declared before the part of the function that the source file
shows. -/
def load8bitBinary {Obj : Type} (env : Env Obj) (v : Variant) (offset : Nat) (file : File) :
    Except LoadError (Database Obj) := do
  let (b, file) ← load8bitBinaryHeader v file
  let (fileOffsetForArea, file) ← readOffsetTable b.numberOfAreas file
  let (areas, seeks, _) ← loadAreas env v offset fileOffsetForArea 0 file
  pure ⟨b.numberOfAreas, b.dbSize, b.startArea, b.startEntrance, areas, fileOffsetForArea,
    seeks⟩

/-! ## A concrete object decoder, used to run the loader on sample streams -/

/-- A sample object: type tag, identifier, and the list of scale factors applied to it. -/
structure SampleObject where
  type : Nat
  objectID : Fin 65536
  scales : List Nat
  deriving DecidableEq, Repr

/-- A sample object decoder. A record is three bytes: type tag, low and high byte of the
identifier; the type tag 255 stands for a record that yields no object. -/
def sampleDecoder (file : File) : Except LoadError (Option SampleObject × File) := do
  let (t, file) ← readField file 8
  let (id, file) ← readField file 16
  if t = 255 then pure (none, file)
  else pure (some ⟨t, Fin.ofNat id, []⟩, file)

/-- A sample environment: the sample decoder, entrance type tag 0, and small tables. -/
def sampleEnv : Env SampleObject where
  load8bitObject := sampleDecoder
  scale := fun s o => { o with scales := o.scales ++ [s] }
  getType := fun o => o.type
  getObjectID := fun o => o.objectID
  kEntranceType := 0
  eclipseRoomName := [[65], [66], [67], [68], [69], [70], [71], [72], [73]]
  eclipse2RoomName := [[97], [98], [99], [100], [101], [102], [103], [104], [105]]
  messagesList := (List.range 320).map (fun i => [77, i % 256])

/-- A sample area record of Eclipse on DOS: area number 1, declared object count 2, and two
entrance records with identifiers 5 and 0x8005, equal under `& 0x7fff`. -/
def eclipseCollidingRecord : List (Fin 256) :=
  [0x05, 2, 1, 0, 0, 1, 1, 2, 3, 4, 2, 48, 49, 50, 51,
    0, 5, 0,
    0, 5, 128]

/-- A sample area record of Driller on DOS: area number 7, declared object count 3, two
entrance records with identifiers 0 and 0x8000, equal under `& 0x7fff`, and a third record
of type 1 with identifier 9. -/
def drillerCollidingRecord : List (Fin 256) :=
  [0x53, 3, 7, 0, 0, 1, 1, 2, 3, 4, 9, 8, 7,
    65, 66, 67, 68, 69, 70, 71, 72, 73, 74, 75, 76,
    0, 0, 0,
    0, 0, 128,
    1, 9, 0]

/-- A sample database of Driller on DOS, 89 bytes: area count 2 and offset table
[0x10, 0x40]. The area record at 0x10 has area number 5 and two entrance records with
identifiers 5 and 0x8005; the area record at 0x40 has area number 9 and no object. -/
def drillerCollidingDatabase : List (Fin 256) :=
  [2, 89, 0, 1, 0, 0x10, 0, 0x40, 0, 0, 0, 0, 0, 0, 0, 0,
    0x53, 2, 5, 0, 0, 1, 1, 2, 3, 4, 9, 8, 7,
    65, 66, 67, 68, 69, 70, 71, 72, 73, 74, 75, 76,
    0, 5, 0,
    0, 5, 128,
    0, 0, 0, 0, 0, 0, 0, 0, 0, 0, 0, 0, 0, 0, 0, 0, 0,
    0x53, 0, 9, 0, 0, 1, 1, 2, 3, 4, 9, 8, 7,
    65, 66, 67, 68, 69, 70, 71, 72, 73, 74, 75, 76]

/-! ## Auxiliary facts about the readers and the stages of the header -/

theorem bind_ok_iff {ε α β : Type} (x : Except ε α) (f : α → Except ε β) (b : β) :
    (x >>= f) = .ok b ↔ ∃ a, x = .ok a ∧ f a = .ok b := by
  cases x with
  | error e => simp [bind, Except.bind]
  | ok a => simp [bind, Except.bind]

theorem pure_eq_ok {ε α : Type} (a : α) : (pure a : Except ε α) = .ok a := rfl

@[simp] theorem File.skip_pos (file : File) (n : Nat) : (file.skip n).pos = file.pos + n := rfl
@[simp] theorem File.skip_data (file : File) (n : Nat) : (file.skip n).data = file.data := rfl
@[simp] theorem File.skip_skip (file : File) (m n : Nat) :
    (file.skip m).skip n = file.skip (m + n) := by
  simp [File.skip, Nat.add_assoc]

theorem readByte_ok_iff (file : File) (p : Nat × File) :
    readByte file = .ok p ↔ ∃ b : Fin 256, file.data[file.pos]? = some b ∧ p = (b.val, file.skip 1) := by
  unfold readByte
  cases h : file.data[file.pos]? with
  | none => simp
  | some b => simp [eq_comm]

theorem readField8_ok_iff (file : File) (p : Nat × File) :
    readField file 8 = .ok p ↔
      ∃ b : Fin 256, file.data[file.pos]? = some b ∧ p = (b.val, file.skip 1) := by
  rw [← readByte_ok_iff]
  simp only [readField, readLE]
  cases h : readByte file with
  | error e => simp
  | ok q => obtain ⟨x, f⟩ := q; simp

theorem readPtr_ok_iff (file : File) (p : Nat × File) :
    readPtr file = .ok p ↔
      ∃ b0 b1 : Fin 256, file.data[file.pos]? = some b0 ∧ file.data[file.pos + 1]? = some b1 ∧
        p = (b0.val + 256 * b1.val, file.skip 2) := by
  simp only [readPtr, readField, readLE, readByte]
  cases h0 : file.data[file.pos]? with
  | none => simp
  | some b0 =>
    cases h1 : file.data[file.pos + 1]? with
    | none => simp [h1]
    | some b1 => simp [h1, eq_comm]

theorem load8bitAreaHeader_ok_iff {Obj : Type} (env : Env Obj) (v : Variant) (file : File)
    (h : AreaHeader) (f1 : File) :
    load8bitAreaHeader env v file = .ok (h, f1) ↔
      ∃ flags n a p0 p1 s : Fin 256,
        file.data[file.pos]? = some flags ∧ file.data[file.pos + 1]? = some n ∧
        file.data[file.pos + 2]? = some a ∧ file.data[file.pos + 3]? = some p0 ∧
        file.data[file.pos + 4]? = some p1 ∧ file.data[file.pos + 5]? = some s ∧
        ∃ c f7 t, readColours v (flags.val &&& 15) (file.skip 6) = .ok (c, f7) ∧
          readTitleFields env v a.val c.skyColor
            (if flags.val >>> 4 = 0 then 255 else flags.val >>> 4) f7 = .ok (t, f1) ∧
          h = { areaFlags := flags.val, numberOfObjects := n.val, areaNumber := a.val,
                cPtr := p0.val + 256 * p1.val, scale := s.val,
                skyColor := t.skyColor, groundColor := t.groundColor,
                usualBackgroundColor := c.usualBackgroundColor,
                underFireBackgroundColor := c.underFireBackgroundColor,
                paperColor := c.paperColor, inkColor := c.inkColor,
                gasPocketX := t.gasPocketX, gasPocketY := t.gasPocketY,
                gasPocketRadius := t.gasPocketRadius, extraColor := t.extraColor,
                name := t.name } := by
  simp only [load8bitAreaHeader, bind_ok_iff, readField8_ok_iff, readPtr_ok_iff, pure_eq_ok]
  constructor
  · rintro ⟨⟨x0, g0⟩, ⟨b0, hb0, e0⟩, ⟨x1, g1⟩, ⟨b1, hb1, e1⟩, ⟨x2, g2⟩, ⟨b2, hb2, e2⟩,
      ⟨x3, g3⟩, ⟨b3, b4, hb3, hb4, e3⟩, ⟨x4, g4⟩, ⟨b5, hb5, e4⟩, ⟨c, f7⟩, hc, ⟨t, f8⟩, ht, hh⟩
    simp only [Prod.mk.injEq] at e0 e1 e2 e3 e4
    obtain ⟨rfl, rfl⟩ := e0
    obtain ⟨rfl, rfl⟩ := e1
    obtain ⟨rfl, rfl⟩ := e2
    obtain ⟨rfl, rfl⟩ := e3
    obtain ⟨rfl, rfl⟩ := e4
    simp only [File.skip_pos, File.skip_data, File.skip_skip, Nat.add_assoc] at hb1 hb2 hb3 hb4 hb5 hc
    simp only [Except.ok.injEq, Prod.mk.injEq] at hh
    obtain ⟨rfl, rfl⟩ := hh
    exact ⟨b0, b1, b2, b3, b4, b5, hb0, hb1, hb2, hb3, hb4, hb5, c, f7, t, hc, ht, rfl⟩
  · rintro ⟨b0, b1, b2, b3, b4, b5, hb0, hb1, hb2, hb3, hb4, hb5, c, f7, t, hc, ht, rfl⟩
    refine ⟨(b0.val, file.skip 1), ⟨b0, hb0, rfl⟩, (b1.val, file.skip 2), ⟨b1, by simpa using hb1, by simp⟩,
      (b2.val, file.skip 3), ⟨b2, by simpa [Nat.add_assoc] using hb2, by simp⟩,
      (b3.val + 256 * b4.val, file.skip 5), ⟨b3, b4, by simpa [Nat.add_assoc] using hb3, by simpa [Nat.add_assoc] using hb4, by simp⟩,
      (b5.val, file.skip 6), ⟨b5, by simpa [Nat.add_assoc] using hb5, by simp⟩, (c, f7), hc, (t, f1), ht, rfl⟩

theorem load8bitArea_ok_iff {Obj : Type} (env : Env Obj) (v : Variant) (file : File)
    (r : LoadedArea Obj) :
    load8bitArea env v file = .ok r ↔
      ∃ h f1 st, load8bitAreaHeader env v file = .ok (h, f1) ∧
        objectLoop env h.scale h.areaNumber h.numberOfObjects
          ⟨f1, ObjectMap.empty, ObjectMap.empty, 0, []⟩ = .ok st ∧
        r = makeArea h st := by
  simp only [load8bitArea, bind_ok_iff, pure_eq_ok]
  constructor
  · rintro ⟨⟨h, f1⟩, hh, st, hst, hr⟩
    exact ⟨h, f1, st, hh, hst, by simpa [eq_comm] using hr⟩
  · rintro ⟨h, f1, st, hh, hst, rfl⟩
    exact ⟨(h, f1), hh, st, hst, rfl⟩


theorem toChar_byte (b : Fin 256) : toChar b.val = b.val := by
  simp [toChar, Nat.mod_eq_of_lt b.isLt]

theorem File.bytesAt_skip (file : File) (k off n : Nat) :
    (file.skip k).bytesAt off n = file.bytesAt (k + off) n := by
  simp [File.bytesAt, File.skip, Nat.add_assoc]

theorem File.bytesAt_succ (file : File) (off n : Nat) (b : Fin 256)
    (h : file.data[file.pos + off]? = some b) :
    file.bytesAt off (n + 1) = b.val :: file.bytesAt (off + 1) n := by
  obtain ⟨hlt, hb⟩ := List.getElem?_eq_some_iff.1 h
  simp only [File.bytesAt]
  rw [List.drop_eq_getElem_cons hlt, hb]
  simp [Nat.add_assoc]

theorem File.bytesAt_none (file : File) (off n : Nat)
    (h : file.data[file.pos + off]? = none) : file.bytesAt off n = [] := by
  have hle : file.data.length ≤ file.pos + off := by simpa using h
  simp [File.bytesAt, List.drop_eq_nil_of_le hle]

theorem appendChars_ok_iff (n : Nat) (name : CString) (file : File) (q : CString × File) :
    appendChars n name file = .ok q ↔
      (file.bytesAt 0 n).length = n ∧ q = (name ++ file.bytesAt 0 n, file.skip n) := by
  induction n generalizing name file with
  | zero => simp [appendChars, File.bytesAt, File.skip, eq_comm]
  | succ n ih =>
    simp only [appendChars, bind_ok_iff, readField8_ok_iff]
    cases hb : file.data[file.pos]? with
    | none =>
      have h0 : file.bytesAt 0 (n + 1) = [] := File.bytesAt_none file 0 (n + 1) (by simpa using hb)
      simp [h0]
    | some b =>
      have h1 : file.bytesAt 0 (n + 1) = b.val :: file.bytesAt 1 n := by
        simpa using File.bytesAt_succ file 0 n b (by simpa using hb)
      constructor
      · rintro ⟨⟨x, g⟩, ⟨b', hb', e⟩, hr⟩
        simp only [Option.some.injEq, Prod.mk.injEq] at hb' e
        obtain ⟨rfl, rfl⟩ := e
        subst hb'
        rw [ih] at hr
        simp only [File.bytesAt_skip, File.skip_skip, toChar_byte] at hr
        obtain ⟨hl, rfl⟩ := hr
        rw [h1]
        simp [hl, Nat.add_comm]
      · rintro ⟨hl, rfl⟩
        refine ⟨(b.val, file.skip 1), ⟨b, rfl, rfl⟩, ?_⟩
        rw [ih]
        rw [h1] at hl ⊢
        simp only [File.bytesAt_skip, File.skip_skip, toChar_byte]
        simp at hl
        simp [hl, Nat.add_comm]

theorem readColours_attr_iff (v : Variant) (sky : Nat) (file : File) (c : Colours) (f1 : File)
    (hv : usesAttributeByte v = true) :
    readColours v sky file = .ok (c, f1) ↔
      ∃ a : Fin 256, file.data[file.pos]? = some a ∧
        c = ⟨0, 0, 0,
          (if isSpectrum v then a.val >>> 4 else if isCPC v then a.val else 0),
          (if isSpectrum v then a.val &&& 0xf else if isCPC v then 0xb else 0)⟩ ∧
        f1 = file.skip 1 := by
  unfold usesAttributeByte at hv
  simp only [readColours, readAttributeColours, hv, Bool.not_true, Bool.false_eq_true,
    if_false, bind_ok_iff, readField8_ok_iff, pure_eq_ok]
  constructor
  · rintro ⟨⟨x, g⟩, ⟨a, ha, e⟩, hr⟩
    simp only [Prod.mk.injEq] at e
    obtain ⟨rfl, rfl⟩ := e
    refine ⟨a, ha, ?_⟩
    simp only [Except.ok.injEq, Prod.mk.injEq] at hr
    obtain ⟨rfl, rfl⟩ := hr
    refine ⟨?_, rfl⟩
    split <;> [skip; split] <;> simp
  · rintro ⟨a, ha, rfl, rfl⟩
    refine ⟨(a.val, file.skip 1), ⟨a, ha, rfl⟩, ?_⟩
    split <;> [skip; split] <;> simp

theorem readColours_four_iff (v : Variant) (sky : Nat) (file : File) (c : Colours) (f1 : File)
    (hv : usesAttributeByte v = false) :
    readColours v sky file = .ok (c, f1) ↔
      ∃ b0 b1 b2 b3 : Fin 256, file.data[file.pos]? = some b0 ∧
        file.data[file.pos + 1]? = some b1 ∧ file.data[file.pos + 2]? = some b2 ∧
        file.data[file.pos + 3]? = some b3 ∧
        c = ⟨sky, b0.val, b1.val, b2.val, b3.val⟩ ∧ f1 = file.skip 4 := by
  unfold usesAttributeByte at hv
  simp only [readColours, readFourColours, hv, Bool.not_false, if_true, bind_ok_iff,
    readField8_ok_iff, pure_eq_ok]
  constructor
  · rintro ⟨⟨x0, g0⟩, ⟨b0, hb0, e0⟩, ⟨x1, g1⟩, ⟨b1, hb1, e1⟩, ⟨x2, g2⟩, ⟨b2, hb2, e2⟩,
      ⟨x3, g3⟩, ⟨b3, hb3, e3⟩, hr⟩
    simp only [Prod.mk.injEq] at e0 e1 e2 e3
    obtain ⟨rfl, rfl⟩ := e0
    obtain ⟨rfl, rfl⟩ := e1
    obtain ⟨rfl, rfl⟩ := e2
    obtain ⟨rfl, rfl⟩ := e3
    simp only [File.skip_pos, File.skip_data, File.skip_skip, Nat.add_assoc] at hb1 hb2 hb3 hr
    simp only [Except.ok.injEq, Prod.mk.injEq] at hr
    obtain ⟨rfl, rfl⟩ := hr
    exact ⟨b0, b1, b2, b3, hb0, hb1, hb2, hb3, rfl, rfl⟩
  · rintro ⟨b0, b1, b2, b3, hb0, hb1, hb2, hb3, rfl, rfl⟩
    exact ⟨(b0.val, file.skip 1), ⟨b0, hb0, rfl⟩, (b1.val, file.skip 2),
      ⟨b1, by simpa using hb1, by simp⟩, (b2.val, file.skip 3),
      ⟨b2, by simpa [Nat.add_assoc] using hb2, by simp⟩, (b3.val, file.skip 4),
      ⟨b3, by simpa [Nat.add_assoc] using hb3, by simp⟩, rfl⟩

theorem eclipse_lookup_eq {Obj : Type} (env : Env Obj) (v : Variant) (idx : Nat) :
    (if isEclipse2 v = true then
        (if idx < 8 then lookup env.eclipse2RoomName idx else lookup env.eclipse2RoomName 8)
      else (if idx < 8 then lookup env.eclipseRoomName idx else lookup env.eclipseRoomName 8)) =
    lookup (if isEclipse2 v = true then env.eclipse2RoomName else env.eclipseRoomName)
      (if idx < 8 then idx else 8) := by
  split <;> split <;> rfl

theorem readTitleFields_eclipse_iff {Obj : Type} (env : Env Obj) (v : Variant)
    (areaNumber sky gr : Nat) (file : File) (t : TitleFields) (f1 : File)
    (hv : isEclipse v = true) :
    readTitleFields env v areaNumber sky gr file = .ok (t, f1) ↔
      ∃ idx c1 : Fin 256, file.data[file.pos]? = some idx ∧
        file.data[file.pos + 1]? = some c1 ∧ (file.bytesAt 2 3).length = 3 ∧
        ∃ entry, lookup (if isEclipse2 v = true then env.eclipse2RoomName
            else env.eclipseRoomName) (if idx.val < 8 then idx.val else 8) = .ok entry ∧
          t = ⟨entry ++ strDash ++ [c1.val] ++ strSpace ++ file.bytesAt 2 3, 0, 0, 0,
            [0, 0, 0, 0],
            (if (isAmiga v || isAtariST v) = true then 0 else sky),
            (if (isAmiga v || isAtariST v) = true then sky else gr)⟩ ∧
          f1 = file.skip 5 := by
  simp only [readTitleFields, hv, if_true, bind_ok_iff, readField8_ok_iff, appendChars_ok_iff,
    pure_eq_ok, eclipse_lookup_eq]
  constructor
  · rintro ⟨⟨x0, g0⟩, ⟨b0, hb0, e0⟩, entry, he, ⟨x1, g1⟩, ⟨b1, hb1, e1⟩, ⟨nm, g2⟩, ⟨hl, e2⟩, hr⟩
    simp only [Prod.mk.injEq] at e0 e1 e2
    obtain ⟨rfl, rfl⟩ := e0
    obtain ⟨rfl, rfl⟩ := e1
    obtain ⟨rfl, rfl⟩ := e2
    simp only [File.skip_pos, File.skip_data, File.skip_skip, File.bytesAt_skip, toChar_byte,
      Nat.add_assoc] at hb1 hl hr
    refine ⟨b0, b1, hb0, hb1, by simpa using hl, entry, he, ?_⟩
    simp only [Except.ok.injEq, Prod.mk.injEq] at hr
    obtain ⟨rfl, rfl⟩ := hr
    refine ⟨?_, rfl⟩
    split <;> simp
  · rintro ⟨b0, b1, hb0, hb1, hl, entry, he, rfl, rfl⟩
    refine ⟨(b0.val, file.skip 1), ⟨b0, hb0, rfl⟩, entry, he, (b1.val, file.skip 2),
      ⟨b1, by simpa using hb1, by simp⟩,
      (entry ++ strDash ++ [b1.val] ++ strSpace ++ file.bytesAt 2 3, file.skip 5),
      ⟨by simpa [File.bytesAt_skip] using hl, by simp [File.bytesAt_skip, toChar_byte]⟩, ?_⟩
    split <;> simp

theorem File.bytesAt_length (file : File) (off n : Nat) :
    (file.bytesAt off n).length = min n (file.data.length - (file.pos + off)) := by
  simp [File.bytesAt]

theorem File.exists_byte (file : File) (i : Nat) (h : file.pos + i < file.data.length) :
    ∃ b : Fin 256, file.data[file.pos + i]? = some b :=
  ⟨file.data[file.pos + i], List.getElem?_eq_getElem h⟩

theorem title_exclusive (v : Variant) :
    (isDriller v = true → isEclipse v = false ∧ isDark v = false ∧ isCastle v = false) ∧
    (isDark v = true → isEclipse v = false ∧ isDriller v = false ∧ isCastle v = false) ∧
    (isCastle v = true → isEclipse v = false ∧ isDriller v = false ∧ isDark v = false) ∧
    (isEclipse v = true → isDriller v = false ∧ isDark v = false ∧ isCastle v = false) := by
  obtain ⟨title, platform, release⟩ := v
  cases title <;> simp [isDriller, isEclipse, isDark, isCastle]

theorem readTitleFields_driller_iff {Obj : Type} (env : Env Obj) (v : Variant)
    (areaNumber sky gr : Nat) (file : File) (t : TitleFields) (f1 : File)
    (hv : isDriller v = true) :
    readTitleFields env v areaNumber sky gr file = .ok (t, f1) ↔
      ∃ x y r : Fin 256, file.data[file.pos]? = some x ∧
        file.data[file.pos + 1]? = some y ∧ file.data[file.pos + 2]? = some r ∧
        (file.bytesAt 3 12).length = 12 ∧
        t = ⟨file.bytesAt 3 12, x.val, y.val, r.val, [0, 0, 0, 0], sky, gr⟩ ∧
        f1 = file.skip 15 := by
  obtain ⟨hE, hD, hC⟩ := (title_exclusive v).1 hv
  simp only [readTitleFields, hE, hv, Bool.true_or, if_true, if_false, bind_ok_iff,
    readField8_ok_iff, appendChars_ok_iff, pure_eq_ok, Bool.false_eq_true]
  constructor
  · rintro ⟨⟨nm, x0, y0, r0, g⟩, ⟨⟨x1, g1⟩, ⟨b0, hb0, e0⟩, ⟨x2, g2⟩, ⟨b1, hb1, e1⟩,
      ⟨x3, g3⟩, ⟨b2, hb2, e2⟩, e3⟩, ⟨nm', g'⟩, ⟨hl, e4⟩, hr⟩
    simp only [Prod.mk.injEq] at e0 e1 e2 e4
    obtain ⟨rfl, rfl⟩ := e0
    obtain ⟨rfl, rfl⟩ := e1
    obtain ⟨rfl, rfl⟩ := e2
    simp only [Except.ok.injEq, Prod.mk.injEq] at e3
    obtain ⟨rfl, rfl, rfl, rfl, rfl⟩ := e3
    obtain ⟨rfl, rfl⟩ := e4
    simp only [File.skip_pos, File.skip_data, File.skip_skip, File.bytesAt_skip,
      Nat.add_assoc] at hb1 hb2 hl hr
    simp only [Except.ok.injEq, Prod.mk.injEq] at hr
    obtain ⟨rfl, rfl⟩ := hr
    exact ⟨b0, b1, b2, hb0, hb1, hb2, by simpa using hl, by simp [File.bytesAt_skip], rfl⟩
  · rintro ⟨b0, b1, b2, hb0, hb1, hb2, hl, rfl, rfl⟩
    refine ⟨([], b0.val, b1.val, b2.val, file.skip 3),
      ⟨(b0.val, file.skip 1), ⟨b0, hb0, rfl⟩, (b1.val, file.skip 2),
        ⟨b1, by simpa using hb1, by simp⟩, (b2.val, file.skip 3),
        ⟨b2, by simpa [Nat.add_assoc] using hb2, by simp⟩, rfl⟩,
      (file.bytesAt 3 12, file.skip 15),
      ⟨by simpa [File.bytesAt_skip] using hl, by simp [File.bytesAt_skip]⟩, rfl⟩

theorem readTitleFields_dark_iff {Obj : Type} (env : Env Obj) (v : Variant)
    (areaNumber sky gr : Nat) (file : File) (t : TitleFields) (f1 : File)
    (hv : isDark v = true) :
    readTitleFields env v areaNumber sky gr file = .ok (t, f1) ↔
      (file.bytesAt 0 15).length = 15 ∧
        t = ⟨file.bytesAt 0 15, 0, 0, 0, [0, 0, 0, 0], sky, gr⟩ ∧
        f1 = file.skip 15 := by
  obtain ⟨hE, hD, hC⟩ := (title_exclusive v).2.1 hv
  simp only [readTitleFields, hE, hD, hv, Bool.or_true, if_true, if_false, bind_ok_iff,
    readField8_ok_iff, appendChars_ok_iff, pure_eq_ok, Bool.false_eq_true]
  constructor
  · rintro ⟨⟨nm, x0, y0, r0, g⟩, ⟨⟨x1, g1⟩, ⟨b0, hb0, e0⟩, ⟨x2, g2⟩, ⟨b1, hb1, e1⟩,
      ⟨x3, g3⟩, ⟨b2, hb2, e2⟩, e3⟩, ⟨nm', g'⟩, ⟨hl, e4⟩, hr⟩
    simp only [Prod.mk.injEq] at e0 e1 e2 e4
    obtain ⟨rfl, rfl⟩ := e0
    obtain ⟨rfl, rfl⟩ := e1
    obtain ⟨rfl, rfl⟩ := e2
    simp only [Except.ok.injEq, Prod.mk.injEq] at e3
    obtain ⟨rfl, rfl, rfl, rfl, rfl⟩ := e3
    obtain ⟨rfl, rfl⟩ := e4
    simp only [File.skip_pos, File.skip_data, File.skip_skip, File.bytesAt_skip,
      Nat.add_assoc, toChar_byte] at hb1 hb2 hl hr
    simp only [Except.ok.injEq, Prod.mk.injEq] at hr
    obtain ⟨rfl, rfl⟩ := hr
    have h15 : file.bytesAt 0 15 = b0.val :: b1.val :: b2.val :: file.bytesAt 3 12 := by
      rw [File.bytesAt_succ file 0 14 b0 (by simpa using hb0),
        File.bytesAt_succ file 1 13 b1 (by simpa using hb1),
        File.bytesAt_succ file 2 12 b2 (by simpa using hb2)]
    simp only [Nat.reduceAdd] at hl
    refine ⟨by rw [h15]; simp [hl], ?_, rfl⟩
    rw [h15]
    simp [File.bytesAt_skip, toChar_byte]
  · rintro ⟨hl, rfl, rfl⟩
    have hlen : file.pos + 15 ≤ file.data.length := by
      rw [File.bytesAt_length] at hl
      omega
    obtain ⟨b0, hb0⟩ := file.exists_byte 0 (by omega)
    obtain ⟨b1, hb1⟩ := file.exists_byte 1 (by omega)
    obtain ⟨b2, hb2⟩ := file.exists_byte 2 (by omega)
    have h15 : file.bytesAt 0 15 = b0.val :: b1.val :: b2.val :: file.bytesAt 3 12 := by
      rw [File.bytesAt_succ file 0 14 b0 hb0, File.bytesAt_succ file 1 13 b1 hb1,
        File.bytesAt_succ file 2 12 b2 hb2]
    have hl12 : (file.bytesAt 3 12).length = 12 := by
      rw [File.bytesAt_length]; omega
    refine ⟨([b0.val, b1.val, b2.val], 0, 0, 0, file.skip 3),
      ⟨(b0.val, file.skip 1), ⟨b0, by simpa using hb0, rfl⟩, (b1.val, file.skip 2),
        ⟨b1, by simpa using hb1, by simp⟩, (b2.val, file.skip 3),
        ⟨b2, by simpa [Nat.add_assoc] using hb2, by simp⟩, by simp [toChar_byte]⟩,
      (file.bytesAt 0 15, file.skip 15),
      ⟨by simpa [File.bytesAt_skip] using hl12, by simp [File.bytesAt_skip, h15]⟩, rfl⟩

theorem not_dos_and_amiga (v : Variant) : ¬ (isDOS v = true ∧ isAmiga v = true) := by
  obtain ⟨title, platform, release⟩ := v
  cases platform <;> simp [isDOS, isAmiga]

theorem readTitleFields_castle_iff {Obj : Type} (env : Env Obj) (v : Variant)
    (areaNumber sky gr : Nat) (file : File) (t : TitleFields) (f1 : File)
    (hv : isCastle v = true) :
    readTitleFields env v areaNumber sky gr file = .ok (t, f1) ↔
      ∃ idx : Fin 256, file.data[file.pos]? = some idx ∧
        ∃ name : CString,
          (if isAmiga v = true then lookup env.messagesList (idx.val + 51)
            else if (isSpectrum v || isCPC v) = true then
              (if areaNumber = 255 then .ok strGLOBAL
                else lookup env.messagesList (idx.val + 16))
            else lookup env.messagesList (idx.val + 41)) = .ok name ∧
          ((isDOS v = true ∧ ∃ e0 e1 e2 e3 : Fin 256,
              file.data[file.pos + 1]? = some e0 ∧ file.data[file.pos + 2]? = some e1 ∧
              file.data[file.pos + 3]? = some e2 ∧ file.data[file.pos + 4]? = some e3 ∧
              t = ⟨name, 0, 0, 0, [e0.val, e1.val, e2.val, e3.val], sky, gr⟩ ∧
              f1 = file.skip 5) ∨
           (isAmiga v = true ∧ ∃ e0 e1 e2 e3 : Fin 256,
              file.data[file.pos + 1]? = some e0 ∧ file.data[file.pos + 2]? = some e1 ∧
              file.data[file.pos + 3]? = some e2 ∧ file.data[file.pos + 4]? = some e3 ∧
              t = ⟨name, 0, 0, 0, [e0.val, e1.val, e2.val, e3.val], 0, sky⟩ ∧
              f1 = file.skip 5) ∨
           (isDOS v = false ∧ isAmiga v = false ∧
              t = ⟨name, 0, 0, 0, [0, 0, 0, 0], sky, gr⟩ ∧ f1 = file.skip 1)) := by
  obtain ⟨hE, hD, hK⟩ := (title_exclusive v).2.2.1 hv
  have hx := not_dos_and_amiga v
  cases hd : isDOS v <;> cases ha : isAmiga v
  · -- neither DOS nor Amiga
    simp only [readTitleFields, hE, hD, hK, hv, hd, ha, Bool.or_self, if_true, if_false,
      bind_ok_iff, readField8_ok_iff, pure_eq_ok, Bool.false_eq_true, false_and, and_false,
      false_or, true_and]
    constructor
    · rintro ⟨⟨x0, g0⟩, ⟨b0, hb0, e0⟩, name, hn, ⟨ex, g1⟩, e1, hr⟩
      simp only [Prod.mk.injEq] at e0
      obtain ⟨rfl, rfl⟩ := e0
      simp only [Except.ok.injEq, Prod.mk.injEq] at e1 hr
      obtain ⟨rfl, rfl⟩ := e1
      obtain ⟨rfl, rfl⟩ := hr
      exact ⟨b0, hb0, name, hn, rfl, rfl⟩
    · rintro ⟨b0, hb0, name, hn, rfl, rfl⟩
      exact ⟨(b0.val, file.skip 1), ⟨b0, hb0, rfl⟩, name, hn, ([0, 0, 0, 0], file.skip 1),
        rfl, rfl⟩
  · -- Amiga
    simp only [readTitleFields, hE, hD, hK, hv, hd, ha, Bool.or_self, if_true, if_false,
      bind_ok_iff, readField8_ok_iff, pure_eq_ok, Bool.false_eq_true, Bool.true_eq_false,
      false_and, and_false, false_or, or_false, true_and]
    constructor
    · rintro ⟨⟨x0, g0⟩, ⟨b0, hb0, e0⟩, name, hn, ⟨ex, g1⟩, e1, ⟨x1, g2⟩, ⟨b1, hb1, e2⟩,
        ⟨x2, g3⟩, ⟨b2, hb2, e3⟩, ⟨x3, g4⟩, ⟨b3, hb3, e4⟩, ⟨x4, g5⟩, ⟨b4, hb4, e5⟩, hr⟩
      simp only [Prod.mk.injEq] at e0
      obtain ⟨rfl, rfl⟩ := e0
      simp only [Except.ok.injEq, Prod.mk.injEq] at e1
      obtain ⟨rfl, rfl⟩ := e1
      simp only [Prod.mk.injEq] at e2 e3 e4 e5
      obtain ⟨rfl, rfl⟩ := e2
      obtain ⟨rfl, rfl⟩ := e3
      obtain ⟨rfl, rfl⟩ := e4
      obtain ⟨rfl, rfl⟩ := e5
      simp only [File.skip_pos, File.skip_data, File.skip_skip, Nat.add_assoc,
        Nat.reduceAdd] at hb1 hb2 hb3 hb4 hr
      simp only [Except.ok.injEq, Prod.mk.injEq] at hr
      obtain ⟨rfl, rfl⟩ := hr
      exact ⟨b0, hb0, name, hn, b1, b2, b3, b4, hb1, hb2, hb3, hb4, rfl, rfl⟩
    · rintro ⟨b0, hb0, name, hn, b1, b2, b3, b4, hb1, hb2, hb3, hb4, rfl, rfl⟩
      exact ⟨(b0.val, file.skip 1), ⟨b0, hb0, rfl⟩, name, hn, ([0, 0, 0, 0], file.skip 1),
        rfl, (b1.val, file.skip 2), ⟨b1, by simpa using hb1, by simp⟩,
        (b2.val, file.skip 3), ⟨b2, by simpa [Nat.add_assoc] using hb2, by simp⟩,
        (b3.val, file.skip 4), ⟨b3, by simpa [Nat.add_assoc] using hb3, by simp⟩,
        (b4.val, file.skip 5), ⟨b4, by simpa [Nat.add_assoc] using hb4, by simp⟩, rfl⟩
  · -- DOS
    simp only [readTitleFields, hE, hD, hK, hv, hd, ha, Bool.or_self, if_true, if_false,
      bind_ok_iff, readField8_ok_iff, pure_eq_ok, Bool.false_eq_true, Bool.true_eq_false,
      false_and, and_false, false_or, or_false, true_and]
    constructor
    · rintro ⟨⟨x0, g0⟩, ⟨b0, hb0, e0⟩, name, hn, ⟨ex, g1⟩, ⟨⟨x1, g2⟩, ⟨b1, hb1, e2⟩,
        ⟨x2, g3⟩, ⟨b2, hb2, e3⟩, ⟨x3, g4⟩, ⟨b3, hb3, e4⟩, ⟨x4, g5⟩, ⟨b4, hb4, e5⟩, e1⟩, hr⟩
      simp only [Prod.mk.injEq] at e0 e2 e3 e4 e5
      obtain ⟨rfl, rfl⟩ := e0
      obtain ⟨rfl, rfl⟩ := e2
      obtain ⟨rfl, rfl⟩ := e3
      obtain ⟨rfl, rfl⟩ := e4
      obtain ⟨rfl, rfl⟩ := e5
      simp only [Except.ok.injEq, Prod.mk.injEq] at e1
      obtain ⟨rfl, rfl⟩ := e1
      simp only [File.skip_pos, File.skip_data, File.skip_skip, Nat.add_assoc,
        Nat.reduceAdd] at hb1 hb2 hb3 hb4 hr
      simp only [Except.ok.injEq, Prod.mk.injEq] at hr
      obtain ⟨rfl, rfl⟩ := hr
      exact ⟨b0, hb0, name, hn, b1, b2, b3, b4, hb1, hb2, hb3, hb4, rfl, rfl⟩
    · rintro ⟨b0, hb0, name, hn, b1, b2, b3, b4, hb1, hb2, hb3, hb4, rfl, rfl⟩
      exact ⟨(b0.val, file.skip 1), ⟨b0, hb0, rfl⟩, name, hn,
        ([b1.val, b2.val, b3.val, b4.val], file.skip 5),
        ⟨(b1.val, file.skip 2), ⟨b1, by simpa using hb1, by simp⟩,
        (b2.val, file.skip 3), ⟨b2, by simpa [Nat.add_assoc] using hb2, by simp⟩,
        (b3.val, file.skip 4), ⟨b3, by simpa [Nat.add_assoc] using hb3, by simp⟩,
        (b4.val, file.skip 5), ⟨b4, by simpa [Nat.add_assoc] using hb4, by simp⟩, rfl⟩, rfl⟩
  · exact absurd ⟨hd, ha⟩ hx

/-! ## Auxiliary facts about object maps -/

theorem ObjectMap.contains_iff {Obj : Type} (m : ObjectMap Obj) (k : Nat) :
    m.contains k = true ↔ ∃ o, (k, o) ∈ m.entries := by
  simp only [ObjectMap.contains, List.any_eq_true, beq_iff_eq]
  constructor
  · rintro ⟨⟨k', o⟩, hm, rfl⟩
    exact ⟨o, hm⟩
  · rintro ⟨o, hm⟩
    exact ⟨(k, o), hm, rfl⟩

theorem ObjectMap.mem_assign_iff {Obj : Type} (m : ObjectMap Obj) (k : Nat) (v : Obj)
    (e : Nat × Obj) : e ∈ (m.assign k v).entries ↔ e = (k, v) ∨ (e ∈ m.entries ∧ e.1 ≠ k) := by
  simp [ObjectMap.assign, List.mem_cons, List.mem_filter]

theorem ObjectMap.contains_assign {Obj : Type} (m : ObjectMap Obj) (k k' : Nat) (v : Obj) :
    (m.assign k v).contains k' = (k == k' || m.contains k') := by
  rw [Bool.eq_iff_iff]
  simp only [Bool.or_eq_true, beq_iff_eq, ObjectMap.contains_iff, ObjectMap.mem_assign_iff,
    Prod.mk.injEq]
  constructor
  · rintro ⟨o, ⟨rfl, rfl⟩ | ⟨hm, _⟩⟩
    · exact Or.inl rfl
    · exact Or.inr ⟨o, hm⟩
  · rintro (rfl | ⟨o, hm⟩)
    · exact ⟨v, Or.inl ⟨rfl, rfl⟩⟩
    · by_cases h : k' = k
      · exact ⟨v, Or.inl ⟨h, rfl⟩⟩
      · exact ⟨o, Or.inr ⟨hm, h⟩⟩

theorem ObjectMap.find?_assign {Obj : Type} (m : ObjectMap Obj) (k k' : Nat) (v : Obj) :
    (m.assign k v).find? k' = if k' = k then some v else m.find? k' := by
  simp only [ObjectMap.find?, ObjectMap.assign, List.find?_cons]
  by_cases h : k' = k
  · subst h; simp
  · have hne : (k == k') = false := by
      rw [beq_eq_false_iff_ne]; exact fun hk => h hk.symm
    simp only [hne, h, if_false]
    congr 1
    rw [List.find?_filter]
    congr 1
    funext e
    by_cases he : e.1 = k'
    · simp [he, h]
    · simp [he]

theorem ObjectMap.countKey_assign {Obj : Type} (m : ObjectMap Obj) (k k' : Nat) (v : Obj) :
    (m.assign k v).countKey k' = if k' = k then 1 else m.countKey k' := by
  simp only [ObjectMap.countKey, ObjectMap.assign, List.filter_cons, List.filter_filter]
  by_cases h : k' = k
  · subst h
    simp
  · have hne : (k == k') = false := by
      rw [beq_eq_false_iff_ne]; exact fun hk => h hk.symm
    simp only [hne, h, if_false, Bool.false_eq_true]
    congr 2
    funext e
    by_cases he : e.1 = k'
    · simp [he, h]
    · simp [he]

/-! ## Auxiliary facts about the object loop -/

theorem insertEntrance_ok_iff {Obj : Type} (env : Env Obj) (st st1 : LoopState Obj) (o : Obj) :
    insertEntrance env st o = .ok st1 ↔
      st.entrancesByID.contains (entranceKey env o) = false ∧
        st1 = { st with entrancesByID := st.entrancesByID.assign (entranceKey env o) o } := by
  unfold insertEntrance entranceKey
  cases h : st.entrancesByID.contains ((env.getObjectID o).val &&& 0x7fff)
  · simp [bind, Except.bind, pure, Except.pure, eq_comm]
  · simp [bind, Except.bind, error]

theorem insertEntrance_collision {Obj : Type} (env : Env Obj) (st : LoopState Obj) (o : Obj)
    (h : st.entrancesByID.contains (entranceKey env o) = true) :
    insertEntrance env st o =
      .error (.replacingObject (env.getObjectID o).val (entranceKey env o)) := by
  unfold insertEntrance entranceKey
  unfold entranceKey at h
  simp [bind, Except.bind, error, h]

theorem loopBody_ok_iff {Obj : Type} (env : Env Obj) (scale : Nat) (st st1 : LoopState Obj) :
    loopBody env scale st = .ok st1 ↔
      ∃ newObject file, env.load8bitObject st.file = .ok (newObject, file) ∧
        ((newObject = none ∧ st1 = { st with file := file, calls := st.calls + 1 }) ∨
         (∃ o, newObject = some o ∧ env.getType (env.scale scale o) = env.kEntranceType ∧
            st.entrancesByID.contains (entranceKey env (env.scale scale o)) = false ∧
            st1 = { st with file := file, calls := st.calls + 1,
                            entrancesByID := st.entrancesByID.assign
                              (entranceKey env (env.scale scale o)) (env.scale scale o) }) ∨
         (∃ o, newObject = some o ∧ env.getType (env.scale scale o) ≠ env.kEntranceType ∧
            st1 = insertObject env { st with file := file, calls := st.calls + 1 }
              (env.scale scale o))) := by
  simp only [loopBody, bind_ok_iff]
  constructor
  · rintro ⟨⟨newObject, file⟩, hd, hr⟩
    refine ⟨newObject, file, hd, ?_⟩
    cases newObject with
    | none =>
      simp only [pure_eq_ok, Except.ok.injEq] at hr
      exact Or.inl ⟨rfl, hr.symm⟩
    | some o =>
      simp only at hr
      by_cases ht : env.getType (env.scale scale o) = env.kEntranceType
      · simp only [ht, if_true, insertEntrance_ok_iff] at hr
        exact Or.inr (Or.inl ⟨o, rfl, ht, hr.1, hr.2⟩)
      · simp only [ht, if_false, pure_eq_ok, Except.ok.injEq] at hr
        exact Or.inr (Or.inr ⟨o, rfl, ht, hr.symm⟩)
  · rintro ⟨newObject, file, hd, h⟩
    refine ⟨(newObject, file), hd, ?_⟩
    rcases h with ⟨rfl, rfl⟩ | ⟨o, rfl, ht, hc, rfl⟩ | ⟨o, rfl, ht, rfl⟩
    · rfl
    · simp only [ht, if_true, insertEntrance_ok_iff]
      exact ⟨hc, trivial⟩
    · simp only [ht, if_false, pure_eq_ok]


theorem insertObject_fields {Obj : Type} (env : Env Obj) (st : LoopState Obj) (o : Obj) :
    (insertObject env st o).file = st.file ∧ (insertObject env st o).calls = st.calls ∧
      (insertObject env st o).entrancesByID = st.entrancesByID ∧
      (insertObject env st o).objectsByID =
        st.objectsByID.assign (env.getObjectID o).val o := by
  unfold insertObject
  split <;> exact ⟨rfl, rfl, rfl, rfl⟩

theorem objectLoop_192 {Obj : Type} (env : Env Obj) (scale n : Nat) (st : LoopState Obj) :
    objectLoop env scale 192 n st = .ok st := by
  cases n <;> simp [objectLoop]

theorem objectLoop_ok {Obj : Type} (env : Env Obj) (scale areaNumber : Nat)
    (ha : areaNumber ≠ 192) (n : Nat) (st st' : LoopState Obj)
    (h : objectLoop env scale areaNumber n st = .ok st') :
    ∃ objs f', decodeObjects env scale n st.file = .ok (objs, f') ∧
      (entranceKeys env objs).Nodup ∧
      (∀ k ∈ entranceKeys env objs, st.entrancesByID.contains k = false) ∧
      st'.file = f' ∧ st'.calls = st.calls + n ∧
      st'.entrancesByID = entrancesOf env objs st.entrancesByID ∧
      st'.objectsByID = objectsOf env objs st.objectsByID := by
  induction n generalizing st with
  | zero =>
    simp only [objectLoop, Except.ok.injEq] at h
    subst h
    exact ⟨[], st.file, rfl, by simp [entranceKeys], by simp [entranceKeys], rfl, rfl, rfl, rfl⟩
  | succ n ih =>
    simp only [objectLoop, ha, ne_eq, not_false_eq_true, if_true, bind_ok_iff] at h
    obtain ⟨st1, hb, hl⟩ := h
    obtain ⟨objs, f', hd, hnd, hdis, hf, hc, he, ho⟩ := ih st1 hl
    obtain ⟨newObject, file, hdec, hcase⟩ := (loopBody_ok_iff env scale st st1).1 hb
    rcases hcase with ⟨rfl, rfl⟩ | ⟨o, rfl, ht, hcon, rfl⟩ | ⟨o, rfl, ht, rfl⟩
    · refine ⟨objs, f', ?_, hnd, hdis, hf, ?_, he, ho⟩
      · simp only [decodeObjects, hdec]
        simp only at hd
        rw [hd]; rfl
      · simp only at hc; omega
    · refine ⟨env.scale scale o :: objs, f', ?_, ?_, ?_, hf, ?_, ?_, ?_⟩
      · simp only [decodeObjects, hdec]
        simp only at hd
        rw [hd]; rfl
      · simp only [entranceKeys, ht, decide_True, List.filter_cons_of_pos, List.map_cons,
          List.nodup_cons]
        refine ⟨?_, hnd⟩
        intro hmem
        have := hdis _ hmem
        simp [ObjectMap.contains_assign] at this
      · intro k hk
        simp only [entranceKeys, ht, decide_True, List.filter_cons_of_pos, List.map_cons,
          List.mem_cons] at hk
        rcases hk with rfl | hk
        · exact hcon
        · have := hdis k hk
          simp only [ObjectMap.contains_assign, Bool.or_eq_false_iff] at this
          exact this.2
      · simp only at hc; omega
      · simp only [entrancesOf, assignAll, List.foldl_cons, ht, if_true]
        exact he
      · simp only [objectsOf, assignAll, List.foldl_cons, ht, not_true_eq_false, if_false]
        exact ho
    · obtain ⟨i1, i2, i3, i4⟩ := insertObject_fields env
        { st with file := file, calls := st.calls + 1 } (env.scale scale o)
      refine ⟨env.scale scale o :: objs, f', ?_, ?_, ?_, hf, ?_, ?_, ?_⟩
      · simp only [decodeObjects, hdec]
        rw [i1] at hd
        simp only at hd
        rw [hd]; rfl
      · simpa [entranceKeys, ht] using hnd
      · intro k hk
        have hk' : k ∈ entranceKeys env objs := by simpa [entranceKeys, ht] using hk
        have := hdis k hk'
        rw [i3] at this
        exact this
      · rw [i2] at hc; simp only at hc; omega
      · rw [i3] at he
        simp only [entrancesOf, assignAll, List.foldl_cons, ht, if_false]
        exact he
      · rw [i4] at ho
        simp only [objectsOf, assignAll, List.foldl_cons, ht, not_false_eq_true, if_true]
        exact ho

theorem objectLoop_returns {Obj : Type} (env : Env Obj) (scale areaNumber : Nat)
    (n : Nat) (st : LoopState Obj) (objs : List Obj) (f' : File)
    (hd : decodeObjects env scale n st.file = .ok (objs, f'))
    (hnd : (entranceKeys env objs).Nodup)
    (hdis : ∀ k ∈ entranceKeys env objs, st.entrancesByID.contains k = false) :
    ∃ st', objectLoop env scale areaNumber n st = .ok st' := by
  by_cases ha : areaNumber = 192
  · subst ha; exact ⟨st, objectLoop_192 env scale n st⟩
  induction n generalizing st objs with
  | zero => exact ⟨st, rfl⟩
  | succ n ih =>
    simp only [decodeObjects] at hd
    cases hdec : env.load8bitObject st.file with
    | error e => simp [hdec] at hd
    | ok p =>
      obtain ⟨newObject, file⟩ := p
      simp only [hdec] at hd
      cases hrest : decodeObjects env scale n file with
      | error e => simp [hrest] at hd
      | ok q =>
        obtain ⟨rest, f''⟩ := q
        simp only [hrest, Except.ok.injEq, Prod.mk.injEq] at hd
        obtain ⟨rfl, rfl⟩ := hd
        simp only [objectLoop, ha, ne_eq, not_false_eq_true, if_true, bind_ok_iff]
        cases newObject with
        | none =>
          have hb : loopBody env scale st = .ok { st with file := file, calls := st.calls + 1 } :=
            (loopBody_ok_iff env scale st _).2 ⟨none, file, hdec, Or.inl ⟨rfl, rfl⟩⟩
          obtain ⟨st', hst'⟩ := ih { st with file := file, calls := st.calls + 1 } rest hrest
            (by simpa using hnd) (by simpa using hdis)
          exact ⟨st', _, hb, hst'⟩
        | some o =>
          by_cases ht : env.getType (env.scale scale o) = env.kEntranceType
          · simp only [List.singleton_append, entranceKeys, ht, decide_True,
              List.filter_cons_of_pos, List.map_cons, List.nodup_cons, List.mem_cons,
              forall_eq_or_imp] at hnd hdis
            have hb := (loopBody_ok_iff env scale st _).2 ⟨some o, file, hdec,
              Or.inr (Or.inl ⟨o, rfl, ht, hdis.1, rfl⟩)⟩
            obtain ⟨st', hst'⟩ := ih ⟨file, st.objectsByID, st.entrancesByID.assign
                (entranceKey env (env.scale scale o)) (env.scale scale o), st.calls + 1,
                st.anomalies⟩ rest hrest hnd.2 (by
              intro k hk
              simp only [ObjectMap.contains_assign, Bool.or_eq_false_iff, beq_eq_false_iff_ne]
              refine ⟨?_, hdis.2 k hk⟩
              rintro rfl
              exact hnd.1 hk)
            exact ⟨st', _, hb, hst'⟩
          · have hb := (loopBody_ok_iff env scale st _).2 ⟨some o, file, hdec,
              Or.inr (Or.inr ⟨o, rfl, ht, rfl⟩)⟩
            obtain ⟨i1, i2, i3, i4⟩ := insertObject_fields env
              { st with file := file, calls := st.calls + 1 } (env.scale scale o)
            obtain ⟨st', hst'⟩ := ih _ rest (by rw [i1]; exact hrest)
              (by simpa [entranceKeys, ht] using hnd)
              (by rw [i3]; simpa [entranceKeys, ht] using hdis)
            exact ⟨st', _, hb, hst'⟩

/-! ## Auxiliary facts about the colours of the header -/

theorem title_cases (v : Variant) :
    isEclipse v = true ∨ isDriller v = true ∨ isDark v = true ∨ isCastle v = true := by
  obtain ⟨title, platform, release⟩ := v
  cases title <;> simp [isDriller, isEclipse, isDark, isCastle]

theorem swaps_not_attribute (v : Variant) (h : swapsSkyAndGround v = true) :
    usesAttributeByte v = false := by
  obtain ⟨title, platform, release⟩ := v
  cases title <;> cases platform <;>
    simp [swapsSkyAndGround, usesAttributeByte, isEclipse, isCastle, isAmiga, isAtariST,
      isSpectrum, isCPC, isC64] at h ⊢

theorem readTitleFields_colours {Obj : Type} (env : Env Obj) (v : Variant)
    (areaNumber sky gr : Nat) (file : File) (t : TitleFields) (f1 : File)
    (h : readTitleFields env v areaNumber sky gr file = .ok (t, f1)) :
    t.skyColor = (if swapsSkyAndGround v = true then 0 else sky) ∧
      t.groundColor = (if swapsSkyAndGround v = true then sky else gr) := by
  rcases title_cases v with hv | hv | hv | hv
  · obtain ⟨_, _, hC⟩ := (title_exclusive v).2.2.2 hv
    obtain ⟨idx, c1, _, _, _, entry, _, rfl, _⟩ :=
      (readTitleFields_eclipse_iff env v areaNumber sky gr file t f1 hv).1 h
    simp [swapsSkyAndGround, hv, hC]
  · obtain ⟨hE, _, hC⟩ := (title_exclusive v).1 hv
    obtain ⟨_, _, _, _, _, _, _, rfl, _⟩ :=
      (readTitleFields_driller_iff env v areaNumber sky gr file t f1 hv).1 h
    simp [swapsSkyAndGround, hE, hC]
  · obtain ⟨hE, _, hC⟩ := (title_exclusive v).2.1 hv
    obtain ⟨_, rfl, _⟩ :=
      (readTitleFields_dark_iff env v areaNumber sky gr file t f1 hv).1 h
    simp [swapsSkyAndGround, hE, hC]
  · obtain ⟨hE, _, _⟩ := (title_exclusive v).2.2.1 hv
    obtain ⟨idx, _, name, _, hcase⟩ :=
      (readTitleFields_castle_iff env v areaNumber sky gr file t f1 hv).1 h
    rcases hcase with ⟨hd, _, _, _, _, _, _, _, _, rfl, _⟩ | ⟨ha, _, _, _, _, _, _, _, _, rfl, _⟩ |
      ⟨_, ha, rfl, _⟩
    · have ha : isAmiga v = false := by
        cases hA : isAmiga v
        · rfl
        · exact absurd ⟨hd, hA⟩ (not_dos_and_amiga v)
      simp [swapsSkyAndGround, hE, hv, ha]
    · simp [swapsSkyAndGround, hE, hv, ha]
    · simp [swapsSkyAndGround, hE, hv, ha]

theorem readColours_sky (v : Variant) (sky : Nat) (file : File) (c : Colours) (f1 : File)
    (h : readColours v sky file = .ok (c, f1)) :
    c.skyColor = (if usesAttributeByte v = true then 0 else sky) := by
  cases hv : usesAttributeByte v
  · obtain ⟨_, _, _, _, _, _, _, _, rfl, _⟩ := (readColours_four_iff v sky file c f1 hv).1 h
    simp
  · obtain ⟨_, _, rfl, _⟩ := (readColours_attr_iff v sky file c f1 hv).1 h
    simp

theorem header_colours {Obj : Type} (env : Env Obj) (v : Variant) (file : File)
    (h : AreaHeader) (f1 : File) (hh : load8bitAreaHeader env v file = .ok (h, f1)) :
    ∃ flags : Fin 256, file.data[file.pos]? = some flags ∧ h.areaFlags = flags.val ∧
      h.skyColor =
        (if usesAttributeByte v = true ∨ swapsSkyAndGround v = true then 0
          else flags.val % 16) ∧
      h.groundColor =
        (if swapsSkyAndGround v = true then flags.val % 16
          else if flags.val / 16 = 0 then 255 else flags.val / 16) := by
  obtain ⟨flags, n, a, p0, p1, s, hf, _, _, _, _, _, c, f7, t, hc, ht, rfl⟩ :=
    (load8bitAreaHeader_ok_iff env v file h f1).1 hh
  refine ⟨flags, hf, rfl, ?_⟩
  obtain ⟨hs, hg⟩ := readTitleFields_colours env v _ _ _ _ _ _ ht
  have hcs := readColours_sky v _ _ _ _ hc
  have e1 : flags.val &&& 15 = flags.val % 16 := Nat.and_pow_two_sub_one_eq_mod flags.val 4
  have e2 : flags.val >>> 4 = flags.val / 16 := Nat.shiftRight_eq_div_pow flags.val 4
  simp only [hs, hg, hcs, e1, e2]
  cases hsw : swapsSkyAndGround v
  · cases hat : usesAttributeByte v <;> simp
  · have := swaps_not_attribute v hsw
    simp [this]

theorem load8bitArea_fields {Obj : Type} (env : Env Obj) (v : Variant) (file : File)
    (r : LoadedArea Obj) (hr : load8bitArea env v file = .ok r) :
    ∃ h f1 st, load8bitAreaHeader env v file = .ok (h, f1) ∧
      objectLoop env h.scale h.areaNumber h.numberOfObjects
        ⟨f1, ObjectMap.empty, ObjectMap.empty, 0, []⟩ = .ok st ∧
      r.area.areaNumber = h.areaNumber ∧ r.area.skyColor = h.skyColor ∧
      r.area.groundColor = h.groundColor ∧
      r.area.usualBackgroundColor = h.usualBackgroundColor ∧
      r.area.underFireBackgroundColor = h.underFireBackgroundColor ∧
      r.area.paperColor = h.paperColor ∧ r.area.inkColor = h.inkColor ∧
      r.area.gasPocketX = h.gasPocketX ∧ r.area.gasPocketY = h.gasPocketY ∧
      r.area.gasPocketRadius = h.gasPocketRadius ∧ r.area.name = h.name ∧
      r.area.objectsByID = st.objectsByID ∧ r.area.entrancesByID = st.entrancesByID ∧
      r.calls = st.calls ∧ r.file = st.file := by
  obtain ⟨h, f1, st, hh, hst, rfl⟩ := (load8bitArea_ok_iff env v file r).1 hr
  exact ⟨h, f1, st, hh, hst, rfl, rfl, rfl, rfl, rfl, rfl, rfl, rfl, rfl, rfl, rfl, rfl, rfl,
    rfl, rfl⟩

theorem ok_of_toOption {ε α β : Type} (x : Except ε α) (f : α → β) (y : β)
    (h : x.toOption.map f = some y) : ∃ r, x = .ok r ∧ f r = y := by
  cases x with
  | error e => simp [Except.toOption] at h
  | ok r => exact ⟨r, rfl, by simpa [Except.toOption] using h⟩


theorem ok_of_isSome {ε α : Type} (x : Except ε α) (h : x.toOption.isSome = true) :
    ∃ r, x = .ok r := by
  cases x with
  | error e => simp [Except.toOption] at h
  | ok r => exact ⟨r, rfl⟩

theorem header_bytes {Obj : Type} (env : Env Obj) (v : Variant) (file : File)
    (h : AreaHeader) (f1 : File) (hh : load8bitAreaHeader env v file = .ok (h, f1)) :
    file.data[file.pos]? = some (Fin.ofNat h.areaFlags) ∧ h.areaFlags < 256 ∧
    file.data[file.pos + 1]? = some (Fin.ofNat h.numberOfObjects) ∧ h.numberOfObjects < 256 ∧
    file.data[file.pos + 2]? = some (Fin.ofNat h.areaNumber) ∧ h.areaNumber < 256 ∧
    file.data[file.pos + 5]? = some (Fin.ofNat h.scale) ∧ h.scale < 256 := by
  obtain ⟨flags, n, a, p0, p1, s, hf, hn, ha, _, _, hs, c, f7, t, hc, ht, rfl⟩ :=
    (load8bitAreaHeader_ok_iff env v file h f1).1 hh
  have e : ∀ b : Fin 256, (Fin.ofNat b.val : Fin 256) = b := by
    intro b
    apply Fin.ext
    simp [Fin.ofNat, Nat.mod_eq_of_lt b.isLt]
  simp only [e]
  exact ⟨hf, flags.isLt, hn, n.isLt, ha, a.isLt, hs, s.isLt⟩

/-! ## Auxiliary facts about runs of stores -/
theorem assignAll_nil {Obj : Type} (P : Obj → Prop) [DecidablePred P] (key : Obj → Nat)
    (m : ObjectMap Obj) : assignAll P key [] m = m := rfl

theorem assignAll_cons {Obj : Type} (P : Obj → Prop) [DecidablePred P] (key : Obj → Nat)
    (o : Obj) (objs : List Obj) (m : ObjectMap Obj) :
    assignAll P key (o :: objs) m =
      assignAll P key objs (if P o then m.assign (key o) o else m) := rfl

theorem assignAll_append {Obj : Type} (P : Obj → Prop) [DecidablePred P] (key : Obj → Nat)
    (l1 l2 : List Obj) (m : ObjectMap Obj) :
    assignAll P key (l1 ++ l2) m = assignAll P key l2 (assignAll P key l1 m) := by
  simp [assignAll, List.foldl_append]

theorem assignAll_mem {Obj : Type} (P : Obj → Prop) [DecidablePred P] (key : Obj → Nat)
    (objs : List Obj) (m : ObjectMap Obj) (e : Nat × Obj)
    (h : e ∈ (assignAll P key objs m).entries) :
    e ∈ m.entries ∨ (e.2 ∈ objs ∧ P e.2 ∧ e.1 = key e.2) := by
  induction objs generalizing m with
  | nil => exact Or.inl h
  | cons o objs ih =>
    rw [assignAll_cons] at h
    rcases ih _ h with h1 | ⟨h1, h2, h3⟩
    · by_cases hp : P o
      · simp only [hp, if_true, ObjectMap.mem_assign_iff] at h1
        rcases h1 with rfl | ⟨h1, _⟩
        · exact Or.inr ⟨by simp, hp, rfl⟩
        · exact Or.inl h1
      · simp only [hp, if_false] at h1
        exact Or.inl h1
    · exact Or.inr ⟨List.mem_cons_of_mem _ h1, h2, h3⟩

theorem assignAll_countKey_le {Obj : Type} (P : Obj → Prop) [DecidablePred P]
    (key : Obj → Nat) (objs : List Obj) (m : ObjectMap Obj)
    (hm : ∀ k, m.countKey k ≤ 1) (k : Nat) : (assignAll P key objs m).countKey k ≤ 1 := by
  induction objs generalizing m with
  | nil => exact hm k
  | cons o objs ih =>
    rw [assignAll_cons]
    apply ih
    intro k'
    by_cases hp : P o
    · simp only [hp, if_true, ObjectMap.countKey_assign]
      split
      · exact Nat.le_refl 1
      · exact hm k'
    · simp only [hp, if_false]
      exact hm k'

theorem assignAll_skip {Obj : Type} (P : Obj → Prop) [DecidablePred P] (key : Obj → Nat)
    (objs : List Obj) (m : ObjectMap Obj) (k : Nat)
    (h : ∀ o ∈ objs, P o → key o ≠ k) :
    (assignAll P key objs m).find? k = m.find? k ∧
      (assignAll P key objs m).countKey k = m.countKey k := by
  induction objs generalizing m with
  | nil => exact ⟨rfl, rfl⟩
  | cons o objs ih =>
    rw [assignAll_cons]
    obtain ⟨h1, h2⟩ := ih (if P o then m.assign (key o) o else m)
      (fun o' ho' => h o' (List.mem_cons_of_mem _ ho'))
    rw [h1, h2]
    by_cases hp : P o
    · have hne : k ≠ key o := fun hk => h o (by simp) hp hk.symm
      simp [hp, ObjectMap.find?_assign, ObjectMap.countKey_assign, hne]
    · simp [hp]

theorem assignAll_last {Obj : Type} (P : Obj → Prop) [DecidablePred P] (key : Obj → Nat)
    (l1 l2 : List Obj) (o : Obj) (m : ObjectMap Obj) (hp : P o)
    (h : ∀ o' ∈ l2, P o' → key o' ≠ key o) :
    (assignAll P key (l1 ++ o :: l2) m).find? (key o) = some o ∧
      (assignAll P key (l1 ++ o :: l2) m).countKey (key o) = 1 := by
  rw [assignAll_append, assignAll_cons]
  obtain ⟨h1, h2⟩ := assignAll_skip P key l2
    (if P o then (assignAll P key l1 m).assign (key o) o else assignAll P key l1 m) (key o) h
  rw [h1, h2]
  simp [hp, ObjectMap.find?_assign, ObjectMap.countKey_assign]

theorem ObjectMap.countKey_empty {Obj : Type} (k : Nat) :
    (ObjectMap.empty : ObjectMap Obj).countKey k = 0 := rfl

theorem entranceKey_lt {Obj : Type} (env : Env Obj) (o : Obj) : entranceKey env o < 32768 := by
  unfold entranceKey
  exact Nat.lt_of_le_of_lt Nat.and_le_right (by decide)

theorem load8bitArea_collections {Obj : Type} (env : Env Obj) (v : Variant) (file : File)
    (r : LoadedArea Obj) (hr : load8bitArea env v file = .ok r) :
    ∃ objs, r.area.entrancesByID = entrancesOf env objs ObjectMap.empty ∧
      r.area.objectsByID = objectsOf env objs ObjectMap.empty := by
  obtain ⟨h, f1, st, hh, hst, rfl⟩ := (load8bitArea_ok_iff env v file r).1 hr
  by_cases ha : h.areaNumber = 192
  · rw [ha, objectLoop_192] at hst
    cases hst
    exact ⟨[], rfl, rfl⟩
  · obtain ⟨objs, f', _, _, _, _, _, he, ho⟩ := objectLoop_ok env h.scale h.areaNumber ha _ _ st hst
    exact ⟨objs, he, ho⟩

theorem header_split {Obj : Type} (env : Env Obj) (v : Variant) (file : File)
    (h : AreaHeader) (f1 : File) (hh : load8bitAreaHeader env v file = .ok (h, f1)) :
    ∃ c f7 t, readColours v (h.areaFlags &&& 15) (file.skip 6) = .ok (c, f7) ∧
      readTitleFields env v h.areaNumber c.skyColor
        (if h.areaFlags >>> 4 = 0 then 255 else h.areaFlags >>> 4) f7 = .ok (t, f1) ∧
      f7 = file.skip (if usesAttributeByte v = true then 7 else 10) ∧
      h.usualBackgroundColor = c.usualBackgroundColor ∧
      h.underFireBackgroundColor = c.underFireBackgroundColor ∧
      h.paperColor = c.paperColor ∧ h.inkColor = c.inkColor ∧
      h.name = t.name ∧ h.gasPocketX = t.gasPocketX ∧ h.gasPocketY = t.gasPocketY ∧
      h.gasPocketRadius = t.gasPocketRadius ∧ h.extraColor = t.extraColor := by
  obtain ⟨flags, n, a, p0, p1, s, _, _, _, _, _, _, c, f7, t, hc, ht, rfl⟩ :=
    (load8bitAreaHeader_ok_iff env v file h f1).1 hh
  refine ⟨c, f7, t, hc, ht, ?_, rfl, rfl, rfl, rfl, rfl, rfl, rfl, rfl, rfl⟩
  cases hv : usesAttributeByte v
  · obtain ⟨_, _, _, _, _, _, _, _, _, rfl⟩ := (readColours_four_iff v _ _ c f7 hv).1 hc
    simp
  · obtain ⟨_, _, _, rfl⟩ := (readColours_attr_iff v _ _ c f7 hv).1 hc
    simp

theorem File.bytesAt_three (file : File) (off : Nat) (b0 b1 b2 : Fin 256)
    (h0 : file.data[file.pos + off]? = some b0)
    (h1 : file.data[file.pos + (off + 1)]? = some b1)
    (h2 : file.data[file.pos + (off + 2)]? = some b2) :
    file.bytesAt off 3 = [b0.val, b1.val, b2.val] := by
  rw [File.bytesAt_succ file off 2 b0 h0, File.bytesAt_succ file (off + 1) 1 b1 h1,
    File.bytesAt_succ file (off + 1 + 1) 0 b2 (by simpa [Nat.add_assoc] using h2)]
  simp [File.bytesAt]

theorem lookup_ok_iff (table : List CString) (i : Nat) (s : CString) :
    lookup table i = .ok s ↔ table[i]? = some s := by
  unfold lookup
  cases h : table[i]? <;> simp

theorem eclipse_not_attribute (v : Variant) (h : isEclipse v = true) :
    usesAttributeByte v = false := by
  obtain ⟨_, _, hC⟩ := (title_exclusive v).2.2.2 h
  simp [usesAttributeByte, hC]

theorem driller_not_attribute (v : Variant) (h : isDriller v = true) :
    usesAttributeByte v = false := by
  obtain ⟨_, _, hC⟩ := (title_exclusive v).1 h
  simp [usesAttributeByte, hC]

theorem dark_not_attribute (v : Variant) (h : isDark v = true) :
    usesAttributeByte v = false := by
  obtain ⟨_, _, hC⟩ := (title_exclusive v).2.1 h
  simp [usesAttributeByte, hC]

theorem spectrum_cpc_exclusive (v : Variant) (h : isSpectrum v = true ∨ isCPC v = true) :
    isAmiga v = false ∧ isDOS v = false ∧ (isSpectrum v || isCPC v) = true := by
  obtain ⟨title, platform, release⟩ := v
  cases platform <;> simp [isAmiga, isDOS, isSpectrum, isCPC] at h ⊢

theorem getElem?_lt {α : Type} (l : List α) (i : Nat) (a : α) (h : l[i]? = some a) :
    i < l.length := (List.getElem?_eq_some_iff.1 h).1

theorem readColours_size (v : Variant) (sky : Nat) (file : File) (c : Colours) (f1 : File)
    (h : readColours v sky file = .ok (c, f1)) :
    f1 = file.skip (if usesAttributeByte v = true then 1 else 4) ∧
      file.pos + (if usesAttributeByte v = true then 1 else 4) ≤ file.data.length := by
  cases hv : usesAttributeByte v
  · obtain ⟨_, _, _, b3, _, _, _, h3, _, hf⟩ := (readColours_four_iff v sky file c f1 hv).1 h
    have := getElem?_lt _ _ _ h3
    exact ⟨by simpa using hf, by simp; omega⟩
  · obtain ⟨a, h0, _, hf⟩ := (readColours_attr_iff v sky file c f1 hv).1 h
    have := getElem?_lt _ _ _ h0
    exact ⟨by simpa using hf, by simp; omega⟩

theorem readTitleFields_size {Obj : Type} (env : Env Obj) (v : Variant)
    (areaNumber sky gr : Nat) (file : File) (t : TitleFields) (f1 : File)
    (h : readTitleFields env v areaNumber sky gr file = .ok (t, f1)) :
    f1 = file.skip (headerSize v - 6 - (if usesAttributeByte v = true then 1 else 4)) ∧
      file.pos + (headerSize v - 6 - (if usesAttributeByte v = true then 1 else 4)) ≤
        file.data.length := by
  have hsz : headerSize v - 6 - (if usesAttributeByte v = true then 1 else 4) =
      (if isEclipse v then 5
       else if isDriller v || isDark v then 15
       else if isCastle v then 1 + (if isDOS v || isAmiga v then 4 else 0)
       else 0) := by
    unfold headerSize
    omega
  rw [hsz]
  rcases title_cases v with hv | hv | hv | hv
  · obtain ⟨_, _, _, _, hl, _, _, _, hf⟩ :=
      (readTitleFields_eclipse_iff env v areaNumber sky gr file t f1 hv).1 h
    rw [File.bytesAt_length] at hl
    simp only [hv, if_true]
    exact ⟨hf, by omega⟩
  · obtain ⟨hE, _, _⟩ := (title_exclusive v).1 hv
    obtain ⟨_, _, _, _, _, _, hl, _, hf⟩ :=
      (readTitleFields_driller_iff env v areaNumber sky gr file t f1 hv).1 h
    rw [File.bytesAt_length] at hl
    simp only [hE, hv, Bool.true_or, Bool.false_eq_true, if_true, if_false]
    exact ⟨hf, by omega⟩
  · obtain ⟨hE, hD, _⟩ := (title_exclusive v).2.1 hv
    obtain ⟨hl, _, hf⟩ := (readTitleFields_dark_iff env v areaNumber sky gr file t f1 hv).1 h
    rw [File.bytesAt_length] at hl
    simp only [hE, hD, hv, Bool.or_true, Bool.false_eq_true, if_true, if_false]
    exact ⟨hf, by omega⟩
  · obtain ⟨hE, hD, hK⟩ := (title_exclusive v).2.2.1 hv
    obtain ⟨idx, h0, name, _, hcase⟩ :=
      (readTitleFields_castle_iff env v areaNumber sky gr file t f1 hv).1 h
    have := getElem?_lt _ _ _ h0
    simp only [hE, hD, hK, hv, Bool.or_self, Bool.false_eq_true, if_true, if_false]
    rcases hcase with ⟨hd, _, _, _, e3, _, _, _, h4, _, hf⟩ |
      ⟨ha, _, _, _, e3, _, _, _, h4, _, hf⟩ | ⟨hd, ha, _, hf⟩
    · have := getElem?_lt _ _ _ h4
      simp only [hd, Bool.true_or, if_true]
      exact ⟨hf, by omega⟩
    · have := getElem?_lt _ _ _ h4
      simp only [ha, Bool.or_true, if_true]
      exact ⟨hf, by omega⟩
    · simp only [hd, ha, Bool.or_self, Bool.false_eq_true, if_false]
      exact ⟨hf, by omega⟩

theorem headerSize_ge (v : Variant) :
    6 + (if usesAttributeByte v = true then 1 else 4) ≤ headerSize v := by
  unfold headerSize
  omega

theorem header_size {Obj : Type} (env : Env Obj) (v : Variant) (file : File)
    (h : AreaHeader) (f1 : File) (hh : load8bitAreaHeader env v file = .ok (h, f1)) :
    f1 = file.skip (headerSize v) ∧ file.pos + headerSize v ≤ file.data.length := by
  obtain ⟨c, f7, t, _, ht, hf7, _⟩ := header_split env v file h f1 hh
  obtain ⟨hf1, hle⟩ := readTitleFields_size env v _ _ _ _ t f1 ht
  have hge := headerSize_ge v
  subst hf7
  simp only [File.skip_skip, File.skip_pos, File.skip_data] at hf1 hle
  constructor
  · rw [hf1]
    congr 1
    split <;> simp_all <;> omega
  · split at hle <;> simp_all <;> omega

theorem fos_ok {α : Type} (a : α) : FailsOnlyStructurally (Except.ok a : Except LoadError α) := by
  intro e h; cases h

theorem fos_pure {α : Type} (a : α) : FailsOnlyStructurally (pure a : Except LoadError α) :=
  fos_ok a

theorem fos_bind {α β : Type} (x : Except LoadError α) (f : α → Except LoadError β)
    (hx : FailsOnlyStructurally x) (hf : ∀ a, x = .ok a → FailsOnlyStructurally (f a)) :
    FailsOnlyStructurally (x >>= f) := by
  cases x with
  | error e0 =>
    intro e h
    simp only [bind, Except.bind] at h
    cases h
    exact hx e0 rfl
  | ok a => exact hf a rfl

theorem fos_ite {α : Type} (c : Prop) [Decidable c] (x y : Except LoadError α)
    (hx : c → FailsOnlyStructurally x) (hy : ¬ c → FailsOnlyStructurally y) :
    FailsOnlyStructurally (if c then x else y) := by
  split
  · exact hx ‹_›
  · exact hy ‹_›

theorem fos_readByte (file : File) : FailsOnlyStructurally (readByte file) := by
  intro e h
  unfold readByte at h
  cases hb : file.data[file.pos]? with
  | none => rw [hb] at h; cases h; rfl
  | some b => rw [hb] at h; cases h

theorem fos_readLE (n : Nat) (file : File) : FailsOnlyStructurally (readLE n file) := by
  induction n generalizing file with
  | zero => exact fos_ok _
  | succ n ih =>
    intro e h
    simp only [readLE] at h
    cases hb : readByte file with
    | error e0 =>
      rw [hb] at h
      have he := Except.error.inj h
      subst he
      exact fos_readByte file _ hb
    | ok p =>
      obtain ⟨b, f⟩ := p
      rw [hb] at h
      simp only at h
      cases hr : readLE n f with
      | error e1 =>
        rw [hr] at h
        have he := Except.error.inj h
        subst he
        exact ih f _ hr
      | ok q => rw [hr] at h; cases h

theorem fos_readField (file : File) (bits : Nat) :
    FailsOnlyStructurally (readField file bits) := fos_readLE _ file

theorem fos_readPtr (file : File) : FailsOnlyStructurally (readPtr file) := fos_readLE _ file

theorem readLE_ok_size (n : Nat) (file : File) (x : Nat) (f1 : File)
    (h : readLE n file = .ok (x, f1)) :
    f1 = file.skip n ∧ (n = 0 ∨ file.pos + n ≤ file.data.length) := by
  induction n generalizing file x f1 with
  | zero =>
    simp only [readLE, Except.ok.injEq, Prod.mk.injEq] at h
    exact ⟨by rw [← h.2]; simp [File.skip], Or.inl rfl⟩
  | succ n ih =>
    simp only [readLE] at h
    cases hb : readByte file with
    | error e0 => rw [hb] at h; cases h
    | ok p =>
      obtain ⟨b, f⟩ := p
      rw [hb] at h
      simp only at h
      obtain ⟨b', hb', hp⟩ := (readByte_ok_iff file _).1 hb
      simp only [Prod.mk.injEq] at hp
      obtain ⟨_, rfl⟩ := hp
      have hlt := getElem?_lt _ _ _ hb'
      cases hr : readLE n (file.skip 1) with
      | error e1 => rw [hr] at h; cases h
      | ok q =>
        obtain ⟨y, g⟩ := q
        rw [hr] at h
        simp only [Except.ok.injEq, Prod.mk.injEq] at h
        obtain ⟨hg, hs⟩ := ih (file.skip 1) y g hr
        refine ⟨?_, Or.inr ?_⟩
        · rw [← h.2, hg]; simp [Nat.add_comm]
        · rcases hs with rfl | hs
          · omega
          · simp only [File.skip_pos, File.skip_data] at hs; omega

theorem readField_short (file : File) (bits : Nat) (hb : 8 ≤ bits)
    (h : file.data.length < file.pos + bits / 8) :
    readField file bits = .error .structural := by
  cases hr : readField file bits with
  | error e => rw [fos_readField file bits e hr]
  | ok p =>
    obtain ⟨x, f1⟩ := p
    obtain ⟨_, hs⟩ := readLE_ok_size _ file x f1 hr
    have : 1 ≤ bits / 8 := Nat.div_pos hb (by decide) |> fun h => h
    rcases hs with h0 | hs <;> omega

theorem seek_short (file : File) (position : Nat) (h : file.data.length < position) :
    seek file position = .error .structural := by
  unfold seek
  rw [if_neg (by omega)]

theorem seek_ok_iff (file f1 : File) (position : Nat) :
    seek file position = .ok f1 ↔
      position ≤ file.data.length ∧ f1 = ⟨file.data, position⟩ := by
  unfold seek
  split <;> simp_all [eq_comm]

theorem fos_seek (file : File) (position : Nat) : FailsOnlyStructurally (seek file position) := by
  intro e h
  unfold seek at h
  split at h
  · cases h
  · cases h; rfl



theorem fos_appendChars (n : Nat) (name : CString) (file : File) :
    FailsOnlyStructurally (appendChars n name file) := by
  induction n generalizing name file with
  | zero => exact fos_ok _
  | succ n ih =>
    simp only [appendChars]
    refine fos_bind _ _ (fos_readField _ _) ?_
    rintro ⟨c, f⟩ _
    exact ih _ _

theorem fos_readFourColours (sky : Nat) (file : File) :
    FailsOnlyStructurally (readFourColours sky file) := by
  simp only [readFourColours]
  refine fos_bind _ _ (fos_readField _ _) ?_
  rintro ⟨a0, f0⟩ _
  refine fos_bind _ _ (fos_readField _ _) ?_
  rintro ⟨a1, f1⟩ _
  refine fos_bind _ _ (fos_readField _ _) ?_
  rintro ⟨a2, f2⟩ _
  refine fos_bind _ _ (fos_readField _ _) ?_
  rintro ⟨a3, f3⟩ _
  exact fos_pure _

theorem fos_readAttributeColours (v : Variant) (file : File) :
    FailsOnlyStructurally (readAttributeColours v file) := by
  simp only [readAttributeColours]
  refine fos_bind _ _ (fos_readField _ _) ?_
  rintro ⟨a0, f0⟩ _
  exact fos_pure _

theorem fos_readColours (v : Variant) (sky : Nat) (file : File) :
    FailsOnlyStructurally (readColours v sky file) := by
  unfold readColours
  split
  · exact fos_readFourColours _ _
  · exact fos_readAttributeColours _ _

theorem fos_lookup (table : List CString) (i : Nat) (h : i < table.length) :
    FailsOnlyStructurally (lookup table i) := by
  unfold lookup
  rw [List.getElem?_eq_getElem h]
  exact fos_ok _

theorem readField8_lt (file : File) (x : Nat) (f1 : File)
    (h : readField file 8 = .ok (x, f1)) : x < 256 := by
  obtain ⟨b, _, hp⟩ := (readField8_ok_iff file _).1 h
  simp only [Prod.mk.injEq] at hp
  rw [hp.1]
  exact b.isLt

theorem fos_read4 (file : File) :
    FailsOnlyStructurally (do
      let (e0, file) ← readField file 8
      let (e1, file) ← readField file 8
      let (e2, file) ← readField file 8
      let (e3, file) ← readField file 8
      (pure ([e0, e1, e2, e3], file) : Except LoadError (List Nat × File))) := by
  refine fos_bind _ _ (fos_readField _ _) ?_
  rintro ⟨a0, f0⟩ _
  refine fos_bind _ _ (fos_readField _ _) ?_
  rintro ⟨a1, f1⟩ _
  refine fos_bind _ _ (fos_readField _ _) ?_
  rintro ⟨a2, f2⟩ _
  refine fos_bind _ _ (fos_readField _ _) ?_
  rintro ⟨a3, f3⟩ _
  exact fos_pure _

theorem fos_readTitleFields {Obj : Type} (env : Env Obj) (hT : TablesComplete env)
    (v : Variant) (areaNumber sky gr : Nat) (file : File) :
    FailsOnlyStructurally (readTitleFields env v areaNumber sky gr file) := by
  obtain ⟨hT1, hT2, hT3⟩ := hT
  unfold readTitleFields
  split
  · refine fos_bind _ _ (fos_readField _ _) ?_
    rintro ⟨idx, f0⟩ hidx
    have hlt := readField8_lt _ _ _ hidx
    refine fos_bind _ _ ?_ ?_
    · split <;> split <;> apply fos_lookup <;> omega
    · intro name _
      refine fos_bind _ _ (fos_readField _ _) ?_
      rintro ⟨c, f1⟩ _
      refine fos_bind _ _ (fos_appendChars _ _ _) ?_
      rintro ⟨nm, f2⟩ _
      exact fos_pure _
  · split
    · refine fos_bind _ _ ?_ ?_
      · split
        · refine fos_bind _ _ (fos_readField _ _) ?_
          rintro ⟨a0, f0⟩ _
          refine fos_bind _ _ (fos_readField _ _) ?_
          rintro ⟨a1, f1⟩ _
          refine fos_bind _ _ (fos_readField _ _) ?_
          rintro ⟨a2, f2⟩ _
          exact fos_pure _
        · refine fos_bind _ _ (fos_readField _ _) ?_
          rintro ⟨a0, f0⟩ _
          refine fos_bind _ _ (fos_readField _ _) ?_
          rintro ⟨a1, f1⟩ _
          refine fos_bind _ _ (fos_readField _ _) ?_
          rintro ⟨a2, f2⟩ _
          exact fos_pure _
      · rintro ⟨nm, gx, gy, gr', f⟩ _
        refine fos_bind _ _ (fos_appendChars _ _ _) ?_
        rintro ⟨nm2, f2⟩ _
        exact fos_pure _
    · split
      · refine fos_bind _ _ (fos_readField _ _) ?_
        rintro ⟨idx, f0⟩ hidx
        have hlt := readField8_lt _ _ _ hidx
        refine fos_bind _ _ ?_ ?_
        · split
          · apply fos_lookup; omega
          · split
            · split
              · exact fos_pure _
              · apply fos_lookup; omega
            · apply fos_lookup; omega
        · intro name _
          refine fos_bind _ _ ?_ ?_
          · split
            · exact fos_read4 _
            · exact fos_pure _
          · rintro ⟨ex, f1⟩ _
            simp only
            split
            · refine fos_bind _ _ (fos_readField _ _) ?_
              rintro ⟨a0, g0⟩ _
              refine fos_bind _ _ (fos_readField _ _) ?_
              rintro ⟨a1, g1⟩ _
              refine fos_bind _ _ (fos_readField _ _) ?_
              rintro ⟨a2, g2⟩ _
              refine fos_bind _ _ (fos_readField _ _) ?_
              rintro ⟨a3, g3⟩ _
              exact fos_pure _
            · exact fos_pure _
      · exact fos_pure _

theorem fos_load8bitAreaHeader {Obj : Type} (env : Env Obj) (hT : TablesComplete env)
    (v : Variant) (file : File) :
    FailsOnlyStructurally (load8bitAreaHeader env v file) := by
  unfold load8bitAreaHeader
  refine fos_bind _ _ (fos_readField _ _) ?_
  rintro ⟨a0, f0⟩ _
  refine fos_bind _ _ (fos_readField _ _) ?_
  rintro ⟨a1, f1⟩ _
  refine fos_bind _ _ (fos_readField _ _) ?_
  rintro ⟨a2, f2⟩ _
  refine fos_bind _ _ (fos_readPtr _) ?_
  rintro ⟨a3, f3⟩ _
  refine fos_bind _ _ (fos_readField _ _) ?_
  rintro ⟨a4, f4⟩ _
  refine fos_bind _ _ (fos_readColours _ _ _) ?_
  rintro ⟨c, f5⟩ _
  refine fos_bind _ _ (fos_readTitleFields env hT _ _ _ _ _) ?_
  rintro ⟨t, f6⟩ _
  exact fos_pure _

theorem load8bitArea_header_error {Obj : Type} (env : Env Obj) (v : Variant) (file : File)
    (e : LoadError) (h : load8bitAreaHeader env v file = .error e) :
    load8bitArea env v file = .error e := by
  simp [load8bitArea, h, bind, Except.bind]

theorem load8bitArea_short {Obj : Type} (env : Env Obj) (hT : TablesComplete env)
    (v : Variant) (file : File) (h : file.data.length < file.pos + headerSize v) :
    load8bitArea env v file = .error .structural := by
  cases hh : load8bitAreaHeader env v file with
  | error e =>
    rw [load8bitArea_header_error env v file e hh, fos_load8bitAreaHeader env hT v file e hh]
  | ok p =>
    obtain ⟨hd, f1⟩ := p
    have := (header_size env v file hd f1 hh).2
    omega

theorem readField16_ok_iff (file : File) (p : Nat × File) :
    readField file 16 = .ok p ↔
      ∃ b0 b1 : Fin 256, file.data[file.pos]? = some b0 ∧ file.data[file.pos + 1]? = some b1 ∧
        p = (b0.val + 256 * b1.val, file.skip 2) :=
  readPtr_ok_iff file p

theorem load8bitBinaryHeader_ok_iff (v : Variant) (file : File) (b : BinaryHeader)
    (f1 : File) :
    load8bitBinaryHeader v file = .ok (b, f1) ↔
      ∃ n d0 d1 sa se : Fin 256,
        file.data[file.pos]? = some n ∧ file.data[file.pos + 1]? = some d0 ∧
        file.data[file.pos + 2]? = some d1 ∧
        file.data[file.pos + (if (isAmiga v || isAtariST v) = true then 5 else 3)]? = some sa ∧
        file.data[file.pos + (if (isAmiga v || isAtariST v) = true then 6 else 4)]? = some se ∧
        ((isAmiga v || isAtariST v) = true →
          ∃ x0 x1 : Fin 256, file.data[file.pos + 3]? = some x0 ∧
            file.data[file.pos + 4]? = some x1) ∧
        b = ⟨if (isAmiga v && isCastle v && isDemo v) = true then 87 else n.val,
              d0.val + 256 * d1.val, sa.val, se.val⟩ ∧
        f1 = file.skip (if (isAmiga v || isAtariST v) = true then 7 else 5) := by
  cases hx : (isAmiga v || isAtariST v)
  · simp only [load8bitBinaryHeader, hx, bind_ok_iff, readField8_ok_iff, readField16_ok_iff,
      pure_eq_ok, Bool.false_eq_true, if_false, false_implies, true_and]
    constructor
    · rintro ⟨⟨x0, g0⟩, ⟨n, hn, e0⟩, ⟨x1, g1⟩, ⟨d0, d1, hd0, hd1, e1⟩, g2, e2,
        ⟨x3, g3⟩, ⟨sa, hsa, e3⟩, ⟨x4, g4⟩, ⟨se, hse, e4⟩, hr⟩
      simp only [Prod.mk.injEq] at e0 e1 e3 e4
      obtain ⟨rfl, rfl⟩ := e0
      obtain ⟨rfl, rfl⟩ := e1
      simp only [Except.ok.injEq] at e2
      subst e2
      obtain ⟨rfl, rfl⟩ := e3
      obtain ⟨rfl, rfl⟩ := e4
      simp only [File.skip_pos, File.skip_data, File.skip_skip, Nat.add_assoc,
        Nat.reduceAdd] at hd0 hd1 hsa hse hr
      simp only [Except.ok.injEq, Prod.mk.injEq] at hr
      obtain ⟨rfl, rfl⟩ := hr
      exact ⟨n, d0, d1, sa, se, hn, hd0, hd1, hsa, hse, rfl, rfl⟩
    · rintro ⟨n, d0, d1, sa, se, hn, hd0, hd1, hsa, hse, rfl, rfl⟩
      exact ⟨(n.val, file.skip 1), ⟨n, hn, rfl⟩, (d0.val + 256 * d1.val, file.skip 3),
        ⟨d0, d1, by simpa using hd0, by simpa [Nat.add_assoc] using hd1, by simp⟩,
        file.skip 3, rfl, (sa.val, file.skip 4), ⟨sa, by simpa using hsa, by simp⟩,
        (se.val, file.skip 5), ⟨se, by simpa using hse, by simp⟩, rfl⟩
  · simp only [load8bitBinaryHeader, hx, bind_ok_iff, readField8_ok_iff, readField16_ok_iff,
      pure_eq_ok, if_true, true_implies]
    constructor
    · rintro ⟨⟨x0, g0⟩, ⟨n, hn, e0⟩, ⟨x1, g1⟩, ⟨d0, d1, hd0, hd1, e1⟩, g2,
        ⟨⟨x2, g2'⟩, ⟨y0, y1, hy0, hy1, e2'⟩, e2⟩,
        ⟨x3, g3⟩, ⟨sa, hsa, e3⟩, ⟨x4, g4⟩, ⟨se, hse, e4⟩, hr⟩
      simp only [Prod.mk.injEq] at e0 e1 e2' e3 e4
      obtain ⟨rfl, rfl⟩ := e0
      obtain ⟨rfl, rfl⟩ := e1
      obtain ⟨rfl, rfl⟩ := e2'
      simp only [Except.ok.injEq] at e2
      subst e2
      obtain ⟨rfl, rfl⟩ := e3
      obtain ⟨rfl, rfl⟩ := e4
      simp only [File.skip_pos, File.skip_data, File.skip_skip, Nat.add_assoc,
        Nat.reduceAdd] at hd0 hd1 hy0 hy1 hsa hse hr
      simp only [Except.ok.injEq, Prod.mk.injEq] at hr
      obtain ⟨rfl, rfl⟩ := hr
      exact ⟨n, d0, d1, sa, se, hn, hd0, hd1, hsa, hse, ⟨y0, y1, hy0, hy1⟩, rfl, rfl⟩
    · rintro ⟨n, d0, d1, sa, se, hn, hd0, hd1, hsa, hse, ⟨y0, y1, hy0, hy1⟩, rfl, rfl⟩
      exact ⟨(n.val, file.skip 1), ⟨n, hn, rfl⟩, (d0.val + 256 * d1.val, file.skip 3),
        ⟨d0, d1, by simpa using hd0, by simpa [Nat.add_assoc] using hd1, by simp⟩,
        file.skip 5, ⟨(y0.val + 256 * y1.val, file.skip 5),
          ⟨y0, y1, by simpa using hy0, by simpa [Nat.add_assoc] using hy1, by simp⟩, rfl⟩,
        (sa.val, file.skip 6), ⟨sa, by simpa using hsa, by simp⟩,
        (se.val, file.skip 7), ⟨se, by simpa using hse, by simp⟩, rfl⟩



theorem readOffsetTable_ok (n : Nat) (file : File) (tbl : List Nat) (f1 : File)
    (h : readOffsetTable n file = .ok (tbl, f1)) :
    tbl.length = n ∧ f1 = file.skip (2 * n) ∧ (n = 0 ∨ file.pos + 2 * n ≤ file.data.length) ∧
      ∀ i, i < n → ∃ b0 b1 : Fin 256, file.data[file.pos + 2 * i]? = some b0 ∧
        file.data[file.pos + 2 * i + 1]? = some b1 ∧ tbl[i]? = some (b0.val + 256 * b1.val) := by
  induction n generalizing file tbl f1 with
  | zero =>
    simp only [readOffsetTable, Except.ok.injEq, Prod.mk.injEq] at h
    obtain ⟨rfl, rfl⟩ := h
    exact ⟨rfl, by simp [File.skip], Or.inl rfl, fun i hi => absurd hi (Nat.not_lt_zero i)⟩
  | succ n ih =>
    simp only [readOffsetTable, bind_ok_iff, readPtr_ok_iff, pure_eq_ok] at h
    obtain ⟨⟨x, g⟩, ⟨b0, b1, h0, h1, e0⟩, ⟨rest, g'⟩, hrest, hr⟩ := h
    simp only [Prod.mk.injEq] at e0
    obtain ⟨rfl, rfl⟩ := e0
    simp only [Except.ok.injEq, Prod.mk.injEq] at hr
    obtain ⟨rfl, rfl⟩ := hr
    obtain ⟨hl, hf, hs, hi⟩ := ih (file.skip 2) rest g' hrest
    have hlt := getElem?_lt _ _ _ h1
    refine ⟨by simp [hl], ?_, Or.inr ?_, ?_⟩
    · rw [hf]; simp only [File.skip_skip]; congr 1; omega
    · rcases hs with rfl | hs
      · omega
      · simp only [File.skip_pos, File.skip_data] at hs; omega
    · intro i hi'
      cases i with
      | zero => exact ⟨b0, b1, by simpa using h0, by simpa using h1, by simp⟩
      | succ i =>
        obtain ⟨c0, c1, g0, g1, gt⟩ := hi i (by omega)
        simp only [File.skip_pos, File.skip_data] at g0 g1
        refine ⟨c0, c1, ?_, ?_, by simpa using gt⟩
        · rw [← g0]; congr 1; omega
        · rw [← g1]; congr 1; omega

theorem fos_readOffsetTable (n : Nat) (file : File) :
    FailsOnlyStructurally (readOffsetTable n file) := by
  induction n generalizing file with
  | zero => exact fos_ok _
  | succ n ih =>
    simp only [readOffsetTable]
    refine fos_bind _ _ (fos_readPtr _) ?_
    rintro ⟨x, g⟩ _
    refine fos_bind _ _ (ih _) ?_
    rintro ⟨rest, g'⟩ _
    exact fos_pure _

theorem fos_load8bitBinaryHeader (v : Variant) (file : File) :
    FailsOnlyStructurally (load8bitBinaryHeader v file) := by
  unfold load8bitBinaryHeader
  refine fos_bind _ _ (fos_readField _ _) ?_
  rintro ⟨a0, f0⟩ _
  refine fos_bind _ _ (fos_readField _ _) ?_
  rintro ⟨a1, f1⟩ _
  refine fos_bind _ _ ?_ ?_
  · split
    · refine fos_bind _ _ (fos_readField _ _) ?_
      rintro ⟨a2, f2⟩ _
      exact fos_pure _
    · exact fos_pure _
  · intro f2 _
    refine fos_bind _ _ (fos_readField _ _) ?_
    rintro ⟨a3, f3⟩ _
    refine fos_bind _ _ (fos_readField _ _) ?_
    rintro ⟨a4, f4⟩ _
    exact fos_pure _

theorem decodeObjects_data {Obj : Type} (env : Env Obj)
    (hdec : ∀ f o f', env.load8bitObject f = .ok (o, f') → f'.data = f.data)
    (scale n : Nat) (file : File) (objs : List Obj) (f1 : File)
    (h : decodeObjects env scale n file = .ok (objs, f1)) : f1.data = file.data := by
  induction n generalizing file objs f1 with
  | zero =>
    simp only [decodeObjects, Except.ok.injEq, Prod.mk.injEq] at h
    rw [← h.2]
  | succ n ih =>
    simp only [decodeObjects] at h
    cases hd : env.load8bitObject file with
    | error e => rw [hd] at h; cases h
    | ok p =>
      obtain ⟨o, g⟩ := p
      rw [hd] at h
      simp only at h
      cases hr : decodeObjects env scale n g with
      | error e => rw [hr] at h; cases h
      | ok q =>
        obtain ⟨rest, g'⟩ := q
        rw [hr] at h
        simp only [Except.ok.injEq, Prod.mk.injEq] at h
        rw [← h.2, ih g rest g' hr, hdec file o g hd]

theorem load8bitArea_data {Obj : Type} (env : Env Obj)
    (hdec : ∀ f o f', env.load8bitObject f = .ok (o, f') → f'.data = f.data)
    (v : Variant) (file : File) (r : LoadedArea Obj)
    (hr : load8bitArea env v file = .ok r) : r.file.data = file.data := by
  obtain ⟨h, f1, st, hh, hst, rfl⟩ := (load8bitArea_ok_iff env v file r).1 hr
  obtain ⟨hf1, _⟩ := header_size env v file h f1 hh
  show st.file.data = file.data
  by_cases ha : h.areaNumber = 192
  · rw [ha, objectLoop_192] at hst
    cases hst
    rw [hf1]; rfl
  · obtain ⟨objs, f', hd, _, _, hf, _⟩ := objectLoop_ok env h.scale h.areaNumber ha _ _ st hst
    rw [hf, decodeObjects_data env hdec _ _ _ objs f' hd, hf1]
    rfl

theorem loadAreas_ok {Obj : Type} (env : Env Obj) (v : Variant) (offset : Nat)
    (tbl : List Nat) (i : Nat) (file : File) (areas : List (Nat × Area Obj))
    (seeks : List Nat) (f1 : File)
    (h : loadAreas env v offset tbl i file = .ok (areas, seeks, f1)) :
    seeks = tbl.map (fun entry => offset + entry) ∧ areas.length = tbl.length ∧
      ∀ j, j < tbl.length → ∃ (entry : Nat) (fj : File) (r : LoadedArea Obj),
        tbl[j]? = some entry ∧ fj.pos = offset + entry ∧ offset + entry ≤ fj.data.length ∧
        load8bitArea env v fj = .ok r ∧ areas[j]? = some (i + j, r.area) := by
  induction tbl generalizing i file areas seeks f1 with
  | nil =>
    simp only [loadAreas, Except.ok.injEq, Prod.mk.injEq] at h
    obtain ⟨rfl, rfl, _⟩ := h
    exact ⟨rfl, rfl, fun j hj => absurd hj (Nat.not_lt_zero j)⟩
  | cons entry rest ih =>
    simp only [loadAreas, bind_ok_iff, seek_ok_iff, pure_eq_ok] at h
    obtain ⟨g, ⟨hle, rfl⟩, r, hr, ⟨as, ss, g'⟩, hrest, hres⟩ := h
    simp only [Except.ok.injEq, Prod.mk.injEq] at hres
    obtain ⟨rfl, rfl, rfl⟩ := hres
    obtain ⟨hs, hl, hj⟩ := ih (i + 1) r.file as ss g' hrest
    refine ⟨by simp [hs], by simp [hl], ?_⟩
    intro j hjlt
    cases j with
    | zero => exact ⟨entry, ⟨file.data, offset + entry⟩, r, by simp, rfl, hle, hr, by simp⟩
    | succ j =>
      obtain ⟨e, fj, rj, he, hp, hle', hrj, ha⟩ := hj j (by simpa using hjlt)
      refine ⟨e, fj, rj, by simpa using he, hp, hle', hrj, ?_⟩
      simp only [List.getElem?_cons_succ]
      rw [ha]
      congr 2
      omega

theorem loadAreas_within {Obj : Type} (env : Env Obj)
    (hdec : ∀ f o f', env.load8bitObject f = .ok (o, f') → f'.data = f.data)
    (v : Variant) (offset : Nat)
    (tbl : List Nat) (i : Nat) (file : File) (areas : List (Nat × Area Obj))
    (seeks : List Nat) (f1 : File)
    (h : loadAreas env v offset tbl i file = .ok (areas, seeks, f1)) :
    ∀ p ∈ seeks, p + headerSize v ≤ file.data.length := by
  induction tbl generalizing i file areas seeks f1 with
  | nil =>
    simp only [loadAreas, Except.ok.injEq, Prod.mk.injEq] at h
    obtain ⟨_, rfl, _⟩ := h
    intro p hp
    cases hp
  | cons entry rest ih =>
    simp only [loadAreas, bind_ok_iff, seek_ok_iff, pure_eq_ok] at h
    obtain ⟨g, ⟨hle, rfl⟩, r, hr, ⟨as, ss, g'⟩, hrest, hres⟩ := h
    simp only [Except.ok.injEq, Prod.mk.injEq] at hres
    obtain ⟨_, rfl, _⟩ := hres
    have hdata := load8bitArea_data env hdec v _ r hr
    simp only at hdata
    obtain ⟨hd, g1, st, hh, _⟩ := (load8bitArea_ok_iff env v _ r).1 hr
    have hfit := (header_size env v _ hd g1 hh).2
    simp only at hfit
    intro p hp
    rcases List.mem_cons.1 hp with rfl | hp
    · exact hfit
    · have := ih (i + 1) r.file as ss g' hrest p hp
      rw [hdata] at this
      exact this

theorem loadAreas_out {Obj : Type} (env : Env Obj) (v : Variant) (offset : Nat)
    (entry : Nat) (rest : List Nat) (i : Nat) (file : File)
    (h : file.data.length < offset + entry) :
    loadAreas env v offset (entry :: rest) i file = .error .structural := by
  simp [loadAreas, seek_short file _ h, bind, Except.bind]

theorem load8bitBinary_ok_iff {Obj : Type} (env : Env Obj) (v : Variant) (offset : Nat)
    (file : File) (db : Database Obj) :
    load8bitBinary env v offset file = .ok db ↔
      ∃ b f1 tbl f2 areas seeks f3, load8bitBinaryHeader v file = .ok (b, f1) ∧
        readOffsetTable b.numberOfAreas f1 = .ok (tbl, f2) ∧
        loadAreas env v offset tbl 0 f2 = .ok (areas, seeks, f3) ∧
        db = ⟨b.numberOfAreas, b.dbSize, b.startArea, b.startEntrance, areas, tbl, seeks⟩ := by
  simp only [load8bitBinary, bind_ok_iff, pure_eq_ok]
  constructor
  · rintro ⟨⟨b, f1⟩, hb, ⟨tbl, f2⟩, ht, ⟨areas, seeks, f3⟩, ha, hr⟩
    simp only [Except.ok.injEq] at hr
    exact ⟨b, f1, tbl, f2, areas, seeks, f3, hb, ht, ha, hr.symm⟩
  · rintro ⟨b, f1, tbl, f2, areas, seeks, f3, hb, ht, ha, rfl⟩
    exact ⟨(b, f1), hb, (tbl, f2), ht, (areas, seeks, f3), ha, rfl⟩

theorem ObjectMap.size_assign_le {Obj : Type} (m : ObjectMap Obj) (k : Nat) (v : Obj) :
    (m.assign k v).size ≤ m.size + 1 := by
  simp only [ObjectMap.size, ObjectMap.assign, List.length_cons]
  have := List.length_filter_le (fun e : Nat × Obj => e.1 != k) m.entries
  omega

theorem ObjectMap.size_assign_eq_iff {Obj : Type} (m : ObjectMap Obj) (k : Nat) (v : Obj) :
    (m.assign k v).size = m.size + 1 ↔ m.contains k = false := by
  simp only [ObjectMap.size, ObjectMap.assign, List.length_cons, Nat.add_right_cancel_iff,
    List.filter_length_eq_length, ObjectMap.contains, List.any_eq_false]
  constructor
  · intro h e he
    have := h e he
    simpa using this
  · intro h e he
    have := h e he
    simpa using this

theorem assignAll_size_le {Obj : Type} (P : Obj → Prop) [DecidablePred P] (key : Obj → Nat)
    (objs : List Obj) (m : ObjectMap Obj) :
    (assignAll P key objs m).size ≤ m.size + (objs.filter (fun o => decide (P o))).length := by
  induction objs generalizing m with
  | nil => simp [assignAll_nil]
  | cons o objs ih =>
    rw [assignAll_cons]
    by_cases hp : P o
    · have h1 := ih (m.assign (key o) o)
      have h2 := ObjectMap.size_assign_le m (key o) o
      simp only [hp, if_true, decide_True, List.filter_cons_of_pos, List.length_cons] at h1 ⊢
      omega
    · have h1 := ih m
      simpa [hp] using h1

theorem assignAll_size_eq_iff {Obj : Type} (P : Obj → Prop) [DecidablePred P]
    (key : Obj → Nat) (objs : List Obj) (m : ObjectMap Obj) :
    (assignAll P key objs m).size = m.size + (objs.filter (fun o => decide (P o))).length ↔
      ((objs.filter (fun o => decide (P o))).map key).Nodup ∧
        ∀ k ∈ (objs.filter (fun o => decide (P o))).map key, m.contains k = false := by
  induction objs generalizing m with
  | nil => simp [assignAll_nil]
  | cons o objs ih =>
    rw [assignAll_cons]
    by_cases hp : P o
    · simp only [hp, if_true, decide_True, List.filter_cons_of_pos, List.length_cons,
        List.map_cons, List.nodup_cons, List.mem_cons, forall_eq_or_imp]
      have hle := assignAll_size_le P key objs (m.assign (key o) o)
      have hsz := ObjectMap.size_assign_le m (key o) o
      constructor
      · intro h
        have hm : (m.assign (key o) o).size = m.size + 1 := by omega
        have hc := (ObjectMap.size_assign_eq_iff m (key o) o).1 hm
        obtain ⟨hnd, hdis⟩ := (ih (m.assign (key o) o)).1 (by omega)
        refine ⟨⟨?_, hnd⟩, hc, ?_⟩
        · intro hmem
          have := hdis _ hmem
          simp [ObjectMap.contains_assign] at this
        · intro k hk
          have := hdis k hk
          simp only [ObjectMap.contains_assign, Bool.or_eq_false_iff] at this
          exact this.2
      · rintro ⟨⟨hnot, hnd⟩, hc, hdis⟩
        have hm := (ObjectMap.size_assign_eq_iff m (key o) o).2 hc
        have := (ih (m.assign (key o) o)).2 ⟨hnd, by
          intro k hk
          simp only [ObjectMap.contains_assign, Bool.or_eq_false_iff, beq_eq_false_iff_ne]
          refine ⟨?_, hdis k hk⟩
          rintro rfl
          exact hnot hk⟩
        omega
    · simpa [hp] using ih m

theorem filter_split_length {α : Type} (p : α → Prop) [DecidablePred p] (l : List α) :
    (l.filter (fun o => decide (p o))).length + (l.filter (fun o => decide (¬ p o))).length =
      l.length := by
  induction l with
  | nil => rfl
  | cons a l ih =>
    by_cases h : p a
    · rw [List.filter_cons_of_pos (by simpa using h),
        List.filter_cons_of_neg (by simpa using h)]
      simp only [List.length_cons]
      omega
    · rw [List.filter_cons_of_neg (by simpa using h),
        List.filter_cons_of_pos (by simpa using h)]
      simp only [List.length_cons]
      omega

theorem decodeObjects_raw {Obj : Type} (env : Env Obj) (scale n : Nat) (file : File)
    (objs : List Obj) (f1 : File) (h : decodeObjects env scale n file = .ok (objs, f1)) :
    objs = (rawObjects env n file).map (env.scale scale) ∧ objs.length ≤ n := by
  induction n generalizing file objs f1 with
  | zero =>
    simp only [decodeObjects, Except.ok.injEq, Prod.mk.injEq] at h
    rw [← h.1]
    exact ⟨rfl, Nat.le_refl 0⟩
  | succ n ih =>
    simp only [decodeObjects] at h
    cases hd : env.load8bitObject file with
    | error e => rw [hd] at h; cases h
    | ok p =>
      obtain ⟨o, g⟩ := p
      rw [hd] at h
      simp only at h
      cases hr : decodeObjects env scale n g with
      | error e => rw [hr] at h; cases h
      | ok q =>
        obtain ⟨rest, g'⟩ := q
        rw [hr] at h
        simp only [Except.ok.injEq, Prod.mk.injEq] at h
        obtain ⟨h1, h2⟩ := ih g rest g' hr
        rw [← h.1]
        simp only [rawObjects, hd, List.map_append, ← h1]
        cases o with
        | none => exact ⟨rfl, by simp; omega⟩
        | some o => exact ⟨rfl, by simp; omega⟩

theorem fos_readTitleFields_eclipse {Obj : Type} (env : Env Obj) (v : Variant)
    (hv : isEclipse v = true) (h1 : 9 ≤ env.eclipseRoomName.length)
    (h2 : 9 ≤ env.eclipse2RoomName.length) (areaNumber sky gr : Nat) (file : File) :
    FailsOnlyStructurally (readTitleFields env v areaNumber sky gr file) := by
  simp only [readTitleFields, hv, if_true]
  refine fos_bind _ _ (fos_readField _ _) ?_
  rintro ⟨idx, f0⟩ hidx
  have hlt := readField8_lt _ _ _ hidx
  refine fos_bind _ _ ?_ ?_
  · split <;> split <;> apply fos_lookup <;> omega
  · intro name _
    refine fos_bind _ _ (fos_readField _ _) ?_
    rintro ⟨c, f1⟩ _
    refine fos_bind _ _ (fos_appendChars _ _ _) ?_
    rintro ⟨nm, f2⟩ _
    exact fos_pure _

/-! ## The claims -/

set_option maxRecDepth 20000

/-- C1: in a variant where neither the attribute-byte branch nor the colour swap applies,
the Area returned by `load8bitArea` has sky colour `f mod 16` and ground colour `f div 16`,
or 255 when that quotient is zero, where `f` is the flags byte (the byte under the
cursor). Driller and Dark are such variants on every platform. -/
theorem C1_sky_and_ground_from_flags {Obj : Type} (env : Env Obj) (v : Variant) (file : File)
    (r : LoadedArea Obj) (f : Fin 256)
    (hattr : usesAttributeByte v = false) (hswap : swapsSkyAndGround v = false)
    (hf : file.data[file.pos]? = some f)
    (hr : load8bitArea env v file = .ok r) :
    r.area.skyColor = f.val % 16 ∧
      r.area.groundColor = (if f.val / 16 = 0 then 255 else f.val / 16) ∧
      (∀ w : Variant, isDriller w = true ∨ isDark w = true →
        usesAttributeByte w = false ∧ swapsSkyAndGround w = false) := by
  obtain ⟨h, f1, st, hh, _, _, hs, hg, _⟩ := load8bitArea_fields env v file r hr
  obtain ⟨flags, hfl, _, hs', hg'⟩ := header_colours env v file h f1 hh
  rw [hf] at hfl
  cases hfl
  rw [hs, hg, hs', hg']
  refine ⟨by simp [hattr, hswap], by simp [hswap], ?_⟩
  rintro w (hw | hw)
  · obtain ⟨hE, _, hC⟩ := (title_exclusive w).1 hw
    simp [usesAttributeByte, swapsSkyAndGround, hE, hC]
  · obtain ⟨hE, _, hC⟩ := (title_exclusive w).2.1 hw
    simp [usesAttributeByte, swapsSkyAndGround, hE, hC]

/-- Witness of C1: Driller on DOS with flags byte 0x05 gives sky 5 and ground 255, Dark on
Amiga with flags byte 0x53 gives sky 3 and ground 5. -/
theorem C1_sky_and_ground_from_flags_witness :
    (∃ r : LoadedArea SampleObject,
      load8bitArea sampleEnv ⟨.driller, .dos, .full⟩
        ⟨[0x05, 0, 7, 0, 0, 1, 1, 2, 3, 4, 9, 8, 7,
          65, 66, 67, 68, 69, 70, 71, 72, 73, 74, 75, 76], 0⟩ = .ok r ∧
      r.area.skyColor = 5 ∧ r.area.groundColor = 255) ∧
    (∃ r : LoadedArea SampleObject,
      load8bitArea sampleEnv ⟨.dark, .amiga, .full⟩
        ⟨[0x53, 0, 7, 0, 0, 1, 1, 2, 3, 4, 9, 8, 7,
          65, 66, 67, 68, 69, 70, 71, 72, 73, 74, 75, 76], 0⟩ = .ok r ∧
      r.area.skyColor = 3 ∧ r.area.groundColor = 5) := by
  constructor
  · obtain ⟨r, hr⟩ := ok_of_isSome (load8bitArea sampleEnv ⟨.driller, .dos, .full⟩
      ⟨[0x05, 0, 7, 0, 0, 1, 1, 2, 3, 4, 9, 8, 7,
        65, 66, 67, 68, 69, 70, 71, 72, 73, 74, 75, 76], 0⟩) (by decide)
    obtain ⟨hs, hg, _⟩ := C1_sky_and_ground_from_flags sampleEnv _ _ r 0x05 (by decide)
      (by decide) (by decide) hr
    exact ⟨r, hr, hs, hg⟩
  · obtain ⟨r, hr⟩ := ok_of_isSome (load8bitArea sampleEnv ⟨.dark, .amiga, .full⟩
      ⟨[0x53, 0, 7, 0, 0, 1, 1, 2, 3, 4, 9, 8, 7,
        65, 66, 67, 68, 69, 70, 71, 72, 73, 74, 75, 76], 0⟩) (by decide)
    obtain ⟨hs, hg, _⟩ := C1_sky_and_ground_from_flags sampleEnv _ _ r 0x53 (by decide)
      (by decide) (by decide) hr
    exact ⟨r, hr, hs, hg⟩

/-- Counterexample to C2 as stated: Eclipse on Amiga, flags byte 0x05 (zero high nibble);
the returned Area has ground colour 5, not 255. -/
theorem C2_counterexample :
    ∃ r : LoadedArea SampleObject,
      load8bitArea sampleEnv ⟨.eclipse, .amiga, .full⟩
        ⟨[0x05, 0, 1, 0, 0, 1, 1, 2, 3, 4, 0, 48, 49, 50, 51], 0⟩ = .ok r ∧
      (0x05 : Nat) / 16 = 0 ∧ r.area.groundColor = 5 ∧ r.area.groundColor ≠ 255 := by
  obtain ⟨r, hr, hg⟩ := ok_of_toOption (load8bitArea sampleEnv ⟨.eclipse, .amiga, .full⟩
    ⟨[0x05, 0, 1, 0, 0, 1, 1, 2, 3, 4, 0, 48, 49, 50, 51], 0⟩)
    (fun r => r.area.groundColor) 5 (by decide)
  exact ⟨r, hr, by decide, hg, by rw [hg]; decide⟩

/-- C2, amended: when the flags byte `f` has a zero high nibble, the Area returned by
`load8bitArea` has ground colour 255 in every variant without the colour swap; in the
variants with the swap (Eclipse on Amiga or Atari ST, Castle on Amiga) the ground colour is
the low nibble of the flags byte. -/
theorem C2_ground_of_zero_high_nibble {Obj : Type} (env : Env Obj) (v : Variant)
    (file : File) (r : LoadedArea Obj) (f : Fin 256)
    (hf : file.data[file.pos]? = some f) (hz : f.val / 16 = 0)
    (hr : load8bitArea env v file = .ok r) :
    (swapsSkyAndGround v = true ↔
      ((v.title = .eclipse ∨ v.title = .eclipse2) ∧
          (v.platform = .amiga ∨ v.platform = .atariST)) ∨
        (v.title = .castle ∧ v.platform = .amiga)) ∧
    (swapsSkyAndGround v = false → r.area.groundColor = 255) ∧
    (swapsSkyAndGround v = true → r.area.groundColor = f.val % 16) := by
  obtain ⟨h, f1, st, hh, _, _, hs, hg, _⟩ := load8bitArea_fields env v file r hr
  obtain ⟨flags, hfl, _, hs', hg'⟩ := header_colours env v file h f1 hh
  rw [hf] at hfl
  cases hfl
  rw [hg, hg']
  refine ⟨?_, ?_, ?_⟩
  · obtain ⟨title, platform, release⟩ := v
    cases title <;> cases platform <;>
      simp [swapsSkyAndGround, isEclipse, isCastle, isAmiga, isAtariST]
  · intro hsw; simp [hsw, hz]
  · intro hsw; simp [hsw]

/-- Witness of the amended C2: Castle on DOS with flags byte 0x05 returns ground colour
255. -/
theorem C2_ground_of_zero_high_nibble_witness :
    ∃ r : LoadedArea SampleObject,
      load8bitArea sampleEnv ⟨.castle, .dos, .full⟩
        ⟨[0x05, 0, 1, 0, 0, 1, 1, 2, 3, 4, 0, 5, 6, 7, 8], 0⟩ = .ok r ∧
      r.area.groundColor = 255 := by
  obtain ⟨r, hr⟩ := ok_of_isSome (load8bitArea sampleEnv ⟨.castle, .dos, .full⟩
    ⟨[0x05, 0, 1, 0, 0, 1, 1, 2, 3, 4, 0, 5, 6, 7, 8], 0⟩) (by decide)
  exact ⟨r, hr, (C2_ground_of_zero_high_nibble sampleEnv _ _ r 0x05 (by decide) (by decide)
    hr).2.1 (by decide)⟩

/-- C3: the loader at the failing input `drillerCollidingRecord`. The header gives object
count 3 and area number 7 and ends at byte 25; the three object records that follow decode,
the last one ending at byte 34, the end of the stream. The first turn of the loop calls the
decoder at byte 25 and stores the entrance with identifier 0. The second turn calls the
decoder at byte 28, which yields the entrance with identifier 0x8000, and stops in the call
of `error` of line 136. The loop and `load8bitArea` end in that error: no Area is returned
and the decoder is not called on the third record, two calls for a declared count of
three. -/
theorem C3_decoder_calls_stop_at_entrance_collision :
    (load8bitAreaHeader sampleEnv ⟨.driller, .dos, .full⟩
      ⟨drillerCollidingRecord, 0⟩).toOption.map
        (fun p => (p.1.numberOfObjects, p.1.areaNumber, p.1.scale, p.2)) =
      some (3, 7, 1, ⟨drillerCollidingRecord, 25⟩) ∧
    drillerCollidingRecord.length = 34 ∧
    decodeObjects sampleEnv 1 3 ⟨drillerCollidingRecord, 25⟩ =
      .ok ([⟨0, 0, [1]⟩, ⟨0, 32768, [1]⟩, ⟨1, 9, [1]⟩], ⟨drillerCollidingRecord, 34⟩) ∧
    loopBody sampleEnv 1
      ⟨⟨drillerCollidingRecord, 25⟩, ObjectMap.empty, ObjectMap.empty, 0, []⟩ =
      .ok ⟨⟨drillerCollidingRecord, 28⟩, ObjectMap.empty,
        ObjectMap.empty.assign 0 ⟨0, 0, [1]⟩, 1, []⟩ ∧
    sampleEnv.load8bitObject ⟨drillerCollidingRecord, 28⟩ =
      .ok (some ⟨0, 32768, []⟩, ⟨drillerCollidingRecord, 31⟩) ∧
    loopBody sampleEnv 1
      ⟨⟨drillerCollidingRecord, 28⟩, ObjectMap.empty,
        ObjectMap.empty.assign 0 ⟨0, 0, [1]⟩, 1, []⟩ =
      .error (.replacingObject 32768 0) ∧
    objectLoop sampleEnv 1 7 3
      ⟨⟨drillerCollidingRecord, 25⟩, ObjectMap.empty, ObjectMap.empty, 0, []⟩ =
      .error (.replacingObject 32768 0) ∧
    load8bitArea sampleEnv ⟨.driller, .dos, .full⟩ ⟨drillerCollidingRecord, 0⟩ =
      .error (.replacingObject 32768 0) := by
  refine ⟨by decide, by decide, rfl, rfl, rfl, rfl, rfl, rfl⟩

/-- C4: the loader at the failing input `eclipseCollidingRecord`. The header gives object
count 2 and area number 1 and ends at byte 15; both object records decode, to entrances whose
identifiers 5 and 0x8005 have the same key 5. The first turn of the loop stores the first
entrance under key 5. The second turn stops in the call of `error` of line 136, before the
store of line 138, and `load8bitArea` ends in that error: no Area is returned. -/
theorem C4_entrance_collision_stops_load :
    (load8bitAreaHeader sampleEnv ⟨.eclipse, .dos, .full⟩
      ⟨eclipseCollidingRecord, 0⟩).toOption.map
        (fun p => (p.1.numberOfObjects, p.1.areaNumber, p.1.scale, p.2)) =
      some (2, 1, 1, ⟨eclipseCollidingRecord, 15⟩) ∧
    eclipseCollidingRecord.length = 21 ∧
    decodeObjects sampleEnv 1 2 ⟨eclipseCollidingRecord, 15⟩ =
      .ok ([⟨0, 5, [1]⟩, ⟨0, 32773, [1]⟩], ⟨eclipseCollidingRecord, 21⟩) ∧
    sampleEnv.getType ⟨0, 5, [1]⟩ = sampleEnv.kEntranceType ∧
    sampleEnv.getType ⟨0, 32773, [1]⟩ = sampleEnv.kEntranceType ∧
    entranceKeys sampleEnv [⟨0, 5, [1]⟩, ⟨0, 32773, [1]⟩] = [5, 5] ∧
    loopBody sampleEnv 1
      ⟨⟨eclipseCollidingRecord, 15⟩, ObjectMap.empty, ObjectMap.empty, 0, []⟩ =
      .ok ⟨⟨eclipseCollidingRecord, 18⟩, ObjectMap.empty,
        ObjectMap.empty.assign 5 ⟨0, 5, [1]⟩, 1, []⟩ ∧
    loopBody sampleEnv 1
      ⟨⟨eclipseCollidingRecord, 18⟩, ObjectMap.empty,
        ObjectMap.empty.assign 5 ⟨0, 5, [1]⟩, 1, []⟩ =
      .error (.replacingObject 32773 5) ∧
    load8bitArea sampleEnv ⟨.eclipse, .dos, .full⟩ ⟨eclipseCollidingRecord, 0⟩ =
      .error (.replacingObject 32773 5) := by
  refine ⟨by decide, by decide, rfl, by decide, by decide, by decide, rfl, rfl, rfl⟩

/-- C5: in every Area returned by `load8bitArea`, each entry of the entrances collection is
an object of type entrance stored under `ID & 0x7FFF` (a key below 32768), each entry of the
objects collection is an object of another type stored under its unmasked ID, and no object
is an entry of both collections. -/
theorem C5_collections_by_type {Obj : Type} (env : Env Obj) (v : Variant) (file : File)
    (r : LoadedArea Obj) (hr : load8bitArea env v file = .ok r) :
    (∀ k o, (k, o) ∈ r.area.entrancesByID.entries →
      env.getType o = env.kEntranceType ∧ k = (env.getObjectID o).val &&& 0x7fff ∧
        k < 32768) ∧
    (∀ k o, (k, o) ∈ r.area.objectsByID.entries →
      env.getType o ≠ env.kEntranceType ∧ k = (env.getObjectID o).val) ∧
    (∀ k k' o, (k, o) ∈ r.area.entrancesByID.entries →
      (k', o) ∉ r.area.objectsByID.entries) := by
  obtain ⟨objs, he, ho⟩ := load8bitArea_collections env v file r hr
  have hE : ∀ k o, (k, o) ∈ r.area.entrancesByID.entries →
      env.getType o = env.kEntranceType ∧ k = entranceKey env o := by
    intro k o hm
    rw [he] at hm
    rcases assignAll_mem _ _ objs _ _ hm with h0 | ⟨_, h2, h3⟩
    · simp [ObjectMap.empty] at h0
    · exact ⟨h2, h3⟩
  have hO : ∀ k o, (k, o) ∈ r.area.objectsByID.entries →
      env.getType o ≠ env.kEntranceType ∧ k = (env.getObjectID o).val := by
    intro k o hm
    rw [ho] at hm
    rcases assignAll_mem _ _ objs _ _ hm with h0 | ⟨_, h2, h3⟩
    · simp [ObjectMap.empty] at h0
    · exact ⟨h2, h3⟩
  refine ⟨?_, hO, ?_⟩
  · intro k o hm
    obtain ⟨h1, h2⟩ := hE k o hm
    refine ⟨h1, h2, ?_⟩
    rw [h2]
    exact entranceKey_lt env o
  · intro k k' o hm hm'
    exact (hO k' o hm').1 (hE k o hm).1

/-- Witness of C5: Driller on DOS, area number 7, an entrance with identifier 0x8001 and a
non-entrance object with identifier 0x8002: the entrance is stored under 1, the other object
under 0x8002. -/
theorem C5_collections_by_type_witness :
    ∃ r : LoadedArea SampleObject,
      load8bitArea sampleEnv ⟨.driller, .dos, .full⟩
        ⟨[0x53, 2, 7, 0, 0, 1, 1, 2, 3, 4, 9, 8, 7,
          65, 66, 67, 68, 69, 70, 71, 72, 73, 74, 75, 76, 0, 1, 128, 1, 2, 128], 0⟩ = .ok r ∧
      r.area.entrancesByID.entries = [(1, ⟨0, 0x8001, [1]⟩)] ∧
      r.area.objectsByID.entries = [(0x8002, ⟨1, 0x8002, [1]⟩)] ∧
      (∀ k o, (k, o) ∈ r.area.entrancesByID.entries →
        sampleEnv.getType o = sampleEnv.kEntranceType ∧
          k = (sampleEnv.getObjectID o).val &&& 0x7fff ∧ k < 32768) := by
  obtain ⟨r, hr, hre⟩ := ok_of_toOption (load8bitArea sampleEnv ⟨.driller, .dos, .full⟩
    ⟨[0x53, 2, 7, 0, 0, 1, 1, 2, 3, 4, 9, 8, 7,
      65, 66, 67, 68, 69, 70, 71, 72, 73, 74, 75, 76, 0, 1, 128, 1, 2, 128], 0⟩)
    (fun r => (r.area.entrancesByID.entries, r.area.objectsByID.entries))
    ([(1, ⟨0, 0x8001, [1]⟩)], [(0x8002, ⟨1, 0x8002, [1]⟩)]) (by decide)
  simp only [Prod.mk.injEq] at hre
  exact ⟨r, hr, hre.1, hre.2, (C5_collections_by_type sampleEnv _ _ r hr).1⟩

/-- C6: the colour stage of `load8bitArea` is the attribute-byte branch when the title is
Castle and the platform is Spectrum, CPC or C64, and the four-field branch otherwise; the
choice is a function of title and platform. The attribute-byte branch consumes exactly one
byte; the four-field branch consumes exactly four bytes and sets background, under-fire
background, paper and ink to them in that order, which is what the returned Area holds. -/
theorem C6_colour_branch (v : Variant) :
    (usesAttributeByte v = true ↔
      v.title = .castle ∧
        (v.platform = .spectrum ∨ v.platform = .cpc ∨ v.platform = .c64)) ∧
    (∀ sky file, readColours v sky file =
      if usesAttributeByte v = true then readAttributeColours v file
      else readFourColours sky file) ∧
    (∀ file c f1, readAttributeColours v file = .ok (c, f1) → f1 = file.skip 1) ∧
    (∀ file (b : Fin 256), file.data[file.pos]? = some b →
      ∃ c, readAttributeColours v file = .ok (c, file.skip 1)) ∧
    (∀ sky file c f1, readFourColours sky file = .ok (c, f1) → f1 = file.skip 4) ∧
    (∀ sky file (b0 b1 b2 b3 : Fin 256), file.data[file.pos]? = some b0 →
      file.data[file.pos + 1]? = some b1 → file.data[file.pos + 2]? = some b2 →
      file.data[file.pos + 3]? = some b3 →
      readFourColours sky file = .ok (⟨sky, b0.val, b1.val, b2.val, b3.val⟩, file.skip 4)) ∧
    (∀ {Obj : Type} (env : Env Obj) (file : File) (r : LoadedArea Obj)
      (b0 b1 b2 b3 : Fin 256), usesAttributeByte v = false →
      load8bitArea env v file = .ok r →
      file.data[file.pos + 6]? = some b0 → file.data[file.pos + 7]? = some b1 →
      file.data[file.pos + 8]? = some b2 → file.data[file.pos + 9]? = some b3 →
      r.area.usualBackgroundColor = b0.val ∧ r.area.underFireBackgroundColor = b1.val ∧
        r.area.paperColor = b2.val ∧ r.area.inkColor = b3.val) := by
  have hsel : ∀ sky file, readColours v sky file =
      if usesAttributeByte v = true then readAttributeColours v file
      else readFourColours sky file := by
    intro sky file
    unfold readColours usesAttributeByte
    cases isCastle v && (isSpectrum v || isCPC v || isC64 v) <;> rfl
  have hattr : ∀ file c f1, readAttributeColours v file = .ok (c, f1) ↔
      ∃ a : Fin 256, file.data[file.pos]? = some a ∧
        c = ⟨0, 0, 0,
          (if isSpectrum v then a.val >>> 4 else if isCPC v then a.val else 0),
          (if isSpectrum v then a.val &&& 0xf else if isCPC v then 0xb else 0)⟩ ∧
        f1 = file.skip 1 := by
    intro file c f1
    simp only [readAttributeColours, bind_ok_iff, readField8_ok_iff, pure_eq_ok]
    constructor
    · rintro ⟨⟨x, g⟩, ⟨a, ha, e⟩, hr⟩
      simp only [Prod.mk.injEq] at e
      obtain ⟨rfl, rfl⟩ := e
      refine ⟨a, ha, ?_⟩
      simp only [Except.ok.injEq, Prod.mk.injEq] at hr
      obtain ⟨rfl, rfl⟩ := hr
      refine ⟨?_, rfl⟩
      split <;> [skip; split] <;> simp
    · rintro ⟨a, ha, rfl, rfl⟩
      refine ⟨(a.val, file.skip 1), ⟨a, ha, rfl⟩, ?_⟩
      split <;> [skip; split] <;> simp
  have hfour : ∀ sky file c f1, readFourColours sky file = .ok (c, f1) ↔
      ∃ b0 b1 b2 b3 : Fin 256, file.data[file.pos]? = some b0 ∧
        file.data[file.pos + 1]? = some b1 ∧ file.data[file.pos + 2]? = some b2 ∧
        file.data[file.pos + 3]? = some b3 ∧
        c = ⟨sky, b0.val, b1.val, b2.val, b3.val⟩ ∧ f1 = file.skip 4 := by
    intro sky file c f1
    have := readColours_four_iff ⟨.driller, .dos, .full⟩ sky file c f1 (by decide)
    rw [← this]
    simp [readColours, isCastle]
  refine ⟨?_, hsel, ?_, ?_, ?_, ?_, ?_⟩
  · obtain ⟨title, platform, release⟩ := v
    cases title <;> cases platform <;>
      simp [usesAttributeByte, isCastle, isSpectrum, isCPC, isC64]
  · intro file c f1 h
    obtain ⟨_, _, _, hf⟩ := (hattr file c f1).1 h
    exact hf
  · intro file b hb
    exact ⟨_, (hattr file _ _).2 ⟨b, hb, rfl, rfl⟩⟩
  · intro sky file c f1 h
    obtain ⟨_, _, _, _, _, _, _, _, _, hf⟩ := (hfour sky file c f1).1 h
    exact hf
  · intro sky file b0 b1 b2 b3 h0 h1 h2 h3
    exact (hfour sky file _ _).2 ⟨b0, b1, b2, b3, h0, h1, h2, h3, rfl, rfl⟩
  · intro Obj env file r b0 b1 b2 b3 hv hr h6 h7 h8 h9
    obtain ⟨h, f1, st, hh, _, _, _, _, e1, e2, e3, e4, _⟩ := load8bitArea_fields env v file r hr
    obtain ⟨c, f7, t, hc, _, _, e1', e2', e3', e4', _⟩ := header_split env v file h f1 hh
    obtain ⟨a0, a1, a2, a3, g0, g1, g2, g3, rfl, _⟩ := (readColours_four_iff v _ _ c f7 hv).1 hc
    simp only [File.skip_pos, File.skip_data, Nat.add_assoc, Nat.reduceAdd] at g0 g1 g2 g3
    rw [h6] at g0; rw [h7] at g1; rw [h8] at g2; rw [h9] at g3
    cases g0; cases g1; cases g2; cases g3
    rw [e1, e2, e3, e4, e1', e2', e3', e4']
    exact ⟨rfl, rfl, rfl, rfl⟩

/-- Witness of C6: Driller on DOS reads the four colour bytes 1, 2, 3, 4 (bytes 6 to 9 of the
record) into background, under-fire background, paper and ink. -/
theorem C6_colour_branch_witness :
    ∃ r : LoadedArea SampleObject,
      load8bitArea sampleEnv ⟨.driller, .dos, .full⟩
        ⟨[0x53, 0, 7, 0, 0, 1, 1, 2, 3, 4, 9, 8, 7,
          65, 66, 67, 68, 69, 70, 71, 72, 73, 74, 75, 76], 0⟩ = .ok r ∧
      r.area.usualBackgroundColor = 1 ∧ r.area.underFireBackgroundColor = 2 ∧
        r.area.paperColor = 3 ∧ r.area.inkColor = 4 := by
  obtain ⟨r, hr⟩ := ok_of_isSome (load8bitArea sampleEnv ⟨.driller, .dos, .full⟩
    ⟨[0x53, 0, 7, 0, 0, 1, 1, 2, 3, 4, 9, 8, 7,
      65, 66, 67, 68, 69, 70, 71, 72, 73, 74, 75, 76], 0⟩) (by decide)
  exact ⟨r, hr, (C6_colour_branch ⟨.driller, .dos, .full⟩).2.2.2.2.2.2 sampleEnv _ r 1 2 3 4
    (by decide) hr (by decide) (by decide) (by decide) (by decide)⟩

/-- C7: in the attribute-byte branch, with attribute byte `a` (byte 6 of the record), the
returned Area has paper `a div 16` and ink `a mod 16` on Spectrum, paper `a` and ink 11 on
CPC, and on every platform of the branch sky colour 0, background 0 and under-fire
background 0, whatever the flags byte. -/
theorem C7_attribute_byte {Obj : Type} (env : Env Obj) (v : Variant) (file : File)
    (r : LoadedArea Obj) (a : Fin 256) (hv : usesAttributeByte v = true)
    (hr : load8bitArea env v file = .ok r) (ha : file.data[file.pos + 6]? = some a) :
    (isSpectrum v = true → r.area.paperColor = a.val / 16 ∧ r.area.inkColor = a.val % 16) ∧
    (isCPC v = true → r.area.paperColor = a.val ∧ r.area.inkColor = 11) ∧
    r.area.skyColor = 0 ∧ r.area.usualBackgroundColor = 0 ∧
    r.area.underFireBackgroundColor = 0 := by
  obtain ⟨h, f1, st, hh, _, _, es, _, e1, e2, e3, e4, _⟩ := load8bitArea_fields env v file r hr
  obtain ⟨c, f7, t, hc, _, _, e1', e2', e3', e4', _⟩ := header_split env v file h f1 hh
  obtain ⟨_, _, _, hs, _⟩ := header_colours env v file h f1 hh
  obtain ⟨a', ha', rfl, _⟩ := (readColours_attr_iff v _ _ c f7 hv).1 hc
  simp only [File.skip_pos, File.skip_data] at ha'
  rw [ha] at ha'
  cases ha'
  have q1 : a.val >>> 4 = a.val / 16 := Nat.shiftRight_eq_div_pow a.val 4
  have q2 : a.val &&& 15 = a.val % 16 := Nat.and_pow_two_sub_one_eq_mod a.val 4
  rw [es, e1, e2, e3, e4, e1', e2', e3', e4', hs]
  refine ⟨?_, ?_, by simp [hv], rfl, rfl⟩
  · intro hsp
    simp [hsp, q1, q2]
  · intro hcpc
    have hsp : isSpectrum v = false := by
      obtain ⟨title, platform, release⟩ := v
      cases platform <;> simp [isCPC, isSpectrum] at hcpc ⊢
    simp [hsp, hcpc]

/-- Witness of C7: Castle on Spectrum with flags byte 0x35 and attribute byte 0x12 returns
paper 1, ink 2 and sky colour 0. -/
theorem C7_attribute_byte_witness :
    ∃ r : LoadedArea SampleObject,
      load8bitArea sampleEnv ⟨.castle, .spectrum, .full⟩
        ⟨[0x35, 0, 255, 0, 0, 3, 0x12, 200], 0⟩ = .ok r ∧
      r.area.paperColor = 0x12 / 16 ∧ r.area.inkColor = 0x12 % 16 ∧ r.area.skyColor = 0 := by
  obtain ⟨r, hr⟩ := ok_of_isSome (load8bitArea sampleEnv ⟨.castle, .spectrum, .full⟩
    ⟨[0x35, 0, 255, 0, 0, 3, 0x12, 200], 0⟩) (by decide)
  have hT := C7_attribute_byte sampleEnv _ _ r 0x12 (by decide) hr (by decide)
  exact ⟨r, hr, (hT.1 (by decide)).1, (hT.1 (by decide)).2, hT.2.2.1⟩

/-- Counterexample to C8 as stated: Eclipse on DOS with index byte 2 (table entry "C") and
the bytes '0' '1' '2' '3'. The name is "C-0 123": a space follows the first of the four
characters, so the name is not the entry, "-" and the four characters, and its length is the
entry length plus 6. -/
theorem C8_counterexample :
    ∃ r : LoadedArea SampleObject,
      load8bitArea sampleEnv ⟨.eclipse, .dos, .full⟩
        ⟨[0x05, 0, 1, 0, 0, 1, 1, 2, 3, 4, 2, 48, 49, 50, 51], 0⟩ = .ok r ∧
      sampleEnv.eclipseRoomName[2]? = some [67] ∧
      r.area.name = [67, 45, 48, 32, 49, 50, 51] ∧
      r.area.name ≠ [67] ++ [45] ++ [48, 49, 50, 51] ∧
      r.area.name.length ≠ [67].length + 5 := by
  obtain ⟨r, hr, hn⟩ := ok_of_toOption (load8bitArea sampleEnv ⟨.eclipse, .dos, .full⟩
    ⟨[0x05, 0, 1, 0, 0, 1, 1, 2, 3, 4, 2, 48, 49, 50, 51], 0⟩)
    (fun r => r.area.name) [67, 45, 48, 32, 49, 50, 51] (by decide)
  exact ⟨r, hr, by decide, hn, by rw [hn]; decide, by rw [hn]; decide⟩

/-- C8, amended: for the Eclipse title, with index byte `idx` and the four following bytes
`c1 c2 c3 c4` (bytes 10 to 14 of the record), the area name is the room-name table entry at
position `idx` (position 8 when `idx ≥ 8`), followed by "-" (45), by `c1`, by a space (32)
and by `c2 c3 c4`; its length is the entry length plus 6. -/
theorem C8_eclipse_name {Obj : Type} (env : Env Obj) (v : Variant) (file : File)
    (r : LoadedArea Obj) (idx c1 c2 c3 c4 : Fin 256) (hv : isEclipse v = true)
    (hr : load8bitArea env v file = .ok r)
    (h10 : file.data[file.pos + 10]? = some idx) (h11 : file.data[file.pos + 11]? = some c1)
    (h12 : file.data[file.pos + 12]? = some c2) (h13 : file.data[file.pos + 13]? = some c3)
    (h14 : file.data[file.pos + 14]? = some c4) :
    ∃ entry : CString,
      (if isEclipse2 v = true then env.eclipse2RoomName else env.eclipseRoomName)[
        if idx.val < 8 then idx.val else 8]? = some entry ∧
      r.area.name = entry ++ [45] ++ [c1.val] ++ [32] ++ [c2.val, c3.val, c4.val] ∧
      r.area.name.length = entry.length + 6 := by
  obtain ⟨h, f1, st, hh, _, _, _, _, _, _, _, _, _, _, _, en, _⟩ :=
    load8bitArea_fields env v file r hr
  obtain ⟨c, f7, t, _, ht, hf7, _, _, _, _, en', _⟩ := header_split env v file h f1 hh
  rw [eclipse_not_attribute v hv] at hf7
  simp only [Bool.false_eq_true, if_false] at hf7
  subst hf7
  obtain ⟨idx', c1', g0, g1, _, entry, hl, rfl, _⟩ :=
    (readTitleFields_eclipse_iff env v _ _ _ _ t f1 hv).1 ht
  simp only [File.skip_pos, File.skip_data, Nat.add_assoc, Nat.reduceAdd] at g0 g1
  rw [h10] at g0; rw [h11] at g1
  cases g0; cases g1
  have hb : (file.skip 10).bytesAt 2 3 = [c2.val, c3.val, c4.val] :=
    File.bytesAt_three (file.skip 10) 2 c2 c3 c4
      (by simpa [Nat.add_assoc] using h12) (by simpa [Nat.add_assoc] using h13)
      (by simpa [Nat.add_assoc] using h14)
  refine ⟨entry, (lookup_ok_iff _ _ _).1 hl, ?_, ?_⟩
  · rw [en, en', hb]; rfl
  · rw [en, en', hb]; simp [strDash, strSpace]

/-- Witness of the amended C8: Eclipse 2 on Atari ST with index byte 200 uses entry 8 of the
alternate table ("i") and the name is "i-0 123". -/
theorem C8_eclipse_name_witness :
    ∃ r : LoadedArea SampleObject,
      load8bitArea sampleEnv ⟨.eclipse2, .atariST, .full⟩
        ⟨[0x05, 0, 1, 0, 0, 1, 1, 2, 3, 4, 200, 48, 49, 50, 51], 0⟩ = .ok r ∧
      r.area.name = [105, 45, 48, 32, 49, 50, 51] := by
  obtain ⟨r, hr⟩ := ok_of_isSome (load8bitArea sampleEnv ⟨.eclipse2, .atariST, .full⟩
    ⟨[0x05, 0, 1, 0, 0, 1, 1, 2, 3, 4, 200, 48, 49, 50, 51], 0⟩) (by decide)
  obtain ⟨entry, he, hn, _⟩ := C8_eclipse_name sampleEnv _ _ r 200 48 49 50 51 (by decide) hr
    (by decide) (by decide) (by decide) (by decide) (by decide)
  have he' : entry = [105] := by
    have : (some [105] : Option CString) = some entry := by
      rw [← he]; decide
    exact (Option.some.inj this).symm
  subst he'
  exact ⟨r, hr, hn⟩

/-- C9: for Driller the gas-pocket x, y and radius are the three bytes after the colour
fields (bytes 10, 11, 12 of the record), in that order, and the name is the next 12 bytes;
for Dark the gas-pocket fields stay 0 and the name is the 15 bytes after the colour fields,
in stream order. For both titles the title stage consumes exactly 15 bytes. -/
theorem C9_driller_dark_fields {Obj : Type} (env : Env Obj) (v : Variant) (file : File)
    (r : LoadedArea Obj) (hr : load8bitArea env v file = .ok r) :
    (isDriller v = true → ∀ x y rad : Fin 256, file.data[file.pos + 10]? = some x →
      file.data[file.pos + 11]? = some y → file.data[file.pos + 12]? = some rad →
      r.area.gasPocketX = x.val ∧ r.area.gasPocketY = y.val ∧
        r.area.gasPocketRadius = rad.val ∧ r.area.name = file.bytesAt 13 12 ∧
        r.area.name.length = 12) ∧
    (isDark v = true →
      r.area.gasPocketX = 0 ∧ r.area.gasPocketY = 0 ∧ r.area.gasPocketRadius = 0 ∧
        r.area.name = file.bytesAt 10 15 ∧ r.area.name.length = 15) ∧
    (isDriller v = true ∨ isDark v = true →
      ∀ areaNumber sky gr f7 t f1,
        readTitleFields env v areaNumber sky gr f7 = .ok (t, f1) → f1 = f7.skip 15) := by
  obtain ⟨h, f1, st, hh, _, _, _, _, _, _, _, _, gx, gy, gr, en, _⟩ :=
    load8bitArea_fields env v file r hr
  obtain ⟨c, f7, t, _, ht, hf7, _, _, _, _, en', gx', gy', gr', _⟩ :=
    header_split env v file h f1 hh
  refine ⟨?_, ?_, ?_⟩
  · intro hv x y rad h10 h11 h12
    rw [driller_not_attribute v hv] at hf7
    simp only [Bool.false_eq_true, if_false] at hf7
    subst hf7
    obtain ⟨x', y', r', g0, g1, g2, hl, rfl, _⟩ :=
      (readTitleFields_driller_iff env v _ _ _ _ t f1 hv).1 ht
    simp only [File.skip_pos, File.skip_data, Nat.add_assoc, Nat.reduceAdd] at g0 g1 g2
    rw [h10] at g0; rw [h11] at g1; rw [h12] at g2
    cases g0; cases g1; cases g2
    rw [gx, gy, gr, en, gx', gy', gr', en']
    simp only [File.bytesAt_skip, Nat.reduceAdd] at hl
    refine ⟨rfl, rfl, rfl, ?_, ?_⟩
    · simp only [File.bytesAt_skip, Nat.reduceAdd]
    · simp only [File.bytesAt_skip, Nat.reduceAdd]
      exact hl
  · intro hv
    rw [dark_not_attribute v hv] at hf7
    simp only [Bool.false_eq_true, if_false] at hf7
    subst hf7
    obtain ⟨hl, rfl, _⟩ := (readTitleFields_dark_iff env v _ _ _ _ t f1 hv).1 ht
    rw [gx, gy, gr, en, gx', gy', gr', en']
    simp only [File.bytesAt_skip, Nat.add_zero] at hl
    refine ⟨rfl, rfl, rfl, ?_, ?_⟩
    · simp only [File.bytesAt_skip, Nat.add_zero]
    · simp only [File.bytesAt_skip, Nat.add_zero]
      exact hl
  · rintro (hv | hv) areaNumber sky gr f7 t f1 h
    · obtain ⟨_, _, _, _, _, _, _, _, hf⟩ :=
        (readTitleFields_driller_iff env v areaNumber sky gr f7 t f1 hv).1 h
      exact hf
    · obtain ⟨_, _, hf⟩ := (readTitleFields_dark_iff env v areaNumber sky gr f7 t f1 hv).1 h
      exact hf

/-- Witness of C9: Driller on DOS with the bytes 9, 8, 7 and "ABCDEFGHIJKL" after the colour
fields. -/
theorem C9_driller_dark_fields_witness :
    ∃ r : LoadedArea SampleObject,
      load8bitArea sampleEnv ⟨.driller, .dos, .full⟩
        ⟨[0x53, 0, 7, 0, 0, 1, 1, 2, 3, 4, 9, 8, 7,
          65, 66, 67, 68, 69, 70, 71, 72, 73, 74, 75, 76], 0⟩ = .ok r ∧
      r.area.gasPocketX = 9 ∧ r.area.gasPocketY = 8 ∧ r.area.gasPocketRadius = 7 ∧
      r.area.name = [65, 66, 67, 68, 69, 70, 71, 72, 73, 74, 75, 76] := by
  obtain ⟨r, hr⟩ := ok_of_isSome (load8bitArea sampleEnv ⟨.driller, .dos, .full⟩
    ⟨[0x53, 0, 7, 0, 0, 1, 1, 2, 3, 4, 9, 8, 7,
      65, 66, 67, 68, 69, 70, 71, 72, 73, 74, 75, 76], 0⟩) (by decide)
  obtain ⟨hx, hy, hrad, hn, _⟩ := (C9_driller_dark_fields sampleEnv _ _ r hr).1 (by decide)
    9 8 7 (by decide) (by decide) (by decide)
  exact ⟨r, hr, hx, hy, hrad, by rw [hn]; decide⟩

/-- C10: for the Castle title, with index byte `idx` (the byte after the colour fields) and
area-number byte `a`, the name of the returned Area is `messages[idx + 51]` on Amiga; on
Spectrum or CPC it is "GLOBAL" when `a = 255`, and then the title stage does not depend on
the tables at all, and `messages[idx + 16]` otherwise; on every other platform it is
`messages[idx + 41]`. The index is a sum of natural numbers, without wrap-around. -/
theorem C10_castle_name {Obj : Type} (env : Env Obj) (v : Variant) (file : File)
    (r : LoadedArea Obj) (idx a : Fin 256) (hv : isCastle v = true)
    (hr : load8bitArea env v file = .ok r)
    (ha : file.data[file.pos + 2]? = some a)
    (hidx : file.data[file.pos + (if usesAttributeByte v = true then 7 else 10)]? =
      some idx) :
    (isAmiga v = true → env.messagesList[idx.val + 51]? = some r.area.name) ∧
    (isSpectrum v = true ∨ isCPC v = true → a.val = 255 → r.area.name = strGLOBAL) ∧
    (isSpectrum v = true ∨ isCPC v = true → a.val ≠ 255 →
      env.messagesList[idx.val + 16]? = some r.area.name) ∧
    (isAmiga v = false → isSpectrum v = false → isCPC v = false →
      env.messagesList[idx.val + 41]? = some r.area.name) ∧
    (isSpectrum v = true ∨ isCPC v = true → ∀ (env' : Env Obj) sky gr f,
      readTitleFields env' v 255 sky gr f = readTitleFields env v 255 sky gr f) := by
  obtain ⟨h, f1, st, hh, _, _, _, _, _, _, _, _, _, _, _, en, _⟩ :=
    load8bitArea_fields env v file r hr
  obtain ⟨c, f7, t, _, ht, hf7, _, _, _, _, en', _⟩ := header_split env v file h f1 hh
  obtain ⟨_, _, _, _, ha', halt, _, _⟩ := header_bytes env v file h f1 hh
  rw [ha] at ha'
  have ea : h.areaNumber = a.val := by
    have := congrArg Fin.val (Option.some.inj ha')
    simpa [Fin.ofNat, Nat.mod_eq_of_lt halt] using this.symm
  subst hf7
  obtain ⟨idx', g0, name, hname, hcase⟩ :=
    (readTitleFields_castle_iff env v _ _ _ _ t f1 hv).1 ht
  simp only [File.skip_pos, File.skip_data] at g0
  rw [hidx] at g0
  cases g0
  have hnm : t.name = name := by
    rcases hcase with ⟨_, _, _, _, _, _, _, _, _, rfl, _⟩ | ⟨_, _, _, _, _, _, _, _, _, rfl, _⟩ |
      ⟨_, _, rfl, _⟩ <;> rfl
  rw [en, en', hnm]
  refine ⟨?_, ?_, ?_, ?_, ?_⟩
  · intro hA
    simp only [hA, if_true, lookup_ok_iff] at hname
    exact hname
  · intro hS h255
    obtain ⟨hA, _, hS'⟩ := spectrum_cpc_exclusive v hS
    rw [ea] at hname
    simp only [hA, hS', h255, Bool.false_eq_true, if_false, if_true, Except.ok.injEq] at hname
    exact hname.symm
  · intro hS hne
    obtain ⟨hA, _, hS'⟩ := spectrum_cpc_exclusive v hS
    rw [ea] at hname
    simp only [hA, hS', hne, Bool.false_eq_true, if_false, if_true, lookup_ok_iff] at hname
    exact hname
  · intro hA hS hC
    simp only [hA, hS, hC, Bool.or_self, Bool.false_eq_true, if_false, lookup_ok_iff] at hname
    exact hname
  · intro hS env' sky gr f
    obtain ⟨hA, hD, hS'⟩ := spectrum_cpc_exclusive v hS
    obtain ⟨hE, hDr, hK⟩ := (title_exclusive v).2.2.1 hv
    simp only [readTitleFields, hE, hDr, hK, hv, hA, hD, hS', Bool.or_self,
      Bool.false_eq_true, if_false, if_true]

/-- Witness of C10: Castle on Amiga with index byte 255 takes entry 306 of the message
table. -/
theorem C10_castle_name_witness :
    ∃ r : LoadedArea SampleObject,
      load8bitArea sampleEnv ⟨.castle, .amiga, .full⟩
        ⟨[0x35, 0, 255, 0, 0, 3, 1, 2, 3, 4, 255, 5, 6, 7, 8], 0⟩ = .ok r ∧
      sampleEnv.messagesList[306]? = some r.area.name ∧ r.area.name = [77, 50] := by
  obtain ⟨r, hr, hn⟩ := ok_of_toOption (load8bitArea sampleEnv ⟨.castle, .amiga, .full⟩
    ⟨[0x35, 0, 255, 0, 0, 3, 1, 2, 3, 4, 255, 5, 6, 7, 8], 0⟩)
    (fun r => r.area.name) [77, 50] (by decide)
  exact ⟨r, hr, (C10_castle_name sampleEnv _ _ r 255 255 (by decide) hr (by decide)
    (by decide)).1 (by decide), hn⟩

/-- C11: the colour swap happens exactly for Eclipse on Amiga or Atari ST and for Castle on
Amiga. With the swap the returned Area has as ground colour the sky colour held before,
which is the low nibble of the flags byte `f`, and sky colour 0; without it the title stage
hands the sky and ground colours of the earlier steps on unchanged, and the returned Area
holds them. -/
theorem C11_colour_swap {Obj : Type} (env : Env Obj) (v : Variant) (file : File)
    (r : LoadedArea Obj) (f : Fin 256) (hf : file.data[file.pos]? = some f)
    (hr : load8bitArea env v file = .ok r) :
    (swapsSkyAndGround v = true ↔
      ((v.title = .eclipse ∨ v.title = .eclipse2) ∧
          (v.platform = .amiga ∨ v.platform = .atariST)) ∨
        (v.title = .castle ∧ v.platform = .amiga)) ∧
    (swapsSkyAndGround v = true →
      r.area.groundColor = f.val % 16 ∧ r.area.skyColor = 0) ∧
    (swapsSkyAndGround v = false →
      r.area.skyColor = (if usesAttributeByte v = true then 0 else f.val % 16) ∧
      r.area.groundColor = (if f.val / 16 = 0 then 255 else f.val / 16)) ∧
    (∀ areaNumber sky gr file' t f1,
      readTitleFields env v areaNumber sky gr file' = .ok (t, f1) →
      (swapsSkyAndGround v = true → t.groundColor = sky ∧ t.skyColor = 0) ∧
      (swapsSkyAndGround v = false → t.skyColor = sky ∧ t.groundColor = gr)) := by
  obtain ⟨h, f1, st, hh, _, _, hs, hg, _⟩ := load8bitArea_fields env v file r hr
  obtain ⟨flags, hfl, _, hs', hg'⟩ := header_colours env v file h f1 hh
  rw [hf] at hfl
  cases hfl
  rw [hs, hg, hs', hg']
  refine ⟨?_, ?_, ?_, ?_⟩
  · obtain ⟨title, platform, release⟩ := v
    cases title <;> cases platform <;>
      simp [swapsSkyAndGround, isEclipse, isCastle, isAmiga, isAtariST]
  · intro hsw; simp [hsw]
  · intro hsw; simp [hsw]
  · intro areaNumber sky gr file' t f1 ht
    obtain ⟨h1, h2⟩ := readTitleFields_colours env v areaNumber sky gr file' t f1 ht
    rw [h1, h2]
    constructor
    · intro hsw; simp [hsw]
    · intro hsw; simp [hsw]

/-- Witness of C11: Castle on Amiga with flags byte 0x35 returns ground colour 5 and sky
colour 0. -/
theorem C11_colour_swap_witness :
    ∃ r : LoadedArea SampleObject,
      load8bitArea sampleEnv ⟨.castle, .amiga, .full⟩
        ⟨[0x35, 0, 255, 0, 0, 3, 1, 2, 3, 4, 255, 5, 6, 7, 8], 0⟩ = .ok r ∧
      r.area.groundColor = 0x35 % 16 ∧ r.area.skyColor = 0 := by
  obtain ⟨r, hr⟩ := ok_of_isSome (load8bitArea sampleEnv ⟨.castle, .amiga, .full⟩
    ⟨[0x35, 0, 255, 0, 0, 3, 1, 2, 3, 4, 255, 5, 6, 7, 8], 0⟩) (by decide)
  exact ⟨r, hr, (C11_colour_swap sampleEnv _ _ r 0x35 (by decide) hr).2.1 (by decide)⟩

/-- C12: the area count of the bootstrap is 87 when the variant is Castle on Amiga in a demo
release, whatever the first byte of the stream is, and the first byte in every other variant;
the override applies to that variant only, so with a first byte other than 87 the count is
87 exactly in that variant. The count byte is consumed in both cases (the
database size is made of the two bytes after it), and the count is the length of the offset
table and the number of seeks and of decoded areas. -/
theorem C12_area_count_override (v : Variant) (file : File) :
    ((isAmiga v && isCastle v && isDemo v) = true ↔
      v.title = .castle ∧ v.platform = .amiga ∧ v.release = .demo) ∧
    (∀ b f1 (n : Fin 256), load8bitBinaryHeader v file = .ok (b, f1) →
      file.data[file.pos]? = some n →
      b.numberOfAreas = (if (isAmiga v && isCastle v && isDemo v) = true then 87 else n.val) ∧
      (n.val ≠ 87 →
        (b.numberOfAreas = 87 ↔ (isAmiga v && isCastle v && isDemo v) = true)) ∧
      ∃ d0 d1 : Fin 256, file.data[file.pos + 1]? = some d0 ∧
        file.data[file.pos + 2]? = some d1 ∧ b.dbSize = d0.val + 256 * d1.val) ∧
    (∀ {Obj : Type} (env : Env Obj) (offset : Nat) (db : Database Obj) (n : Fin 256),
      load8bitBinary env v offset file = .ok db → file.data[file.pos]? = some n →
      db.numberOfAreas = (if (isAmiga v && isCastle v && isDemo v) = true then 87 else n.val) ∧
      db.table.length = db.numberOfAreas ∧ db.seeks.length = db.numberOfAreas ∧
      db.areas.length = db.numberOfAreas) := by
  have key : ∀ b f1 (n : Fin 256), load8bitBinaryHeader v file = .ok (b, f1) →
      file.data[file.pos]? = some n →
      b.numberOfAreas = (if (isAmiga v && isCastle v && isDemo v) = true then 87 else n.val) ∧
      (n.val ≠ 87 →
        (b.numberOfAreas = 87 ↔ (isAmiga v && isCastle v && isDemo v) = true)) ∧
      ∃ d0 d1 : Fin 256, file.data[file.pos + 1]? = some d0 ∧
        file.data[file.pos + 2]? = some d1 ∧ b.dbSize = d0.val + 256 * d1.val := by
    intro b f1 n hb hn
    obtain ⟨n', d0, d1, sa, se, hn', hd0, hd1, _, _, _, rfl, _⟩ :=
      (load8bitBinaryHeader_ok_iff v file b f1).1 hb
    rw [hn] at hn'
    cases hn'
    refine ⟨rfl, ?_, d0, d1, hd0, hd1, rfl⟩
    intro hne
    cases hc : (isAmiga v && isCastle v && isDemo v) <;> simp [hne]
  refine ⟨?_, key, ?_⟩
  · obtain ⟨title, platform, release⟩ := v
    cases title <;> cases platform <;> cases release <;> simp [isAmiga, isCastle, isDemo]
  · intro Obj env offset db n hdb hn
    obtain ⟨b, f1, tbl, f2, areas, seeks, f3, hb, ht, ha, rfl⟩ :=
      (load8bitBinary_ok_iff env v offset file db).1 hdb
    obtain ⟨hl, _⟩ := readOffsetTable_ok _ _ _ _ ht
    obtain ⟨hs, hal, _⟩ := loadAreas_ok env v offset tbl 0 f2 areas seeks f3 ha
    refine ⟨(key b f1 n hb hn).1, hl, ?_, ?_⟩
    · simp only [hs, List.length_map, hl]
    · simp only [hal, hl]

/-- Witness of C12: Castle on Amiga, demo release, first byte 2: the area count is 87. -/
theorem C12_area_count_override_witness :
    ∃ b f1, load8bitBinaryHeader ⟨.castle, .amiga, .demo⟩
        ⟨[2, 89, 0, 7, 7, 1, 3, 0x10, 0, 0x40, 0], 0⟩ = .ok (b, f1) ∧
      b.numberOfAreas = 87 := by
  obtain ⟨p, hp⟩ := ok_of_isSome (load8bitBinaryHeader ⟨.castle, .amiga, .demo⟩
    ⟨[2, 89, 0, 7, 7, 1, 3, 0x10, 0, 0x40, 0], 0⟩) (by decide)
  exact ⟨p.1, p.2, hp, ((C12_area_count_override ⟨.castle, .amiga, .demo⟩ _).2.1 p.1 p.2 2 hp
    (by decide)).1⟩

/-- C13: the bootstrap at the failing input `drillerCollidingDatabase`, with base 0. The
header gives area count 2 and ends at byte 5; the offset table read from there is
[0x10, 0x40] and ends at byte 9. The first seek, to 0x10, succeeds, and the call of
`load8bitArea` that follows it stops in the call of `error` of line 136 at the second
entrance of that area. The loop over the table and `load8bitBinary` end in that error: the
seek to 0x40 is not made, although the area record at 0x40 is whole and `load8bitArea` returns
an Area on it: one seek and one area decoder call for an area count of two. -/
theorem C13_seeks_stop_at_entrance_collision :
    load8bitBinaryHeader ⟨.driller, .dos, .full⟩ ⟨drillerCollidingDatabase, 0⟩ =
      .ok (⟨2, 89, 1, 0⟩, ⟨drillerCollidingDatabase, 5⟩) ∧
    drillerCollidingDatabase.length = 89 ∧
    readOffsetTable 2 ⟨drillerCollidingDatabase, 5⟩ =
      .ok ([0x10, 0x40], ⟨drillerCollidingDatabase, 9⟩) ∧
    seek ⟨drillerCollidingDatabase, 9⟩ (0 + 0x10) = .ok ⟨drillerCollidingDatabase, 0x10⟩ ∧
    load8bitArea sampleEnv ⟨.driller, .dos, .full⟩ ⟨drillerCollidingDatabase, 0x10⟩ =
      .error (.replacingObject 32773 5) ∧
    loadAreas sampleEnv ⟨.driller, .dos, .full⟩ 0 [0x10, 0x40] 0
      ⟨drillerCollidingDatabase, 9⟩ = .error (.replacingObject 32773 5) ∧
    (load8bitArea sampleEnv ⟨.driller, .dos, .full⟩
      ⟨drillerCollidingDatabase, 0x40⟩).toOption.map
        (fun r => (r.area.areaNumber, r.file)) =
      some (9, ⟨drillerCollidingDatabase, 89⟩) ∧
    load8bitBinary sampleEnv ⟨.driller, .dos, .full⟩ 0 ⟨drillerCollidingDatabase, 0⟩ =
      .error (.replacingObject 32773 5) := by
  refine ⟨rfl, by decide, rfl, rfl, rfl, rfl, by decide, rfl⟩

/-- C14: a field read that needs bytes beyond the end of the stream, and a seek to a position
outside the stream, fail with the structural error. `load8bitArea` returns no Area when the
record does not hold its `headerSize v` bytes, and with complete tables its result is then
the structural error; the bootstrap fails with the structural error when its header or its
offset table do not fit, and when the table entry about to be visited points outside the
stream. A bootstrap that returns has made every seek to a position at which a whole area
header lies inside the stream, so no result is built from bytes that are not there. -/
theorem C14_structural_failure {Obj : Type} (env : Env Obj) (v : Variant) (file : File) :
    (∀ (f : File) bits, 8 ≤ bits → f.data.length < f.pos + bits / 8 →
      readField f bits = .error .structural) ∧
    (∀ f : File, f.data.length < f.pos + 2 → readPtr f = .error .structural) ∧
    (∀ (f : File) position, f.data.length < position →
      seek f position = .error .structural) ∧
    (∀ r, load8bitArea env v file = .ok r → file.pos + headerSize v ≤ file.data.length) ∧
    (TablesComplete env → file.data.length < file.pos + headerSize v →
      load8bitArea env v file = .error .structural) ∧
    (∀ offset, file.data.length <
        file.pos + (if (isAmiga v || isAtariST v) = true then 7 else 5) →
      load8bitBinary env v offset file = .error .structural) ∧
    (∀ offset b f1, load8bitBinaryHeader v file = .ok (b, f1) →
      file.data.length < f1.pos + 2 * b.numberOfAreas →
      load8bitBinary env v offset file = .error .structural) ∧
    (∀ offset entry rest i (f : File), f.data.length < offset + entry →
      loadAreas env v offset (entry :: rest) i f = .error .structural) ∧
    (∀ offset b f1 entry rest f2, load8bitBinaryHeader v file = .ok (b, f1) →
      readOffsetTable b.numberOfAreas f1 = .ok (entry :: rest, f2) →
      file.data.length < offset + entry →
      load8bitBinary env v offset file = .error .structural) ∧
    ((∀ f o f', env.load8bitObject f = .ok (o, f') → f'.data = f.data) →
      ∀ offset db, load8bitBinary env v offset file = .ok db →
        ∀ p ∈ db.seeks, p + headerSize v ≤ file.data.length) := by
  refine ⟨readField_short, ?_, seek_short, ?_, ?_, ?_, ?_, ?_, ?_, ?_⟩
  · intro f hf
    exact readField_short f 16 (by decide) (by simpa using hf)
  · intro r hr
    obtain ⟨h, f1, st, hh, _⟩ := (load8bitArea_ok_iff env v file r).1 hr
    exact (header_size env v file h f1 hh).2
  · exact fun hT hs => load8bitArea_short env hT v file hs
  · intro offset hs
    cases hb : load8bitBinaryHeader v file with
    | error e =>
      rw [fos_load8bitBinaryHeader v file e hb] at hb
      simp [load8bitBinary, hb, bind, Except.bind]
    | ok p =>
      obtain ⟨b, f1⟩ := p
      obtain ⟨_, _, _, _, se, _, _, _, _, hse, _⟩ :=
        (load8bitBinaryHeader_ok_iff v file b f1).1 hb
      have := getElem?_lt _ _ _ hse
      split at hs <;> simp_all <;> omega
  · intro offset b f1 hb hs
    cases ht : readOffsetTable b.numberOfAreas f1 with
    | error e =>
      rw [fos_readOffsetTable _ _ e ht] at ht
      simp [load8bitBinary, hb, ht, bind, Except.bind]
    | ok q =>
      obtain ⟨tbl, f2⟩ := q
      obtain ⟨_, _, hfit, _⟩ := readOffsetTable_ok _ _ _ _ ht
      obtain ⟨_, _, _, _, _, _, _, _, _, _, _, _, hf1⟩ :=
        (load8bitBinaryHeader_ok_iff v file b f1).1 hb
      rw [hf1] at hs hfit
      simp only [File.skip_pos, File.skip_data] at hs hfit
      rcases hfit with h0 | hfit
      · rw [h0] at hs
        obtain ⟨_, _, _, _, se, _, _, _, _, hse, _⟩ :=
          (load8bitBinaryHeader_ok_iff v file b f1).1 hb
        have := getElem?_lt _ _ _ hse
        split at hs <;> simp_all <;> omega
      · omega
  · exact fun offset entry rest i f hs => loadAreas_out env v offset entry rest i f hs
  · intro offset b f1 entry rest f2 hb ht hs
    obtain ⟨_, hf2, _⟩ := readOffsetTable_ok _ _ _ _ ht
    obtain ⟨_, _, _, _, _, _, _, _, _, _, _, _, hf1⟩ :=
      (load8bitBinaryHeader_ok_iff v file b f1).1 hb
    have hd : f2.data = file.data := by rw [hf2, hf1]; rfl
    have := loadAreas_out env v offset entry rest 0 f2 (by rw [hd]; exact hs)
    simp [load8bitBinary, hb, ht, this, bind, Except.bind]
  · intro hdec offset db hdb
    obtain ⟨b, f1, tbl, f2, areas, seeks, f3, hb, ht, ha, rfl⟩ :=
      (load8bitBinary_ok_iff env v offset file db).1 hdb
    obtain ⟨_, hf2, _⟩ := readOffsetTable_ok _ _ _ _ ht
    obtain ⟨_, _, _, _, _, _, _, _, _, _, _, _, hf1⟩ :=
      (load8bitBinaryHeader_ok_iff v file b f1).1 hb
    have hd : f2.data = file.data := by rw [hf2, hf1]; rfl
    intro p hp
    have := loadAreas_within env hdec v offset tbl 0 f2 areas seeks f3 ha p hp
    rw [hd] at this
    exact this

/-- Witness of C14: Driller on DOS; an area record cut after 24 of its 25 header bytes fails
with the structural error. -/
theorem C14_structural_failure_witness :
    load8bitArea sampleEnv ⟨.driller, .dos, .full⟩
      ⟨[0x53, 0, 7, 0, 0, 1, 1, 2, 3, 4, 9, 8, 7,
        65, 66, 67, 68, 69, 70, 71, 72, 73, 74, 75], 0⟩ = .error .structural :=
  (C14_structural_failure sampleEnv ⟨.driller, .dos, .full⟩ _).2.2.2.2.1
    (by unfold TablesComplete; decide) (by decide)

/-- C15: for the Eclipse title the position used in the room-name table is `min idx 8`,
which is below 9, so with nine-entry tables the title stage never fails on a missing entry;
Eclipse 2 takes the entry at that position from the alternate table and the base game from
the base table, and neither result depends on the other table. -/
theorem C15_room_name_position {Obj : Type} (env : Env Obj) (v : Variant)
    (hv : isEclipse v = true) :
    (∀ idx : Fin 256, (if idx.val < 8 then idx.val else 8) = min idx.val 8 ∧
      min idx.val 8 < 9) ∧
    (∀ areaNumber sky gr file t f1 (idx : Fin 256),
      readTitleFields env v areaNumber sky gr file = .ok (t, f1) →
      file.data[file.pos]? = some idx →
      ∃ entry rest, t.name = entry ++ rest ∧
        (isEclipse2 v = true → env.eclipse2RoomName[min idx.val 8]? = some entry) ∧
        (isEclipse2 v = false → env.eclipseRoomName[min idx.val 8]? = some entry)) ∧
    (env.eclipseRoomName.length = 9 → env.eclipse2RoomName.length = 9 →
      ∀ areaNumber sky gr file i,
        readTitleFields env v areaNumber sky gr file ≠ .error (.outOfBounds i)) ∧
    (isEclipse2 v = false → ∀ (alt : List CString) areaNumber sky gr file,
      readTitleFields { env with eclipse2RoomName := alt } v areaNumber sky gr file =
        readTitleFields env v areaNumber sky gr file) ∧
    (isEclipse2 v = true → ∀ (base : List CString) areaNumber sky gr file,
      readTitleFields { env with eclipseRoomName := base } v areaNumber sky gr file =
        readTitleFields env v areaNumber sky gr file) := by
  have hmin : ∀ idx : Fin 256, (if idx.val < 8 then idx.val else 8) = min idx.val 8 ∧
      min idx.val 8 < 9 := by
    intro idx
    constructor
    · split <;> omega
    · omega
  refine ⟨hmin, ?_, ?_, ?_, ?_⟩
  · intro areaNumber sky gr file t f1 idx ht hidx
    obtain ⟨idx', c1, g0, _, _, entry, hl, rfl, _⟩ :=
      (readTitleFields_eclipse_iff env v areaNumber sky gr file t f1 hv).1 ht
    rw [hidx] at g0
    cases g0
    rw [lookup_ok_iff, (hmin idx).1] at hl
    refine ⟨entry, strDash ++ [c1.val] ++ strSpace ++ file.bytesAt 2 3, by simp, ?_, ?_⟩
    · intro h2; simpa [h2] using hl
    · intro h2; simpa [h2] using hl
  · intro h1 h2 areaNumber sky gr file i herr
    have := fos_readTitleFields_eclipse env v hv (by omega) (by omega) areaNumber sky gr file
      _ herr
    cases this
  · intro h2 alt areaNumber sky gr file
    simp only [readTitleFields, hv, h2, if_true, Bool.false_eq_true, if_false]
  · intro h2 base areaNumber sky gr file
    simp only [readTitleFields, hv, h2, if_true]

/-- Witness of C15: Eclipse on DOS with index byte 200 takes entry 8 of the base table
("I"). -/
theorem C15_room_name_position_witness :
    ∃ t f1, readTitleFields sampleEnv ⟨.eclipse, .dos, .full⟩ 1 5 255
        ⟨[200, 48, 49, 50, 51], 0⟩ = .ok (t, f1) ∧
      ∃ entry rest, t.name = entry ++ rest ∧
        sampleEnv.eclipseRoomName[min 200 8]? = some entry := by
  obtain ⟨p, hp⟩ := ok_of_isSome (readTitleFields sampleEnv ⟨.eclipse, .dos, .full⟩ 1 5 255
    ⟨[200, 48, 49, 50, 51], 0⟩) (by decide)
  obtain ⟨entry, rest, hn, _, hb⟩ := (C15_room_name_position sampleEnv
    ⟨.eclipse, .dos, .full⟩ (by decide)).2.1 1 5 255 _ p.1 p.2 200 hp (by decide)
  exact ⟨p.1, p.2, hp, entry, rest, hn, hb (by decide)⟩

/-- C16: the bootstrap reads, from the cursor at entry, the area count (1 byte), the
database size (2 bytes), on Amiga and Atari ST only an extra 2-byte field, then start area
and start entrance (1 byte each); the offset table starts 7 bytes in on Amiga and Atari ST
and 5 bytes in elsewhere, and start area and start entrance are the two bytes right before
it. -/
theorem C16_bootstrap_layout (v : Variant) (file : File) (b : BinaryHeader) (f1 : File)
    (h : load8bitBinaryHeader v file = .ok (b, f1)) :
    f1 = file.skip (if (isAmiga v || isAtariST v) = true then 7 else 5) ∧
    (∃ n d0 d1 sa se : Fin 256,
      file.data[file.pos]? = some n ∧ file.data[file.pos + 1]? = some d0 ∧
      file.data[file.pos + 2]? = some d1 ∧ b.dbSize = d0.val + 256 * d1.val ∧
      file.data[f1.pos - 2]? = some sa ∧ file.data[f1.pos - 1]? = some se ∧
      b.startArea = sa.val ∧ b.startEntrance = se.val ∧
      ((isAmiga v || isAtariST v) = true →
        f1.pos - 2 = file.pos + 5 ∧ f1.pos - 1 = file.pos + 6 ∧
        ∃ x0 x1 : Fin 256, file.data[file.pos + 3]? = some x0 ∧
          file.data[file.pos + 4]? = some x1) ∧
      ((isAmiga v || isAtariST v) = false →
        f1.pos - 2 = file.pos + 3 ∧ f1.pos - 1 = file.pos + 4)) ∧
    (∀ n tbl f2, readOffsetTable n f1 = .ok (tbl, f2) → ∀ i, i < n →
      ∃ b0 b1 : Fin 256,
        file.data[file.pos + (if (isAmiga v || isAtariST v) = true then 7 else 5) + 2 * i]? =
          some b0 ∧
        file.data[file.pos + (if (isAmiga v || isAtariST v) = true then 7 else 5) + 2 * i + 1]? =
          some b1 ∧
        tbl[i]? = some (b0.val + 256 * b1.val)) := by
  obtain ⟨n, d0, d1, sa, se, hn, hd0, hd1, hsa, hse, hx, rfl, rfl⟩ :=
    (load8bitBinaryHeader_ok_iff v file b f1).1 h
  refine ⟨rfl, ⟨n, d0, d1, sa, se, hn, hd0, hd1, rfl, ?_, ?_, rfl, rfl, ?_, ?_⟩, ?_⟩
  · rw [← hsa]; congr 1; simp only [File.skip_pos]; split <;> omega
  · rw [← hse]; congr 1; simp only [File.skip_pos]; split <;> omega
  · intro hA
    simp only [File.skip_pos, hA, if_true]
    exact ⟨by omega, by omega, hx hA⟩
  · intro hA
    simp only [File.skip_pos, hA, Bool.false_eq_true, if_false]
    exact ⟨by omega, by omega⟩
  · intro m tbl f2 ht i hi
    obtain ⟨_, _, _, hall⟩ := readOffsetTable_ok _ _ _ _ ht
    obtain ⟨b0, b1, h0, h1, hti⟩ := hall i hi
    exact ⟨b0, b1, by simpa using h0, by simpa using h1, hti⟩

/-- Witness of C16: Castle on Amiga; start area 1 and start entrance 3 are bytes 5 and 6 and
the table starts 7 bytes in. -/
theorem C16_bootstrap_layout_witness :
    ∃ b f1, load8bitBinaryHeader ⟨.castle, .amiga, .full⟩
        ⟨[2, 89, 0, 7, 7, 1, 3, 0x10, 0, 0x40, 0], 0⟩ = .ok (b, f1) ∧
      f1 = (⟨[2, 89, 0, 7, 7, 1, 3, 0x10, 0, 0x40, 0], 0⟩ : File).skip 7 := by
  obtain ⟨p, hp⟩ := ok_of_isSome (load8bitBinaryHeader ⟨.castle, .amiga, .full⟩
    ⟨[2, 89, 0, 7, 7, 1, 3, 0x10, 0, 0x40, 0], 0⟩) (by decide)
  exact ⟨p.1, p.2, hp, (C16_bootstrap_layout ⟨.castle, .amiga, .full⟩ _ p.1 p.2 hp).1⟩

/-- C17: for an area record with area number 192 the cursor is left `headerSize v` bytes
after the start of the record, a number that depends on the variant only: 15 for Eclipse, 25
for Driller and Dark, 8 for Castle on Spectrum, CPC or C64, 15 for Castle on DOS or Amiga and
11 for Castle elsewhere. The first six bytes are flags, object count, area number, the two
bytes of the condition pointer and scale, in that order. -/
theorem C17_bytes_consumed_for_area_192 {Obj : Type} (env : Env Obj) (v : Variant)
    (file : File) :
    (∀ r, load8bitArea env v file = .ok r → file.data[file.pos + 2]? = some 192 →
      r.file = file.skip (headerSize v) ∧ r.file.pos = file.pos + headerSize v ∧
        r.file.data = file.data) ∧
    (∀ h f1, load8bitAreaHeader env v file = .ok (h, f1) →
      f1 = file.skip (headerSize v) ∧
      ∃ b0 b1 b2 b3 b4 b5 : Fin 256,
        file.data[file.pos]? = some b0 ∧ file.data[file.pos + 1]? = some b1 ∧
        file.data[file.pos + 2]? = some b2 ∧ file.data[file.pos + 3]? = some b3 ∧
        file.data[file.pos + 4]? = some b4 ∧ file.data[file.pos + 5]? = some b5 ∧
        h.areaFlags = b0.val ∧ h.numberOfObjects = b1.val ∧ h.areaNumber = b2.val ∧
        h.cPtr = b3.val + 256 * b4.val ∧ h.scale = b5.val) ∧
    (isEclipse v = true → headerSize v = 15) ∧
    (isDriller v = true ∨ isDark v = true → headerSize v = 25) ∧
    (isCastle v = true → (isSpectrum v = true ∨ isCPC v = true ∨ isC64 v = true) →
      headerSize v = 8) ∧
    (isCastle v = true → (isDOS v = true ∨ isAmiga v = true) → headerSize v = 15) ∧
    (isCastle v = true → isSpectrum v = false → isCPC v = false → isC64 v = false →
      isDOS v = false → isAmiga v = false → headerSize v = 11) := by
  refine ⟨?_, ?_, ?_, ?_, ?_, ?_, ?_⟩
  · intro r hr ha
    obtain ⟨h, f1, st, hh, hst, _, _, _, _, _, _, _, _, _, _, _, _, _, _, hfile⟩ :=
      load8bitArea_fields env v file r hr
    obtain ⟨_, _, _, _, ha', halt, _, _⟩ := header_bytes env v file h f1 hh
    rw [ha] at ha'
    have h192 : h.areaNumber = 192 := by
      have := congrArg Fin.val (Option.some.inj ha')
      simp only [Fin.ofNat] at this
      rw [Nat.mod_eq_of_lt halt] at this
      exact this.symm
    rw [h192, objectLoop_192] at hst
    cases hst
    obtain ⟨hf1, _⟩ := header_size env v file h f1 hh
    rw [hfile]
    simp only
    rw [hf1]
    exact ⟨rfl, rfl, rfl⟩
  · intro h f1 hh
    refine ⟨(header_size env v file h f1 hh).1, ?_⟩
    obtain ⟨b0, b1, b2, b3, b4, b5, h0, h1, h2, h3, h4, h5, c, f7, t, _, _, rfl⟩ :=
      (load8bitAreaHeader_ok_iff env v file h f1).1 hh
    exact ⟨b0, b1, b2, b3, b4, b5, h0, h1, h2, h3, h4, h5, rfl, rfl, rfl, rfl, rfl⟩
  all_goals
    obtain ⟨title, platform, release⟩ := v
    cases title <;> cases platform <;>
      simp [headerSize, usesAttributeByte, isEclipse, isDriller, isDark, isCastle, isDOS,
        isAmiga, isSpectrum, isCPC, isC64]

/-- Witness of C17: Eclipse on DOS, an area record with number 192 and declared object
count 200; the cursor is left 15 bytes after the start of the record. -/
theorem C17_bytes_consumed_for_area_192_witness :
    ∃ r : LoadedArea SampleObject,
      load8bitArea sampleEnv ⟨.eclipse, .dos, .full⟩
        ⟨[0x05, 200, 192, 0, 0, 1, 1, 2, 3, 4, 2, 48, 49, 50, 51, 9, 9], 0⟩ = .ok r ∧
      r.file.pos = 0 + 15 := by
  obtain ⟨r, hr⟩ := ok_of_isSome (load8bitArea sampleEnv ⟨.eclipse, .dos, .full⟩
    ⟨[0x05, 200, 192, 0, 0, 1, 1, 2, 3, 4, 2, 48, 49, 50, 51, 9, 9], 0⟩) (by decide)
  exact ⟨r, hr, ((C17_bytes_consumed_for_area_192 sampleEnv ⟨.eclipse, .dos, .full⟩ _).1 r hr
    (by decide)).2.1⟩

/-- C18: every object stored in either collection of the returned Area is an object returned
by the object decoder for one of the declared records, with `scale` applied to it once with
the scale byte (byte 5 of the record); the type that selects the collection and the
identifier that gives the key are those of the scaled object. -/
theorem C18_stored_objects_are_scaled {Obj : Type} (env : Env Obj) (v : Variant)
    (file : File) (r : LoadedArea Obj) (n s : Fin 256)
    (hn : file.data[file.pos + 1]? = some n) (hs : file.data[file.pos + 5]? = some s)
    (hr : load8bitArea env v file = .ok r) :
    r.area.scale = s.val ∧
    (∀ k o, (k, o) ∈ r.area.entrancesByID.entries →
      ∃ o' ∈ rawObjects env n.val (file.skip (headerSize v)), o = env.scale s.val o' ∧
        env.getType (env.scale s.val o') = env.kEntranceType ∧
        k = (env.getObjectID (env.scale s.val o')).val &&& 0x7fff) ∧
    (∀ k o, (k, o) ∈ r.area.objectsByID.entries →
      ∃ o' ∈ rawObjects env n.val (file.skip (headerSize v)), o = env.scale s.val o' ∧
        env.getType (env.scale s.val o') ≠ env.kEntranceType ∧
        k = (env.getObjectID (env.scale s.val o')).val) := by
  obtain ⟨h, f1, st, hh, hst, rfl⟩ := (load8bitArea_ok_iff env v file r).1 hr
  obtain ⟨_, _, hn', hnlt, _, _, hs', hslt⟩ := header_bytes env v file h f1 hh
  rw [hn] at hn'
  rw [hs] at hs'
  have en : h.numberOfObjects = n.val := by
    have := congrArg Fin.val (Option.some.inj hn')
    simpa [Fin.ofNat, Nat.mod_eq_of_lt hnlt] using this.symm
  have es : h.scale = s.val := by
    have := congrArg Fin.val (Option.some.inj hs')
    simpa [Fin.ofNat, Nat.mod_eq_of_lt hslt] using this.symm
  obtain ⟨hf1, _⟩ := header_size env v file h f1 hh
  refine ⟨es, ?_⟩
  by_cases ha : h.areaNumber = 192
  · rw [ha, objectLoop_192] at hst
    cases hst
    constructor
    · intro k o hm
      simp [makeArea, ObjectMap.empty] at hm
    · intro k o hm
      simp [makeArea, ObjectMap.empty] at hm
  · obtain ⟨objs, f', hd, _, _, _, _, he, ho⟩ :=
      objectLoop_ok env h.scale h.areaNumber ha _ _ st hst
    obtain ⟨hraw, _⟩ := decodeObjects_raw env _ _ _ objs f' hd
    simp only at hraw he ho
    rw [en, es, hf1] at hraw
    constructor
    · intro k o hm
      have hm' : (k, o) ∈ (entrancesOf env objs ObjectMap.empty).entries := by
        rw [← he]; exact hm
      rcases assignAll_mem _ _ objs _ _ hm' with h0 | ⟨h1, h2, h3⟩
      · simp [ObjectMap.empty] at h0
      · simp only at h1 h2 h3
        rw [hraw, List.mem_map] at h1
        obtain ⟨o', ho', rfl⟩ := h1
        exact ⟨o', ho', rfl, h2, h3⟩
    · intro k o hm
      have hm' : (k, o) ∈ (objectsOf env objs ObjectMap.empty).entries := by
        rw [← ho]; exact hm
      rcases assignAll_mem _ _ objs _ _ hm' with h0 | ⟨h1, h2, h3⟩
      · simp [ObjectMap.empty] at h0
      · simp only at h1 h2 h3
        rw [hraw, List.mem_map] at h1
        obtain ⟨o', ho', rfl⟩ := h1
        exact ⟨o', ho', rfl, h2, h3⟩

/-- Witness of C18: Driller on DOS with scale byte 3 and one entrance record; the stored
object is the decoded one with the scale factor 3 applied once. -/
theorem C18_stored_objects_are_scaled_witness :
    ∃ r : LoadedArea SampleObject,
      load8bitArea sampleEnv ⟨.driller, .dos, .full⟩
        ⟨[0x53, 1, 7, 0, 0, 3, 1, 2, 3, 4, 9, 8, 7,
          65, 66, 67, 68, 69, 70, 71, 72, 73, 74, 75, 76, 0, 1, 0], 0⟩ = .ok r ∧
      r.area.scale = 3 ∧ r.area.entrancesByID.entries = [(1, ⟨0, 1, [3]⟩)] := by
  obtain ⟨r, hr, hre⟩ := ok_of_toOption (load8bitArea sampleEnv ⟨.driller, .dos, .full⟩
    ⟨[0x53, 1, 7, 0, 0, 3, 1, 2, 3, 4, 9, 8, 7,
      65, 66, 67, 68, 69, 70, 71, 72, 73, 74, 75, 76, 0, 1, 0], 0⟩)
    (fun r => r.area.entrancesByID.entries) [(1, ⟨0, 1, [3]⟩)] (by decide)
  exact ⟨r, hr, (C18_stored_objects_are_scaled sampleEnv _ _ r 1 3 (by decide) (by decide)
    hr).1, hre⟩

/-- C19: for Castle on C64 the colour stage consumes the attribute byte and ignores its
value: the returned Area has paper 0, ink 0, background 0, under-fire background 0 and sky
colour 0, and two records that differ only in the attribute byte (byte 6) decode to the same
colours. -/
theorem C19_attribute_byte_ignored_on_c64 {Obj : Type} (env : Env Obj) (v : Variant)
    (file : File) (r : LoadedArea Obj) (hv : isCastle v = true) (hc : isC64 v = true)
    (hr : load8bitArea env v file = .ok r) :
    r.area.paperColor = 0 ∧ r.area.inkColor = 0 ∧ r.area.usualBackgroundColor = 0 ∧
    r.area.underFireBackgroundColor = 0 ∧ r.area.skyColor = 0 ∧
    (∀ sky file' c f1, readColours v sky file' = .ok (c, f1) →
      f1 = file'.skip 1 ∧ c = ⟨0, 0, 0, 0, 0⟩) ∧
    (∀ (file' : File) (r' : LoadedArea Obj), file'.pos = file.pos →
      (∀ i, i ≠ file.pos + 6 → file'.data[i]? = file.data[i]?) →
      load8bitArea env v file' = .ok r' →
      r'.area.paperColor = r.area.paperColor ∧ r'.area.inkColor = r.area.inkColor ∧
      r'.area.usualBackgroundColor = r.area.usualBackgroundColor ∧
      r'.area.underFireBackgroundColor = r.area.underFireBackgroundColor ∧
      r'.area.skyColor = r.area.skyColor ∧ r'.area.groundColor = r.area.groundColor) := by
  have hattr : usesAttributeByte v = true := by simp [usesAttributeByte, hv, hc]
  have hplat : isSpectrum v = false ∧ isCPC v = false := by
    obtain ⟨title, platform, release⟩ := v
    cases platform <;> simp [isC64, isSpectrum, isCPC] at hc ⊢
  have hcol : ∀ sky file' c f1, readColours v sky file' = .ok (c, f1) →
      f1 = file'.skip 1 ∧ c = ⟨0, 0, 0, 0, 0⟩ := by
    intro sky file' c f1 h
    obtain ⟨a, _, hc', hf⟩ := (readColours_attr_iff v sky file' c f1 hattr).1 h
    refine ⟨hf, ?_⟩
    rw [hc']
    simp [hplat.1, hplat.2]
  have hall : ∀ (file : File) (r : LoadedArea Obj), load8bitArea env v file = .ok r →
      r.area.paperColor = 0 ∧ r.area.inkColor = 0 ∧ r.area.usualBackgroundColor = 0 ∧
      r.area.underFireBackgroundColor = 0 ∧ r.area.skyColor = 0 ∧
      ∃ f : Fin 256, file.data[file.pos]? = some f ∧
        r.area.groundColor =
          (if swapsSkyAndGround v = true then f.val % 16
            else if f.val / 16 = 0 then 255 else f.val / 16) := by
    intro file r hr
    obtain ⟨h, f1, st, hh, _, _, es, eg, e1, e2, e3, e4, _⟩ := load8bitArea_fields env v file r hr
    obtain ⟨c, f7, t, hc', _, _, e1', e2', e3', e4', _⟩ := header_split env v file h f1 hh
    obtain ⟨flags, hfl, _, hs, hg⟩ := header_colours env v file h f1 hh
    obtain ⟨_, rfl⟩ := hcol _ _ c f7 hc'
    rw [es, eg, e1, e2, e3, e4, e1', e2', e3', e4', hs, hg]
    exact ⟨rfl, rfl, rfl, rfl, by simp [hattr], flags, hfl, rfl⟩
  obtain ⟨p1, p2, p3, p4, p5, f, hf, hg⟩ := hall file r hr
  refine ⟨p1, p2, p3, p4, p5, hcol, ?_⟩
  intro file' r' hpos hdata hr'
  obtain ⟨q1, q2, q3, q4, q5, f', hf', hg'⟩ := hall file' r' hr'
  rw [hpos, hdata file.pos (by omega), hf] at hf'
  cases hf'
  rw [p1, p2, p3, p4, p5, q1, q2, q3, q4, q5, hg, hg']
  exact ⟨rfl, rfl, rfl, rfl, rfl, rfl⟩

/-- Witness of C19: Castle on C64 with attribute byte 0x12 returns paper 0 and ink 0. -/
theorem C19_attribute_byte_ignored_on_c64_witness :
    ∃ r : LoadedArea SampleObject,
      load8bitArea sampleEnv ⟨.castle, .c64, .full⟩
        ⟨[0x35, 0, 7, 0, 0, 3, 0x12, 200], 0⟩ = .ok r ∧
      r.area.paperColor = 0 ∧ r.area.inkColor = 0 := by
  obtain ⟨r, hr⟩ := ok_of_isSome (load8bitArea sampleEnv ⟨.castle, .c64, .full⟩
    ⟨[0x35, 0, 7, 0, 0, 3, 0x12, 200], 0⟩) (by decide)
  have hT := C19_attribute_byte_ignored_on_c64 sampleEnv _ _ r (by decide) (by decide) hr
  exact ⟨r, hr, hT.1, hT.2.1⟩

/-- C20: a record for which the object decoder yields no object stores nothing and raises no
error; the loop goes on with one turn fewer left, so the record counts against the declared
object count. In a returned Area the sizes of the two collections together are at most the
declared count (byte 1 of the record); for an area number other than 192 they are at most
the number of decoded objects, and they equal the declared count exactly when every record
yields an object and no two keys of the same collection coincide. -/
theorem C20_null_objects_and_sizes {Obj : Type} (env : Env Obj) (v : Variant) (file : File)
    (r : LoadedArea Obj) (n a s : Fin 256)
    (hn : file.data[file.pos + 1]? = some n) (ha : file.data[file.pos + 2]? = some a)
    (hs : file.data[file.pos + 5]? = some s)
    (hr : load8bitArea env v file = .ok r) :
    r.area.objectsByID.size + r.area.entrancesByID.size ≤ n.val ∧
    (a.val ≠ 192 →
      r.calls = n.val ∧
      r.area.objectsByID.size + r.area.entrancesByID.size ≤
        ((rawObjects env n.val (file.skip (headerSize v))).map (env.scale s.val)).length ∧
      (rawObjects env n.val (file.skip (headerSize v))).length ≤ n.val ∧
      (r.area.objectsByID.size + r.area.entrancesByID.size = n.val ↔
        (rawObjects env n.val (file.skip (headerSize v))).length = n.val ∧
        (entranceKeys env
          ((rawObjects env n.val (file.skip (headerSize v))).map (env.scale s.val))).Nodup ∧
        (objectKeys env
          ((rawObjects env n.val (file.skip (headerSize v))).map (env.scale s.val))).Nodup)) ∧
    (∀ scale (st : LoopState Obj) f', env.load8bitObject st.file = .ok (none, f') →
      loopBody env scale st = .ok { st with file := f', calls := st.calls + 1 }) ∧
    (∀ scale areaNumber m (st : LoopState Obj) f', areaNumber ≠ 192 →
      env.load8bitObject st.file = .ok (none, f') →
      objectLoop env scale areaNumber (m + 1) st =
        objectLoop env scale areaNumber m { st with file := f', calls := st.calls + 1 }) := by
  have hnull : ∀ scale (st : LoopState Obj) f', env.load8bitObject st.file = .ok (none, f') →
      loopBody env scale st = .ok { st with file := f', calls := st.calls + 1 } := by
    intro scale st f' hd
    exact (loopBody_ok_iff env scale st _).2 ⟨none, f', hd, Or.inl ⟨rfl, rfl⟩⟩
  obtain ⟨h, f1, st, hh, hst, rfl⟩ := (load8bitArea_ok_iff env v file r).1 hr
  obtain ⟨_, _, hn', hnlt, ha', halt, hs', hslt⟩ := header_bytes env v file h f1 hh
  rw [hn] at hn'
  rw [ha] at ha'
  rw [hs] at hs'
  have en : h.numberOfObjects = n.val := by
    have := congrArg Fin.val (Option.some.inj hn')
    simpa [Fin.ofNat, Nat.mod_eq_of_lt hnlt] using this.symm
  have ea : h.areaNumber = a.val := by
    have := congrArg Fin.val (Option.some.inj ha')
    simpa [Fin.ofNat, Nat.mod_eq_of_lt halt] using this.symm
  have es : h.scale = s.val := by
    have := congrArg Fin.val (Option.some.inj hs')
    simpa [Fin.ofNat, Nat.mod_eq_of_lt hslt] using this.symm
  obtain ⟨hf1, _⟩ := header_size env v file h f1 hh
  have hmain : a.val ≠ 192 →
      (makeArea h st).calls = n.val ∧
      (makeArea h st).area.objectsByID.size + (makeArea h st).area.entrancesByID.size ≤
        ((rawObjects env n.val (file.skip (headerSize v))).map (env.scale s.val)).length ∧
      (rawObjects env n.val (file.skip (headerSize v))).length ≤ n.val ∧
      ((makeArea h st).area.objectsByID.size + (makeArea h st).area.entrancesByID.size =
          n.val ↔
        (rawObjects env n.val (file.skip (headerSize v))).length = n.val ∧
        (entranceKeys env
          ((rawObjects env n.val (file.skip (headerSize v))).map (env.scale s.val))).Nodup ∧
        (objectKeys env
          ((rawObjects env n.val (file.skip (headerSize v))).map (env.scale s.val))).Nodup) := by
    intro hne
    obtain ⟨objs, f', hd, hnd, _, _, hcalls, he, ho⟩ :=
      objectLoop_ok env h.scale h.areaNumber (by rw [ea]; exact hne) _ _ st hst
    obtain ⟨hraw, hlen⟩ := decodeObjects_raw env _ _ _ objs f' hd
    simp only at hraw he ho hcalls
    rw [en, es, hf1] at hraw
    rw [en] at hlen hcalls
    rw [← hraw]
    have hlen' : (rawObjects env n.val (file.skip (headerSize v))).length = objs.length := by
      rw [hraw, List.length_map]
    have hE : (entrancesOf env objs ObjectMap.empty).size =
        (objs.filter (fun o => decide (env.getType o = env.kEntranceType))).length := by
      have := (assignAll_size_eq_iff (fun o => env.getType o = env.kEntranceType)
        (entranceKey env) objs ObjectMap.empty).2 ⟨hnd, fun k _ => rfl⟩
      simpa [entrancesOf, ObjectMap.size, ObjectMap.empty] using this
    have hOle := assignAll_size_le (fun o => ¬ env.getType o = env.kEntranceType)
      (fun o => (env.getObjectID o).val) objs ObjectMap.empty
    have hOiff := assignAll_size_eq_iff (fun o => ¬ env.getType o = env.kEntranceType)
      (fun o => (env.getObjectID o).val) objs ObjectMap.empty
    have hsplit := filter_split_length (fun o => env.getType o = env.kEntranceType) objs
    have hz : (ObjectMap.empty : ObjectMap Obj).size = 0 := rfl
    rw [hz, Nat.zero_add] at hOle hOiff
    have hO' : (makeArea h st).area.objectsByID.size =
        (objectsOf env objs ObjectMap.empty).size := by
      show st.objectsByID.size = _
      rw [ho]
    have hE' : (makeArea h st).area.entrancesByID.size =
        (entrancesOf env objs ObjectMap.empty).size := by
      show st.entrancesByID.size = _
      rw [he]
    rw [hO', hE', hE, hlen']
    have hOle' : (objectsOf env objs ObjectMap.empty).size ≤
        (objs.filter (fun o => decide (¬ env.getType o = env.kEntranceType))).length := hOle
    refine ⟨by show st.calls = n.val; omega, by omega, hlen, ?_⟩
    constructor
    · intro hsum
      have hOeq : (objectsOf env objs ObjectMap.empty).size =
          (objs.filter (fun o => decide (¬ env.getType o = env.kEntranceType))).length := by
        omega
      exact ⟨by omega, hnd, (hOiff.1 hOeq).1⟩
    · rintro ⟨hL, _, hndO⟩
      have hOeq : (objectsOf env objs ObjectMap.empty).size =
          (objs.filter (fun o => decide (¬ env.getType o = env.kEntranceType))).length :=
        hOiff.2 ⟨hndO, fun k _ => rfl⟩
      omega
  refine ⟨?_, hmain, hnull, ?_⟩
  · by_cases h192 : a.val = 192
    · rw [ea, h192, objectLoop_192] at hst
      cases hst
      show (ObjectMap.empty : ObjectMap Obj).size + (ObjectMap.empty : ObjectMap Obj).size ≤ _
      simp [ObjectMap.size, ObjectMap.empty]
    · obtain ⟨_, h2, h3, _⟩ := hmain h192
      rw [List.length_map] at h2
      omega
  · intro scale areaNumber m st' f' hne hd
    simp only [objectLoop, hne, ne_eq, not_false_eq_true, if_true, hnull scale st' f' hd, bind,
      Except.bind]

/-- Witness of C20: Driller on DOS, declared object count 2; the first record yields no
object (type tag 255), the second an entrance. The load returns with one stored object and
two decoder calls. -/
theorem C20_null_objects_and_sizes_witness :
    ∃ r : LoadedArea SampleObject,
      load8bitArea sampleEnv ⟨.driller, .dos, .full⟩
        ⟨[0x53, 2, 7, 0, 0, 3, 1, 2, 3, 4, 9, 8, 7,
          65, 66, 67, 68, 69, 70, 71, 72, 73, 74, 75, 76, 255, 9, 0, 0, 1, 0], 0⟩ = .ok r ∧
      r.area.objectsByID.size + r.area.entrancesByID.size ≤ 2 ∧
      r.area.objectsByID.size + r.area.entrancesByID.size = 1 ∧ r.calls = 2 := by
  obtain ⟨r, hr, hre⟩ := ok_of_toOption (load8bitArea sampleEnv ⟨.driller, .dos, .full⟩
    ⟨[0x53, 2, 7, 0, 0, 3, 1, 2, 3, 4, 9, 8, 7,
      65, 66, 67, 68, 69, 70, 71, 72, 73, 74, 75, 76, 255, 9, 0, 0, 1, 0], 0⟩)
    (fun r => r.area.objectsByID.size + r.area.entrancesByID.size) 1 (by decide)
  have hT := C20_null_objects_and_sizes sampleEnv _ _ r 2 7 3 (by decide) (by decide)
    (by decide) hr
  exact ⟨r, hr, hT.1, hre, (hT.2.1 (by decide)).1⟩

end Freescape
